import Mathlib

/-!
# mono/metadata/mono-debug.c

A shallow embedding of the JIT debug-record store of `mono-debug.c` and the
properties of its wire format, its per-domain tables and its line-table scan.

Conventions of the embedding.

* A `guint8 *` cursor is the list of bytes from the cursor on: `*ptr++` takes the
  head and continues with the tail, and a writer returns the bytes it stores
  (its cursor advances by their number).  Reading past the last byte of a
  record is undefined in C; the readers return `none` there.
* A `guint32` is a `Nat` below `2 ^ 32`, a `gint32` is an `Int` from `-2 ^ 31`
  to `2 ^ 31 - 1`; conversions between the two keep the 32-bit pattern
  (`toInt32`, `ofInt32`).  Arithmetic that can leave 32 bits wraps around.
* Pointers used as keys (`MonoDomain *`, `MonoMethod *`) are their addresses.
* The recursive lock is not modelled beyond the assertion in
  `mono_debugger_lock`; memory pools and `g_free` are not modelled.
* The functions of other files that the source calls are the fields of `Runtime`;
  the calls that change the state of a collaborator (retain and release of a
  module, open and close of a symbol file) are recorded in `RegistryState.calls`.
-/

namespace MonoDebug

/-! ## 32-bit integers -/

/-- The `gint32` with the same 32-bit pattern as the low 32 bits of `x`. -/
def toInt32 (x : Nat) : Int :=
  if x % 2 ^ 32 < 2 ^ 31 then ((x % 2 ^ 32 : Nat) : Int) else ((x % 2 ^ 32 : Nat) : Int) - 2 ^ 32

/-- The `guint32` with the same 32-bit pattern as the `gint32` `i`. -/
def ofInt32 (i : Int) : Nat :=
  (i % 2 ^ 32).toNat

/-! ## Variable-length integers (lines 376-407 and 529-569) -/

/-- The loop of `write_leb128`; the first argument bounds the number of iterations that are
left (`write_leb128` passes a bound the loop never reaches).
```
do {
    guint8 byte = value & 0x7f;
    value >>= 7;
    if (value) byte |= 0x80;
    *ptr++ = byte;
} while (value);
``` -/
def write_leb128_loop : Nat → Nat → List Nat
  | 0, _ => []
  | fuel + 1, value =>
    let byte := value &&& 0x7f
    let value1 := value >>> 7
    if value1 = 0 then
      [byte]
    else
      (byte ||| 0x80) :: write_leb128_loop fuel value1

/-- The `write_leb128 (value, ptr, &ptr)` of the source: the bytes stored from `ptr` on.  The
loop divides `value` by 128 each time round, so `value + 1` rounds are never used up. -/
def write_leb128 (value : Nat) : List Nat :=
  write_leb128_loop (value + 1) value

/-- The loop of `write_sleb128`; `value >>= 7` on a `gint32` is the arithmetic shift,
`value & 0x7f` the low seven bits of the two's complement pattern.  The first argument
bounds the number of iterations that are left.
```
while (more) {
    guint8 byte = value & 0x7f;
    value >>= 7;
    if (((value == 0) && ((byte & 0x40) == 0)) || ((value == -1) && (byte & 0x40)))
        more = 0;
    else
        byte |= 0x80;
    *ptr++ = byte;
}
``` -/
def write_sleb128_loop : Nat → Int → List Nat
  | 0, _ => []
  | fuel + 1, value =>
    let byte := (value % 128).toNat
    let value1 := value / 128
    if (value1 = 0 ∧ byte &&& 0x40 = 0) ∨ (value1 = -1 ∧ byte &&& 0x40 ≠ 0) then
      [byte]
    else
      (byte ||| 0x80) :: write_sleb128_loop fuel value1

/-- The `write_sleb128 (value, ptr, &ptr)` of the source: the bytes stored from `ptr` on.  The
loop brings `value` closer to 0 or -1 each time round, so `|value| + 1` rounds are never
used up. -/
def write_sleb128 (value : Int) : List Nat :=
  write_sleb128_loop (value.natAbs + 1) value

/-- The loop of `read_leb128` with its locals `result` and `shift`.  The shifted group is
kept to 32 bits.
```
while (TRUE) {
    guint8 byte = *ptr++;
    result |= (byte & 0x7f) << shift;
    if ((byte & 0x80) == 0) break;
    shift += 7;
}
``` -/
def read_leb128_loop (result shift : Nat) : List Nat → Option (Nat × List Nat)
  | [] => none
  | byte :: ptr =>
    let result1 := result ||| (((byte &&& 0x7f) <<< shift) % 2 ^ 32)
    if byte &&& 0x80 = 0 then
      some (result1, ptr)
    else
      read_leb128_loop result1 ((shift + 7) % 2 ^ 32) ptr

/-- The `read_leb128 (ptr, &ptr)` of the source: the value and the cursor after it. -/
def read_leb128 (ptr : List Nat) : Option (Nat × List Nat) :=
  read_leb128_loop 0 0 ptr

/-- The loop of `read_sleb128`; `result` is the 32-bit pattern of the `gint32` local, and
`- (1 << shift)` is the pattern `2 ^ 32 - 2 ^ shift`.
```
while (TRUE) {
    guint8 byte = *ptr++;
    result |= (byte & 0x7f) << shift;
    shift += 7;
    if (byte & 0x80) continue;
    if ((shift < 32) && (byte & 0x40))
        result |= - (1 << shift);
    break;
}
``` -/
def read_sleb128_loop (result shift : Nat) : List Nat → Option (Nat × List Nat)
  | [] => none
  | byte :: ptr =>
    let result1 := result ||| (((byte &&& 0x7f) <<< shift) % 2 ^ 32)
    let shift1 := (shift + 7) % 2 ^ 32
    if byte &&& 0x80 ≠ 0 then
      read_sleb128_loop result1 shift1 ptr
    else if shift1 < 32 ∧ byte &&& 0x40 ≠ 0 then
      some (result1 ||| (2 ^ 32 - 2 ^ shift1), ptr)
    else
      some (result1, ptr)

/-- The `read_sleb128 (ptr, &ptr)` of the source: the `gint32` value and the cursor after it. -/
def read_sleb128 (ptr : List Nat) : Option (Int × List Nat) :=
  (read_sleb128_loop 0 0 ptr).map fun r => (toInt32 r.1, r.2)

/-- The `WRITE_UNALIGNED (gpointer, ptr, val); ptr += sizeof (gpointer)` of the source: the
`size` bytes of the pointer `val`, least significant byte first. -/
def WRITE_UNALIGNED : Nat → Nat → List Nat
  | 0, _ => []
  | size + 1, val => val % 256 :: WRITE_UNALIGNED size (val / 256)

/-- The `READ_UNALIGNED (gpointer, ptr, val); ptr += sizeof (gpointer)` of the source: the
pointer held by the next `size` bytes, and the cursor after them. -/
def READ_UNALIGNED : Nat → List Nat → Option (Nat × List Nat)
  | 0, ptr => some (0, ptr)
  | _ + 1, [] => none
  | size + 1, byte :: ptr =>
    (READ_UNALIGNED size ptr).map fun r => (byte + 256 * r.1, r.2)

/-! ## The JIT debug record (lines 409-420, 440-479 and 571-646) -/

/-- Modelled from the spec: the declaration of `MonoDebugLineNumberEntry` (mono-debug.h) is
not among the sources; an entry is an (IL offset, native offset) pair of 32-bit fields,
kept here as their unsigned 32-bit patterns. -/
structure MonoDebugLineNumberEntry where
  il_offset : Nat
  native_offset : Nat
  deriving DecidableEq, Repr

/-- Modelled from the spec: the declaration of `MonoDebugVarInfo` (mono-debug.h) is not among
the sources; a descriptor has an index, an offset, a size, a begin and an end scope (32-bit
fields, kept as unsigned patterns) and an opaque pointer-sized type reference. -/
structure MonoDebugVarInfo where
  index : Nat
  offset : Nat
  size : Nat
  begin_scope : Nat
  end_scope : Nat
  type : Nat
  deriving DecidableEq, Repr

/-- Modelled from the spec: the declaration of `MonoDebugMethodJitInfo` (mono-debug.h) is not
among the sources; these are the fields `mono_debug_add_method` and `mono_debug_read_method`
use.  A null pointer to a descriptor is `none`; an array is the list of its elements, its
count field is kept beside it. -/
structure MonoDebugMethodJitInfo where
  code_start : Nat
  code_size : Nat
  prologue_end : Nat
  epilogue_begin : Nat
  num_line_numbers : Nat
  line_numbers : List MonoDebugLineNumberEntry
  this_var : Option MonoDebugVarInfo
  num_params : Nat
  params : List MonoDebugVarInfo
  num_locals : Nat
  locals : List MonoDebugVarInfo
  gsharedvt_info_var : Option MonoDebugVarInfo
  gsharedvt_locals_var : Option MonoDebugVarInfo
  deriving DecidableEq, Repr

/-- The `struct _MonoDebugMethodAddress` of the source: the serialised record. -/
structure MonoDebugMethodAddress where
  code_start : Nat
  code_size : Nat
  data : List Nat
  deriving DecidableEq, Repr

/-- The `write_variable (var, ptr, &ptr)` of the source. -/
def write_variable (sizeof_gpointer : Nat) (var : MonoDebugVarInfo) : List Nat :=
  write_leb128 var.index ++ (write_sleb128 (toInt32 var.offset) ++ (write_leb128 var.size ++
    (write_leb128 var.begin_scope ++ (write_leb128 var.end_scope ++
      WRITE_UNALIGNED sizeof_gpointer var.type))))

/-- The `read_variable (var, ptr, &ptr)` of the source: the descriptor and the cursor after
it. -/
def read_variable (sizeof_gpointer : Nat) (ptr : List Nat) : Option (MonoDebugVarInfo × List Nat) :=
  match read_leb128 ptr with
  | none => none
  | some (index, ptr) =>
  match read_sleb128 ptr with
  | none => none
  | some (offset, ptr) =>
  match read_leb128 ptr with
  | none => none
  | some (size, ptr) =>
  match read_leb128 ptr with
  | none => none
  | some (begin_scope, ptr) =>
  match read_leb128 ptr with
  | none => none
  | some (end_scope, ptr) =>
  match READ_UNALIGNED sizeof_gpointer ptr with
  | none => none
  | some (type, ptr) =>
    some ({ index := index, offset := ofInt32 offset, size := size, begin_scope := begin_scope,
            end_scope := end_scope, type := type }, ptr)

/-- The line-number loop of `mono_debug_add_method` (lines 452-457): `n` entries are taken from
the array; `none` when the array has fewer. -/
def write_line_numbers : Nat → List MonoDebugLineNumberEntry → Option (List Nat)
  | 0, _ => some []
  | _ + 1, [] => none
  | n + 1, lne :: rest =>
    (write_line_numbers n rest).map fun out =>
      write_sleb128 (toInt32 lne.il_offset) ++ (write_sleb128 (toInt32 lne.native_offset) ++ out)

/-- The parameter and local loops of `mono_debug_add_method` (lines 464-465 and 468-469): `n`
descriptors are taken from the array; `none` when the array has fewer. -/
def write_variables (sizeof_gpointer : Nat) : Nat → List MonoDebugVarInfo → Option (List Nat)
  | 0, _ => some []
  | _ + 1, [] => none
  | n + 1, var :: rest =>
    (write_variables sizeof_gpointer n rest).map fun out => write_variable sizeof_gpointer var ++ out

/-- The `*ptr++ = jit->this_var ? 1 : 0; if (jit->this_var) write_variable (...)` of
`mono_debug_add_method` (lines 459-461). -/
def write_this_var (sizeof_gpointer : Nat) : Option MonoDebugVarInfo → List Nat
  | some var => 1 :: write_variable sizeof_gpointer var
  | none => [0]

/-- The last writes of `mono_debug_add_method` (lines 471-475): the flag follows
`gsharedvt_info_var` alone and both descriptors are written when it is set; `none` when
`gsharedvt_locals_var` is then null. -/
def write_gsharedvt (sizeof_gpointer : Nat) :
    Option MonoDebugVarInfo → Option MonoDebugVarInfo → Option (List Nat)
  | none, _ => some [0]
  | some info, some loc =>
    some (1 :: (write_variable sizeof_gpointer info ++ write_variable sizeof_gpointer loc))
  | some _, none => none

/-- The bytes `mono_debug_add_method` writes into its buffer (lines 448-475); `none` when it
reads outside an array of `jit` or through the null `gsharedvt_locals_var`. -/
def mono_debug_add_method_write (sizeof_gpointer : Nat) (jit : MonoDebugMethodJitInfo) :
    Option (List Nat) :=
  match write_line_numbers jit.num_line_numbers jit.line_numbers with
  | none => none
  | some line_numbers =>
  match write_variables sizeof_gpointer jit.num_params jit.params with
  | none => none
  | some params =>
  match write_variables sizeof_gpointer jit.num_locals jit.locals with
  | none => none
  | some locals =>
  match write_gsharedvt sizeof_gpointer jit.gsharedvt_info_var jit.gsharedvt_locals_var with
  | none => none
  | some gsharedvt =>
    some (write_leb128 jit.prologue_end ++ (write_leb128 jit.epilogue_begin ++
      (write_leb128 jit.num_line_numbers ++ (line_numbers ++
        (write_this_var sizeof_gpointer jit.this_var ++
          (write_leb128 jit.num_params ++ (params ++
            (write_leb128 jit.num_locals ++ (locals ++ gsharedvt)))))))))

/-- The line-number loop of `mono_debug_read_method` (lines 616-621); the `gint32` results of
`read_sleb128` are stored in the 32-bit fields. -/
def read_line_numbers : Nat → List Nat → Option (List MonoDebugLineNumberEntry × List Nat)
  | 0, ptr => some ([], ptr)
  | n + 1, ptr =>
    match read_sleb128 ptr with
    | none => none
    | some (il_offset, ptr) =>
    match read_sleb128 ptr with
    | none => none
    | some (native_offset, ptr) =>
    match read_line_numbers n ptr with
    | none => none
    | some (rest, ptr) =>
      some ({ il_offset := ofInt32 il_offset, native_offset := ofInt32 native_offset } :: rest, ptr)

/-- The parameter and local loops of `mono_debug_read_method` (lines 630-631 and 635-636). -/
def read_variables (sizeof_gpointer : Nat) : Nat → List Nat → Option (List MonoDebugVarInfo × List Nat)
  | 0, ptr => some ([], ptr)
  | n + 1, ptr =>
    match read_variable sizeof_gpointer ptr with
    | none => none
    | some (var, ptr) =>
    match read_variables sizeof_gpointer n ptr with
    | none => none
    | some (rest, ptr) => some (var :: rest, ptr)

/-- The `if (*ptr++) { ... read_variable ... }` of `mono_debug_read_method` (lines 623-626). -/
def read_this_var (sizeof_gpointer : Nat) : List Nat → Option (Option MonoDebugVarInfo × List Nat)
  | [] => none
  | flag :: ptr =>
    if flag ≠ 0 then
      (read_variable sizeof_gpointer ptr).map fun r => (some r.1, r.2)
    else
      some (none, ptr)

/-- The last `if (*ptr++) { ... }` of `mono_debug_read_method` (lines 638-643): both helper
descriptors or neither. -/
def read_gsharedvt (sizeof_gpointer : Nat) :
    List Nat → Option (Option MonoDebugVarInfo × Option MonoDebugVarInfo)
  | [] => none
  | flag :: ptr =>
    if flag ≠ 0 then
      match read_variable sizeof_gpointer ptr with
      | none => none
      | some (info, ptr) =>
      match read_variable sizeof_gpointer ptr with
      | none => none
      | some (loc, _) => some (some info, some loc)
    else
      some (none, none)

/-- The `mono_debug_read_method (address)` of the source; `none` when a read leaves the bytes
of the record. -/
def mono_debug_read_method (sizeof_gpointer : Nat) (address : MonoDebugMethodAddress) :
    Option MonoDebugMethodJitInfo :=
  match read_leb128 address.data with
  | none => none
  | some (prologue_end, ptr) =>
  match read_leb128 ptr with
  | none => none
  | some (epilogue_begin, ptr) =>
  match read_leb128 ptr with
  | none => none
  | some (num_line_numbers, ptr) =>
  match read_line_numbers num_line_numbers ptr with
  | none => none
  | some (line_numbers, ptr) =>
  match read_this_var sizeof_gpointer ptr with
  | none => none
  | some (this_var, ptr) =>
  match read_leb128 ptr with
  | none => none
  | some (num_params, ptr) =>
  match read_variables sizeof_gpointer num_params ptr with
  | none => none
  | some (params, ptr) =>
  match read_leb128 ptr with
  | none => none
  | some (num_locals, ptr) =>
  match read_variables sizeof_gpointer num_locals ptr with
  | none => none
  | some (locals, ptr) =>
  match read_gsharedvt sizeof_gpointer ptr with
  | none => none
  | some (gsharedvt_info_var, gsharedvt_locals_var) =>
    some { code_start := address.code_start, code_size := address.code_size,
           prologue_end := prologue_end, epilogue_begin := epilogue_begin,
           num_line_numbers := num_line_numbers, line_numbers := line_numbers,
           this_var := this_var, num_params := num_params, params := params,
           num_locals := num_locals, locals := locals,
           gsharedvt_info_var := gsharedvt_info_var,
           gsharedvt_locals_var := gsharedvt_locals_var }

/-! ## Tables and global state (lines 39-109 and 128-211) -/

/-- A `GHashTable` with pointer keys (`g_hash_table_new (NULL, NULL)`): the entries, at most
one of which is found for a key. -/
abbrev GHashTable (α : Type) := List (Nat × α)

/-- The `g_hash_table_lookup (hash, key)` of glib: the value stored under `key`, or null. -/
def g_hash_table_lookup {α : Type} : GHashTable α → Nat → Option α
  | [], _ => none
  | (k, v) :: rest, key => if k = key then some v else g_hash_table_lookup rest key

/-- The `g_hash_table_insert (hash, key, value)` of glib: the value under `key` is replaced
when there is one, a new entry is added otherwise. -/
def g_hash_table_insert {α : Type} : GHashTable α → Nat → α → GHashTable α
  | [], key, value => [(key, value)]
  | (k, v) :: rest, key, value =>
    if k = key then (key, value) :: rest else (k, v) :: g_hash_table_insert rest key value

/-- The `g_hash_table_remove (hash, key)` of glib: no entry is left under `key`. -/
def g_hash_table_remove {α : Type} : GHashTable α → Nat → GHashTable α
  | [], _ => []
  | (k, v) :: rest, key =>
    if k = key then g_hash_table_remove rest key else (k, v) :: g_hash_table_remove rest key

/-- The ways an operation ends without returning. -/
inductive Fatal where
  /-- The `g_error` of `lookup_data_table` or `mono_debug_init`. -/
  | g_error
  /-- A failed `g_assert`. -/
  | g_assert
  /-- An access outside an array or through a null pointer. -/
  | undefined
  deriving DecidableEq, Repr

/-- Equality of results is decidable, so a result can be checked by evaluation. -/
instance instDecidableEqExcept {ε α : Type} [DecidableEq ε] [DecidableEq α] :
    DecidableEq (Except ε α) :=
  fun a b =>
    match a, b with
    | .ok x, .ok y =>
      if h : x = y then isTrue (congrArg Except.ok h) else isFalse fun h1 => h (Except.ok.inj h1)
    | .error x, .error y =>
      if h : x = y then isTrue (congrArg Except.error h)
      else isFalse fun h1 => h (Except.error.inj h1)
    | .ok _, .error _ => isFalse fun h => Except.noConfusion h
    | .error _, .ok _ => isFalse fun h => Except.noConfusion h

/-- Modelled from the spec: the declaration of `MonoDebugFormat` (mono-debug.h) is not among
the sources; these are the selectors the source names. -/
inductive MonoDebugFormat where
  | MONO_DEBUG_FORMAT_NONE
  | MONO_DEBUG_FORMAT_MONO
  | MONO_DEBUG_FORMAT_DEBUGGER
  deriving DecidableEq, Repr

/-- The `struct _MonoDebugDataTable` of the source, without its memory pool. -/
structure MonoDebugDataTable where
  method_address_hash : GHashTable MonoDebugMethodAddress
  deriving DecidableEq, Repr

/-- The file-level variables of the source that the data tables depend on; a table is kept
by value under the address of its domain, so a store through a `MonoDebugDataTable *`
replaces the value under that domain. -/
structure DebugState where
  mono_debug_format : MonoDebugFormat
  mono_debug_initialized : Bool
  initialized : Bool
  data_table_hash : GHashTable MonoDebugDataTable
  deriving DecidableEq, Repr

/-- The state at program start: the initialisers of the file-level variables. -/
def DebugState.start : DebugState :=
  { mono_debug_format := .MONO_DEBUG_FORMAT_NONE, mono_debug_initialized := false,
    initialized := false, data_table_hash := [] }

/-- The `mono_debugger_lock ()` and `mono_debugger_unlock ()` of the source: only their
`g_assert (initialized)` is kept. -/
def mono_debugger_lock (s : DebugState) : Except Fatal Unit :=
  if s.initialized then .ok () else .error .g_assert

/-- The `mono_debug_init (format)` of the source, for the variables of `DebugState`. -/
def mono_debug_init (s : DebugState) (format : MonoDebugFormat) : Except Fatal DebugState :=
  if s.mono_debug_initialized then .error .g_assert
  else if format = .MONO_DEBUG_FORMAT_DEBUGGER then .error .g_error
  else
    .ok { mono_debug_format := format, mono_debug_initialized := true, initialized := true,
          data_table_hash := [] }

/-- The `create_data_table (domain)` of the source: the new table, registered when `domain`
is not null. -/
def create_data_table (s : DebugState) (domain : Nat) : DebugState × MonoDebugDataTable :=
  let table : MonoDebugDataTable := { method_address_hash := [] }
  if domain ≠ 0 then
    ({ s with data_table_hash := g_hash_table_insert s.data_table_hash domain table }, table)
  else
    (s, table)

/-- The `lookup_data_table (domain)` of the source. -/
def lookup_data_table (s : DebugState) (domain : Nat) : Except Fatal MonoDebugDataTable :=
  match g_hash_table_lookup s.data_table_hash domain with
  | none => .error .g_error
  | some table => .ok table

/-- The `mono_debug_domain_create (domain)` of the source. -/
def mono_debug_domain_create (s : DebugState) (domain : Nat) : Except Fatal DebugState :=
  if !s.mono_debug_initialized then .ok s
  else
    match mono_debugger_lock s with
    | .error e => .error e
    | .ok _ => .ok (create_data_table s domain).1

/-- The `mono_debug_domain_unload (domain)` of the source. -/
def mono_debug_domain_unload (s : DebugState) (domain : Nat) : Except Fatal DebugState :=
  if !s.mono_debug_initialized then .ok s
  else
    match mono_debugger_lock s with
    | .error e => .error e
    | .ok _ =>
      match g_hash_table_lookup s.data_table_hash domain with
      | none => .ok s
      | some _ => .ok { s with data_table_hash := g_hash_table_remove s.data_table_hash domain }

/-! ## Insert, remove and find (lines 422-522 and 648-661) -/

/-- The `max_size` of `mono_debug_add_method` (lines 440-441), a `guint32`. -/
def max_size (sizeof_gpointer : Nat) (jit : MonoDebugMethodJitInfo) : Nat :=
  ((5 * 5) + 1 + (10 * jit.num_line_numbers) +
    (25 + sizeof_gpointer) * (1 + jit.num_params + jit.num_locals)) % 2 ^ 32

/-- The `mono_debug_add_method (method, jit, domain)` of the source: the new state and the
stored record.  The buffer holds `max_size` bytes when that is more than `BUFSIZ` and
`BUFSIZ` bytes otherwise; writing more is undefined.  The unused results of
`mono_debug_get_image` and `mono_debug_lookup_method_internal` are left out. -/
def mono_debug_add_method (sizeof_gpointer BUFSIZ : Nat) (s : DebugState) (method : Nat)
    (jit : MonoDebugMethodJitInfo) (domain : Nat) :
    Except Fatal (DebugState × MonoDebugMethodAddress) :=
  match mono_debugger_lock s with
  | .error e => .error e
  | .ok _ =>
  match lookup_data_table s domain with
  | .error e => .error e
  | .ok table =>
  let max_size := max_size sizeof_gpointer jit
  let capacity := if max_size > BUFSIZ then max_size else BUFSIZ
  match mono_debug_add_method_write sizeof_gpointer jit with
  | none => .error .undefined
  | some buffer =>
    if buffer.length > capacity then .error .undefined
    else
      let size := buffer.length % 2 ^ 32
      if ¬ size < max_size then .error .g_assert
      else
        let address : MonoDebugMethodAddress :=
          { code_start := jit.code_start, code_size := jit.code_size, data := buffer.take size }
        let table1 : MonoDebugDataTable :=
          { method_address_hash := g_hash_table_insert table.method_address_hash method address }
        .ok ({ s with data_table_hash := g_hash_table_insert s.data_table_hash domain table1 },
             address)

/-- The `mono_debug_remove_method (method, domain)` of the source; `method_is_dynamic` is the
macro of class-internals.h, a property of the method the source does not define. -/
def mono_debug_remove_method (method_is_dynamic : Nat → Bool) (s : DebugState) (method : Nat)
    (domain : Nat) : Except Fatal DebugState :=
  if !s.mono_debug_initialized then .ok s
  else if !method_is_dynamic method then .error .g_assert
  else
    match mono_debugger_lock s with
    | .error e => .error e
    | .ok _ =>
    match lookup_data_table s domain with
    | .error e => .error e
    | .ok table =>
      let table1 : MonoDebugDataTable :=
        { method_address_hash := g_hash_table_remove table.method_address_hash method }
      .ok { s with data_table_hash := g_hash_table_insert s.data_table_hash domain table1 }

/-- The `find_method (method, domain)` of the source: the decoded record, or null. -/
def find_method (sizeof_gpointer : Nat) (s : DebugState) (method : Nat) (domain : Nat) :
    Except Fatal (Option MonoDebugMethodJitInfo) :=
  match lookup_data_table s domain with
  | .error e => .error e
  | .ok table =>
    match g_hash_table_lookup table.method_address_hash method with
    | none => .ok none
    | some address =>
      match mono_debug_read_method sizeof_gpointer address with
      | none => .error .undefined
      | some jit => .ok (some jit)

/-! ## Native offset to IL offset (lines 684-726) -/

/-- The loop of `il_offset_from_address` (lines 694-701); the last argument is `i + 1` for the
`int i` of the source, so 0 ends the loop.
```
for (i = jit->num_line_numbers - 1; i >= 0; i--) {
    MonoDebugLineNumberEntry lne = jit->line_numbers [i];
    if (lne.native_offset <= native_offset)
        return lne.il_offset;
}
``` -/
def il_offset_from_address_loop (line_numbers : List MonoDebugLineNumberEntry)
    (native_offset : Nat) : Nat → Except Fatal Int
  | 0 => .ok (-1)
  | i + 1 =>
    match line_numbers[i]? with
    | none => .error .undefined
    | some lne =>
      if lne.native_offset ≤ native_offset then .ok (toInt32 lne.il_offset)
      else il_offset_from_address_loop line_numbers native_offset i

/-- The `il_offset_from_address (method, domain, native_offset)` of the source.  The array of
a decoded record is null exactly when it has no element (`g_new0` of no element); the
start `jit->num_line_numbers - 1` is computed in 32 bits and read as an `int`. -/
def il_offset_from_address (sizeof_gpointer : Nat) (s : DebugState) (method : Nat) (domain : Nat)
    (native_offset : Nat) : Except Fatal Int :=
  match find_method sizeof_gpointer s method domain with
  | .error e => .error e
  | .ok none => .ok (-1)
  | .ok (some jit) =>
    if jit.line_numbers = [] then .ok (-1)
    else
      let i := toInt32 ((jit.num_line_numbers + 2 ^ 32 - 1) % 2 ^ 32)
      if i < 0 then .ok (-1)
      else il_offset_from_address_loop jit.line_numbers native_offset (i.toNat + 1)

/-- The `mono_debug_il_offset_from_address (method, domain, native_offset)` of the source. -/
def mono_debug_il_offset_from_address (sizeof_gpointer : Nat) (s : DebugState) (method : Nat)
    (domain : Nat) (native_offset : Nat) : Except Fatal Int :=
  match mono_debugger_lock s with
  | .error e => .error e
  | .ok _ => il_offset_from_address sizeof_gpointer s method domain native_offset

/-! ## Well-formed values -/

/-- A line entry whose two fields are 32-bit. -/
def MonoDebugLineNumberEntry.WellFormed (lne : MonoDebugLineNumberEntry) : Prop :=
  lne.il_offset < 2 ^ 32 ∧ lne.native_offset < 2 ^ 32

instance (lne : MonoDebugLineNumberEntry) : Decidable lne.WellFormed := by
  unfold MonoDebugLineNumberEntry.WellFormed
  infer_instance

/-- A descriptor whose integer fields are 32-bit and whose type reference is a pointer of
`sizeof_gpointer` bytes. -/
def MonoDebugVarInfo.WellFormed (sizeof_gpointer : Nat) (var : MonoDebugVarInfo) : Prop :=
  var.index < 2 ^ 32 ∧ var.offset < 2 ^ 32 ∧ var.size < 2 ^ 32 ∧ var.begin_scope < 2 ^ 32 ∧
    var.end_scope < 2 ^ 32 ∧ var.type < 256 ^ sizeof_gpointer

instance (sizeof_gpointer : Nat) (var : MonoDebugVarInfo) :
    Decidable (var.WellFormed sizeof_gpointer) := by
  unfold MonoDebugVarInfo.WellFormed
  infer_instance

/-- A JIT debug info whose integer fields are 32-bit, whose count fields are the lengths of
its arrays, whose entries and descriptors are well formed and whose two generic-sharing
helper descriptors are both present or both absent. -/
def MonoDebugMethodJitInfo.WellFormed (sizeof_gpointer : Nat) (jit : MonoDebugMethodJitInfo) :
    Prop :=
  jit.code_size < 2 ^ 32 ∧ jit.prologue_end < 2 ^ 32 ∧ jit.epilogue_begin < 2 ^ 32 ∧
  jit.num_line_numbers < 2 ^ 32 ∧ jit.num_line_numbers = jit.line_numbers.length ∧
  (∀ lne ∈ jit.line_numbers, lne.WellFormed) ∧
  (∀ var ∈ jit.this_var, var.WellFormed sizeof_gpointer) ∧
  jit.num_params < 2 ^ 32 ∧ jit.num_params = jit.params.length ∧
  (∀ var ∈ jit.params, var.WellFormed sizeof_gpointer) ∧
  jit.num_locals < 2 ^ 32 ∧ jit.num_locals = jit.locals.length ∧
  (∀ var ∈ jit.locals, var.WellFormed sizeof_gpointer) ∧
  (jit.gsharedvt_info_var.isSome = jit.gsharedvt_locals_var.isSome) ∧
  (∀ var ∈ jit.gsharedvt_info_var, var.WellFormed sizeof_gpointer) ∧
  (∀ var ∈ jit.gsharedvt_locals_var, var.WellFormed sizeof_gpointer)

instance (sizeof_gpointer : Nat) (jit : MonoDebugMethodJitInfo) :
    Decidable (jit.WellFormed sizeof_gpointer) := by
  unfold MonoDebugMethodJitInfo.WellFormed
  infer_instance

/-! ## Sample values -/

/-- The state after `mono_debug_init (MONO_DEBUG_FORMAT_MONO)` and `mono_debug_domain_create`
for the domains at addresses 1 and 2. -/
def sample_state : DebugState :=
  { mono_debug_format := .MONO_DEBUG_FORMAT_MONO, mono_debug_initialized := true,
    initialized := true,
    data_table_hash := [(1, { method_address_hash := [] }), (2, { method_address_hash := [] })] }

/-- A JIT debug info with the line table of native offsets 0, 10, 20, 30 and IL offsets
0, 5, 12, 18, and no variable. -/
def sample_jit : MonoDebugMethodJitInfo :=
  { code_start := 4096, code_size := 40, prologue_end := 2, epilogue_begin := 38,
    num_line_numbers := 4,
    line_numbers := [⟨0, 0⟩, ⟨5, 10⟩, ⟨12, 20⟩, ⟨18, 30⟩],
    this_var := none, num_params := 0, params := [], num_locals := 0, locals := [],
    gsharedvt_info_var := none, gsharedvt_locals_var := none }

/-- The record `mono_debug_add_method` serialises from `sample_jit`. -/
def sample_address : MonoDebugMethodAddress :=
  { code_start := 4096, code_size := 40,
    data := [2, 38, 4, 0, 0, 5, 10, 12, 20, 18, 30, 0, 0, 0, 0] }

/-- The state after `mono_debug_add_method` of `sample_jit` for the method at address 7 in
the domain at address 1 of `sample_state`. -/
def sample_state_added : DebugState :=
  { mono_debug_format := .MONO_DEBUG_FORMAT_MONO, mono_debug_initialized := true,
    initialized := true,
    data_table_hash :=
      [(1, { method_address_hash := [(7, sample_address)] }), (2, { method_address_hash := [] })] }

/-- A descriptor with a negative offset (-8 as a 32-bit pattern). -/
def sample_var : MonoDebugVarInfo :=
  { index := 1, offset := 4294967288, size := 8, begin_scope := 0, end_scope := 40,
    type := 0xdeadbeef00 }

/-- A JIT debug info with a `this` descriptor, one parameter, no local, both generic-sharing
helper descriptors and a line entry whose fields have the top bit set. -/
def sample_jit_vars : MonoDebugMethodJitInfo :=
  { code_start := 8192, code_size := 64, prologue_end := 3, epilogue_begin := 60,
    num_line_numbers := 2,
    line_numbers := [⟨0, 0⟩, ⟨4294967295, 2147483648⟩],
    this_var := some sample_var, num_params := 1, params := [sample_var],
    num_locals := 0, locals := [],
    gsharedvt_info_var := some sample_var, gsharedvt_locals_var := some sample_var }

/-- A JIT debug info with no line entry and no variable. -/
def sample_jit_small : MonoDebugMethodJitInfo :=
  { code_start := 4200, code_size := 8, prologue_end := 1, epilogue_begin := 7,
    num_line_numbers := 0, line_numbers := [],
    this_var := none, num_params := 0, params := [], num_locals := 0, locals := [],
    gsharedvt_info_var := none, gsharedvt_locals_var := none }

/-- The record `mono_debug_add_method` serialises from `sample_jit_small`. -/
def sample_address_small : MonoDebugMethodAddress :=
  { code_start := 4200, code_size := 8, data := [1, 7, 0, 0, 0, 0, 0] }

/-- The state after a further `mono_debug_add_method` of `sample_jit_small` for the method at
address 7 in the domain at address 1 of `sample_state_added`. -/
def sample_state_replaced : DebugState :=
  { mono_debug_format := .MONO_DEBUG_FORMAT_MONO, mono_debug_initialized := true,
    initialized := true,
    data_table_hash :=
      [(1, { method_address_hash := [(7, sample_address_small)] }),
       (2, { method_address_hash := [] })] }

/-- The state after `mono_debug_domain_unload` of the domain at address 1 of
`sample_state_added`. -/
def sample_state_unloaded : DebugState :=
  { mono_debug_format := .MONO_DEBUG_FORMAT_MONO, mono_debug_initialized := true,
    initialized := true, data_table_hash := [(2, { method_address_hash := [] })] }

/-! ## The handle registry and the bundled symbol files (lines 111-119, 153-160, 213-374 and 868-909) -/

/-- Modelled from the spec: the declaration of `MonoDebugHandle` (mono-debug.h) is not among
the sources; these are the fields the source uses, the module the handle holds a reference
to and its symbol source, which may be null. -/
structure MonoDebugHandle where
  image : Nat
  symfile : Option Nat
  deriving DecidableEq, Repr

/-- The `struct _BundledSymfile` of the source, without its `next` link: the list of the
entries is kept instead.  The name is the characters of the C string, `raw_contents` the
address of the bytes (0 when null). -/
structure BundledSymfile where
  aname : List Nat
  raw_contents : Nat
  size : Int
  deriving DecidableEq, Repr

/-- Modelled from the spec: the declaration of `MonoDebugMethodInfo` (mono-debug.h) is not
among the sources; the source reads the method and the handle, which may be null. -/
structure MonoDebugMethodInfo where
  method : Nat
  handle : Option MonoDebugHandle
  deriving DecidableEq, Repr

/-- Modelled from the spec: the declaration of `MonoDebugSourceLocation` (mono-debug.h) is not
among the sources; the source reads the file name, the row and the IL offset. -/
structure MonoDebugSourceLocation where
  source_file : List Nat
  row : Nat
  il_offset : Nat
  deriving DecidableEq, Repr

/-- Modelled from the spec: the collaborators of the source (module model and external symbol
source, section 6 of the spec), which the source calls and does not define.  An image, an
assembly, a symbol file and a locals info are their addresses; `module_name` is
`image->module_name`; `mono_debug_open_mono_symbols` takes the image of the handle, the
address of the bytes and their size. -/
structure Runtime where
  mono_image_is_dynamic : Nat → Bool
  module_name : Nat → List Nat
  mono_assembly_get_image : Nat → Nat
  mono_debug_open_mono_symbols : Nat → Nat → Int → Option Nat
  mono_debug_symfile_lookup_method : MonoDebugHandle → Nat → Option MonoDebugMethodInfo
  mono_debug_symfile_is_loaded : Nat → Bool
  mono_debug_symfile_lookup_location : MonoDebugMethodInfo → Int → Option MonoDebugSourceLocation
  mono_debug_symfile_lookup_locals : MonoDebugMethodInfo → Option Nat

/-- The calls of the source that change the state of a collaborator, as they are recorded
in `RegistryState.calls`. -/
inductive RuntimeCall where
  | mono_image_addref (image : Nat)
  | mono_image_close (image : Nat)
  | mono_debug_open_mono_symbols (image : Nat) (raw_contents : Nat) (size : Int)
  | mono_debug_close_mono_symbol_file (symfile : Nat)
  deriving DecidableEq, Repr

/-- The file-level variables of the source once `mono_debug_init` has created
`mono_debug_handles` (the table is not null): those of `DebugState`, the handle table keyed
by the address of the image, the list of bundled symbol files (most recently registered
first) and the calls made so far into the collaborators. -/
structure RegistryState where
  debug : DebugState
  mono_debug_handles : GHashTable MonoDebugHandle
  bundled_symfiles : List BundledSymfile
  calls : List RuntimeCall
  deriving DecidableEq, Repr

/-- The retains of `image` less its releases among the calls made: the change of the
reference count of the module since the first call. -/
def image_ref_count (calls : List RuntimeCall) (image : Nat) : Int :=
  (calls.count (.mono_image_addref image) : Int) - (calls.count (.mono_image_close image) : Int)

/-- The `free_debug_handle (handle)` of the source, the destroy notifier of
`mono_debug_handles`: the calls it makes. -/
def free_debug_handle (handle : MonoDebugHandle) : List RuntimeCall :=
  (match handle.symfile with
    | some symfile => [.mono_debug_close_mono_symbol_file symfile]
    | none => []) ++ [.mono_image_close handle.image]

/-- The `mono_debug_get_image (image)` of the source. -/
def mono_debug_get_image (s : RegistryState) (image : Nat) : Option MonoDebugHandle :=
  g_hash_table_lookup s.mono_debug_handles image

/-- The `mono_debug_close_image (image)` of the source; `g_hash_table_remove` runs
`free_debug_handle` on the handle it removes. -/
def mono_debug_close_image (s : RegistryState) (image : Nat) : Except Fatal RegistryState :=
  if !s.debug.mono_debug_initialized then .ok s
  else
    match mono_debugger_lock s.debug with
    | .error e => .error e
    | .ok _ =>
      match mono_debug_get_image s image with
      | none => .ok s
      | some handle =>
        .ok { s with
                mono_debug_handles := g_hash_table_remove s.mono_debug_handles image
                calls := s.calls ++ free_debug_handle handle }

/-- The `mono_debug_open_image (image, raw_contents, size)` of the source: the new state and
the handle, or null. -/
def mono_debug_open_image (rt : Runtime) (s : RegistryState) (image raw_contents : Nat)
    (size : Int) : Except Fatal (RegistryState × Option MonoDebugHandle) :=
  if rt.mono_image_is_dynamic image then .ok (s, none)
  else
    match mono_debugger_lock s.debug with
    | .error e => .error e
    | .ok _ =>
      match mono_debug_get_image s image with
      | some handle => .ok (s, some handle)
      | none =>
        let handle : MonoDebugHandle :=
          { image := image, symfile := rt.mono_debug_open_mono_symbols image raw_contents size }
        .ok ({ s with
                mono_debug_handles := g_hash_table_insert s.mono_debug_handles image handle
                calls := s.calls ++ [.mono_image_addref image,
                  .mono_debug_open_mono_symbols image raw_contents size] },
             some handle)

/-- The `mono_debug_open_image_from_memory (image, raw_contents, size)` of the source. -/
def mono_debug_open_image_from_memory (rt : Runtime) (s : RegistryState)
    (image raw_contents : Nat) (size : Int) : Except Fatal RegistryState :=
  if !s.debug.mono_debug_initialized then .ok s
  else
    match mono_debug_open_image rt s image raw_contents size with
    | .error e => .error e
    | .ok r => .ok r.1

/-- The `mono_register_symfile_for_assembly (assembly_name, raw_contents, size)` of the
source: the new entry becomes the head of the list. -/
def mono_register_symfile_for_assembly (s : RegistryState) (assembly_name : List Nat)
    (raw_contents : Nat) (size : Int) : RegistryState :=
  { s with
      bundled_symfiles :=
        { aname := assembly_name, raw_contents := raw_contents, size := size }
          :: s.bundled_symfiles }

/-- The loop of `open_symfile_from_bundle` (lines 901-906) from the entry `bsymfile` on;
`strcmp` is 0 exactly when the two names have the same characters. -/
def open_symfile_from_bundle_loop (rt : Runtime) (s : RegistryState) (image : Nat) :
    List BundledSymfile → Except Fatal (RegistryState × Option MonoDebugHandle)
  | [] => .ok (s, none)
  | bsymfile :: next =>
    if bsymfile.aname ≠ rt.module_name image then
      open_symfile_from_bundle_loop rt s image next
    else
      mono_debug_open_image rt s image bsymfile.raw_contents bsymfile.size

/-- The `open_symfile_from_bundle (image)` of the source. -/
def open_symfile_from_bundle (rt : Runtime) (s : RegistryState) (image : Nat) :
    Except Fatal (RegistryState × Option MonoDebugHandle) :=
  open_symfile_from_bundle_loop rt s image s.bundled_symfiles

/-- The `mono_debug_add_assembly (assembly, user_data)` of the source, the hook run on every
module load. -/
def mono_debug_add_assembly (rt : Runtime) (s : RegistryState) (assembly : Nat) :
    Except Fatal RegistryState :=
  match mono_debugger_lock s.debug with
  | .error e => .error e
  | .ok _ =>
    let image := rt.mono_assembly_get_image assembly
    match open_symfile_from_bundle rt s image with
    | .error e => .error e
    | .ok (s1, some _) => .ok s1
    | .ok (s1, none) =>
      match mono_debug_open_image rt s1 image 0 0 with
      | .error e => .error e
      | .ok r => .ok r.1

/-- The `g_hash_table_foreach (hash, func, user_data)` of glib: `func` is run on every entry,
here in the order of the list. -/
def g_hash_table_foreach {α β : Type} (hash : GHashTable α) (func : Nat → α → β → β)
    (user_data : β) : β :=
  hash.foldl (fun data entry => func entry.1 entry.2 data) user_data

/-- The `lookup_method_func (key, value, user_data)` of the source; the data is `data->minfo`,
the method is fixed. -/
def lookup_method_func (rt : Runtime) (method : Nat) (_key : Nat) (handle : MonoDebugHandle)
    (minfo : Option MonoDebugMethodInfo) : Option MonoDebugMethodInfo :=
  match minfo with
  | some found => some found
  | none =>
    match handle.symfile with
    | some _ => rt.mono_debug_symfile_lookup_method handle method
    | none => none

/-- The `mono_debug_lookup_method_internal (method)` of the source. -/
def mono_debug_lookup_method_internal (rt : Runtime) (s : RegistryState) (method : Nat) :
    Option MonoDebugMethodInfo :=
  g_hash_table_foreach s.mono_debug_handles (lookup_method_func rt method) none

/-- The `LookupImageData` of the source. -/
structure LookupImageData where
  found : Bool
  image : Nat
  deriving DecidableEq, Repr

/-- The `lookup_image_func (key, value, user_data)` of the source. -/
def lookup_image_func (_key : Nat) (handle : MonoDebugHandle) (data : LookupImageData) :
    LookupImageData :=
  if data.found then data
  else if handle.image = data.image then { data with found := true }
  else data

/-- The `mono_debug_image_has_debug_info (image)` of the source. -/
def mono_debug_image_has_debug_info (s : RegistryState) (image : Nat) : Except Fatal Bool :=
  match mono_debugger_lock s.debug with
  | .error e => .error e
  | .ok _ =>
    .ok (g_hash_table_foreach s.mono_debug_handles lookup_image_func
      { found := false, image := image }).found

/-! ## The query entry points (lines 663-675 and 739-793) -/

/-- The `mono_debug_find_method (method, domain)` of the source. -/
def mono_debug_find_method (sizeof_gpointer : Nat) (s : DebugState) (method : Nat)
    (domain : Nat) : Except Fatal (Option MonoDebugMethodJitInfo) :=
  if s.mono_debug_format = .MONO_DEBUG_FORMAT_NONE then .ok none
  else
    match mono_debugger_lock s with
    | .error e => .error e
    | .ok _ => find_method sizeof_gpointer s method domain

/-- The test of `mono_debug_lookup_source_location` and `mono_debug_lookup_locals` on the
result of `mono_debug_lookup_method_internal` (lines 751 and 784): the method info when it
has a handle with a loaded symbol file. -/
def loaded_minfo (rt : Runtime) (minfo : Option MonoDebugMethodInfo) :
    Option MonoDebugMethodInfo :=
  match minfo with
  | none => none
  | some minfo =>
    match minfo.handle with
    | none => none
    | some handle =>
      match handle.symfile with
      | none => none
      | some symfile => if rt.mono_debug_symfile_is_loaded symfile then some minfo else none

/-- The `mono_debug_lookup_source_location (method, address, domain)` of the source. -/
def mono_debug_lookup_source_location (rt : Runtime) (sizeof_gpointer : Nat)
    (s : RegistryState) (method : Nat) (address : Nat) (domain : Nat) :
    Except Fatal (Option MonoDebugSourceLocation) :=
  if s.debug.mono_debug_format = .MONO_DEBUG_FORMAT_NONE then .ok none
  else
    match mono_debugger_lock s.debug with
    | .error e => .error e
    | .ok _ =>
      match loaded_minfo rt (mono_debug_lookup_method_internal rt s method) with
      | none => .ok none
      | some minfo =>
        match il_offset_from_address sizeof_gpointer s.debug method domain address with
        | .error e => .error e
        | .ok offset =>
          if offset < 0 then .ok none
          else .ok (rt.mono_debug_symfile_lookup_location minfo offset)

/-- The `mono_debug_lookup_locals (method)` of the source. -/
def mono_debug_lookup_locals (rt : Runtime) (s : RegistryState) (method : Nat) :
    Except Fatal (Option Nat) :=
  if s.debug.mono_debug_format = .MONO_DEBUG_FORMAT_NONE then .ok none
  else
    match mono_debugger_lock s.debug with
    | .error e => .error e
    | .ok _ =>
      match loaded_minfo rt (mono_debug_lookup_method_internal rt s method) with
      | none => .ok none
      | some minfo => .ok (rt.mono_debug_symfile_lookup_locals minfo)

/-! ## Sequences of registry operations -/

/-- A call of one of the operations of the source on modules and bundled symbol files. -/
inductive RegistryOp where
  | open_image (image raw_contents : Nat) (size : Int)
  | open_image_from_memory (image raw_contents : Nat) (size : Int)
  | add_assembly (assembly : Nat)
  | close_image (image : Nat)
  | register_symfile (assembly_name : List Nat) (raw_contents : Nat) (size : Int)
  deriving DecidableEq, Repr

/-- The state after the call `op`, when the call returns. -/
def RegistryOp.run (rt : Runtime) (s : RegistryState) : RegistryOp → Except Fatal RegistryState
  | .open_image image raw_contents size =>
    match mono_debug_open_image rt s image raw_contents size with
    | .error e => .error e
    | .ok r => .ok r.1
  | .open_image_from_memory image raw_contents size =>
    mono_debug_open_image_from_memory rt s image raw_contents size
  | .add_assembly assembly => mono_debug_add_assembly rt s assembly
  | .close_image image => mono_debug_close_image s image
  | .register_symfile assembly_name raw_contents size =>
    .ok (mono_register_symfile_for_assembly s assembly_name raw_contents size)

/-- The state after the calls `ops`, made one after the other, when all of them return. -/
def run_ops (rt : Runtime) (s : RegistryState) : List RegistryOp → Except Fatal RegistryState
  | [] => .ok s
  | op :: ops =>
    match op.run rt s with
    | .error e => .error e
    | .ok s1 => run_ops rt s1 ops

/-- The call `op` is a module open or a module load of `image`. -/
def RegistryOp.opens (rt : Runtime) (image : Nat) : RegistryOp → Bool
  | .open_image image1 _ _ => decide (image1 = image)
  | .open_image_from_memory image1 _ _ => decide (image1 = image)
  | .add_assembly assembly => decide (rt.mono_assembly_get_image assembly = image)
  | .close_image _ => false
  | .register_symfile _ _ _ => false

/-- The state as `mono_debug_init` leaves it: both initialisation flags are set and no handle
is registered. -/
def RegistryState.Initial (s : RegistryState) : Prop :=
  s.debug.mono_debug_initialized = true ∧ s.debug.initialized = true ∧ s.mono_debug_handles = []

/-- The states reached from initialisation by module open, module load, module close and
bundle registration calls. -/
def Reachable (rt : Runtime) (s : RegistryState) : Prop :=
  ∃ s0 ops, s0.Initial ∧ run_ops rt s0 ops = .ok s

/-- The list of bundled symbol files after the calls of `mono_register_symfile_for_assembly`
with the entries `entries`, in this order. -/
def register_all (s : RegistryState) : List BundledSymfile → RegistryState
  | [] => s
  | entry :: rest =>
    register_all
      (mono_register_symfile_for_assembly s entry.aname entry.raw_contents entry.size) rest

/-- The invariant of the handle table: each handle is registered under the address of its
own module, that module is not dynamic, and no two entries have the same key. -/
def RegistryState.Invariant (rt : Runtime) (s : RegistryState) : Prop :=
  (∀ e ∈ s.mono_debug_handles, e.2.image = e.1 ∧ rt.mono_image_is_dynamic e.1 = false) ∧
  (s.mono_debug_handles.map Prod.fst).Nodup

/-! ## Sample values of the registry -/

/-- Collaborators for which the image at address 99 is dynamic, the image of the assembly at
address `a` is at `a + 100`, the name of the image at address `i` is the one character `i`,
and a symbol file is opened exactly from bytes that are not null. -/
def sample_runtime : Runtime :=
  { mono_image_is_dynamic := fun image => decide (image = 99)
    module_name := fun image => [image]
    mono_assembly_get_image := fun assembly => assembly + 100
    mono_debug_open_mono_symbols := fun _ raw_contents _ =>
      if raw_contents = 0 then none else some (raw_contents + 1)
    mono_debug_symfile_lookup_method := fun handle method =>
      some { method := method, handle := some handle }
    mono_debug_symfile_is_loaded := fun _ => true
    mono_debug_symfile_lookup_location := fun _ offset =>
      some { source_file := [], row := 1, il_offset := offset.toNat }
    mono_debug_symfile_lookup_locals := fun _ => none }

/-- The registry after `mono_debug_init`, with the data tables of `sample_state`. -/
def sample_registry : RegistryState :=
  { debug := sample_state, mono_debug_handles := [], bundled_symfiles := [], calls := [] }

/-- Three bundle entries in the order of their registration: the first and the last have the
name of the image at address 105. -/
def sample_entries : List BundledSymfile :=
  [{ aname := [105], raw_contents := 64, size := 16 },
   { aname := [7], raw_contents := 32, size := 8 },
   { aname := [105], raw_contents := 80, size := 24 }]

/-- The state after `mono_debug_init (MONO_DEBUG_FORMAT_NONE)`, `mono_debug_domain_create` for
the domains at addresses 1 and 2 and `mono_debug_add_method` of `sample_jit` for the method
at address 7 in the domain at address 1. -/
def sample_state_none_added : DebugState :=
  { mono_debug_format := .MONO_DEBUG_FORMAT_NONE, mono_debug_initialized := true,
    initialized := true,
    data_table_hash :=
      [(1, { method_address_hash := [(7, sample_address)] }), (2, { method_address_hash := [] })] }

/-- A descriptor of a variable at offset 200 that is live from native offset 20000 to native
offset 30000: 18 bytes with 8-byte pointers. -/
def sample_var_wide : MonoDebugVarInfo :=
  { index := 0, offset := 200, size := 8, begin_scope := 20000, end_scope := 30000,
    type := 0x7f0000001000 }

/-- A JIT debug info with a `this` descriptor and both generic-sharing helper descriptors,
no line entry, no parameter and no local. -/
def sample_jit_helpers : MonoDebugMethodJitInfo :=
  { code_start := 8192, code_size := 32768, prologue_end := 3, epilogue_begin := 60,
    num_line_numbers := 0, line_numbers := [],
    this_var := some sample_var_wide, num_params := 0, params := [],
    num_locals := 0, locals := [],
    gsharedvt_info_var := some sample_var_wide, gsharedvt_locals_var := some sample_var_wide }

/-- A JIT debug info whose two line entries are not in the order of their native offsets:
IL offset 1 at native offset 20, then IL offset 2 at native offset 10. -/
def sample_jit_unsorted : MonoDebugMethodJitInfo :=
  { code_start := 4096, code_size := 40, prologue_end := 2, epilogue_begin := 38,
    num_line_numbers := 2, line_numbers := [⟨1, 20⟩, ⟨2, 10⟩],
    this_var := none, num_params := 0, params := [], num_locals := 0, locals := [],
    gsharedvt_info_var := none, gsharedvt_locals_var := none }

/-- The state after `mono_debug_add_method` of `sample_jit_unsorted` for the method at address
7 in the domain at address 1 of `sample_state`. -/
def sample_state_unsorted : DebugState :=
  { mono_debug_format := .MONO_DEBUG_FORMAT_MONO, mono_debug_initialized := true,
    initialized := true,
    data_table_hash :=
      [(1, { method_address_hash :=
              [(7, { code_start := 4096, code_size := 40,
                     data := [2, 38, 2, 1, 20, 2, 10, 0, 0, 0, 0] })] }),
       (2, { method_address_hash := [] })] }

/-- A sequence of registry operations: a bundle entry is registered for the image at address
105, the assembly at address 5 (image 105) is loaded, the image at address 7 is opened from
memory without bytes, the image at address 105 is closed, and the dynamic image at address
99 is opened. -/
def sample_ops : List RegistryOp :=
  [.register_symfile [105] 64 16, .add_assembly 5, .open_image_from_memory 7 0 0,
   .close_image 105, .open_image 99 48 8]

/-- The state after the operations `sample_ops` from `sample_registry`. -/
def sample_registry_after : RegistryState :=
  { debug := sample_state
    mono_debug_handles := [(7, { image := 7, symfile := none })]
    bundled_symfiles := [{ aname := [105], raw_contents := 64, size := 16 }]
    calls := [.mono_image_addref 105, .mono_debug_open_mono_symbols 105 64 16,
      .mono_image_addref 7, .mono_debug_open_mono_symbols 7 0 0,
      .mono_debug_close_mono_symbol_file 65, .mono_image_close 105] }

/-! ## The selected line entry -/

/-- The entry `lne` at index `i` of the line table is the one of greatest index whose native
offset is at most the query `q`: the entry that the scan from the last entry to the first
meets first. -/
def Selected (line_numbers : List MonoDebugLineNumberEntry) (q i : Nat)
    (lne : MonoDebugLineNumberEntry) : Prop :=
  line_numbers[i]? = some lne ∧ lne.native_offset ≤ q ∧
  ∀ (j : Nat) (lne1 : MonoDebugLineNumberEntry), i < j → line_numbers[j]? = some lne1 →
    q < lne1.native_offset

/-- The record `mono_debug_add_method` serialises from `sample_jit_vars` with 8-byte
pointers. -/
def sample_address_vars : MonoDebugMethodAddress :=
  { code_start := 8192, code_size := 64,
    data := [3, 60, 2, 0, 0, 127, 128, 128, 128, 128, 120, 1, 1, 120, 8, 0, 40, 0, 239, 190,
      173, 222, 0, 0, 0, 1, 1, 120, 8, 0, 40, 0, 239, 190, 173, 222, 0, 0, 0, 0, 1, 1, 120, 8,
      0, 40, 0, 239, 190, 173, 222, 0, 0, 0, 1, 120, 8, 0, 40, 0, 239, 190, 173, 222, 0, 0,
      0] }

/-- The state after `mono_debug_add_method` of `sample_jit_vars` for the method at address 7
in the domain at address 1 of `sample_state`. -/
def sample_state_vars : DebugState :=
  { mono_debug_format := .MONO_DEBUG_FORMAT_MONO, mono_debug_initialized := true,
    initialized := true,
    data_table_hash :=
      [(1, { method_address_hash := [(7, sample_address_vars)] }),
       (2, { method_address_hash := [] })] }

/-- The registry with the data tables of `sample_state_vars` and a handle with a symbol file
for the image at address 5. -/
def sample_registry_vars : RegistryState :=
  { debug := sample_state_vars
    mono_debug_handles := [(5, { image := 5, symfile := some 65 })]
    bundled_symfiles := []
    calls := [.mono_image_addref 5, .mono_debug_open_mono_symbols 5 64 16] }

/-- A JIT debug info with a `this` descriptor, two parameters, one local and no
generic-sharing helper descriptor. -/
def sample_jit_params : MonoDebugMethodJitInfo :=
  { code_start := 8192, code_size := 64, prologue_end := 3, epilogue_begin := 60,
    num_line_numbers := 2, line_numbers := [⟨0, 0⟩, ⟨4294967295, 2147483648⟩],
    this_var := some sample_var_wide, num_params := 2, params := [sample_var, sample_var_wide],
    num_locals := 1, locals := [sample_var],
    gsharedvt_info_var := none, gsharedvt_locals_var := none }

/-! ## The variable-length codec: lemmas -/

theorem byte_facts : ∀ b < 128, b &&& 0x7f = b ∧ b &&& 0x80 = 0 ∧ (b ||| 0x80) &&& 0x7f = b ∧
    (b ||| 0x80) &&& 0x80 ≠ 0 ∧ (b &&& 0x40 = 0 ↔ b < 64) := by
  decide

theorem lor_eq_add {r t : Nat} (s : Nat) (hr : r < 2 ^ s) (ht : 2 ^ s ∣ t) : r ||| t = r + t := by
  obtain ⟨a, rfl⟩ := ht
  rw [Nat.lor_comm, Nat.add_comm]
  exact (Nat.mul_add_lt_is_or hr a).symm

theorem shiftLeft_mod_dvd (g s : Nat) (hs : s ≤ 32) : 2 ^ s ∣ (g <<< s) % 2 ^ 32 := by
  have h32 : 2 ^ s ∣ 2 ^ 32 := pow_dvd_pow 2 hs
  rw [Nat.shiftLeft_eq]
  exact (Nat.dvd_mod_iff h32).2 (Dvd.intro_left g rfl)

theorem read_leb128_loop_write (fuel : Nat) :
    ∀ (value result shift : Nat) (rest : List Nat), value < fuel → result < 2 ^ shift →
      value * 2 ^ shift < 2 ^ 32 →
      read_leb128_loop result shift (write_leb128_loop fuel value ++ rest)
        = some (result + value * 2 ^ shift, rest) := by
  induction fuel with
  | zero => intro value result shift rest h; omega
  | succ fuel ih =>
    intro value result shift rest hfuel hr hv
    have hand : value &&& 0x7f = value % 128 := Nat.and_pow_two_sub_one_eq_mod value 7
    have hshr : value >>> 7 = value / 128 := Nat.shiftRight_eq_div_pow value 7
    have hb := byte_facts (value % 128) (Nat.mod_lt _ (by decide))
    have hpos : 0 < 2 ^ shift := Nat.pow_pos (by decide)
    have hs32 : shift ≤ 32 ∨ value = 0 := by
      rcases Nat.eq_zero_or_pos value with h0 | h0
      · exact Or.inr h0
      · left
        by_contra hc
        have : 2 ^ 32 < 2 ^ shift := Nat.pow_lt_pow_right (by decide) (by omega)
        have : 2 ^ shift ≤ value * 2 ^ shift := Nat.le_mul_of_pos_left _ h0
        omega
    by_cases h0 : value / 128 = 0
    · have hbv := byte_facts value (by omega)
      simp only [write_leb128_loop, hshr, h0, if_true, List.singleton_append, read_leb128_loop,
        hbv.1, hbv.2.1]
      rcases hs32 with hs | hz
      · have hmod : (value <<< shift) % 2 ^ 32 = value * 2 ^ shift := by
          rw [Nat.shiftLeft_eq]; exact Nat.mod_eq_of_lt hv
        rw [hmod, lor_eq_add shift hr (Dvd.intro_left value rfl)]
      · subst hz
        simp
    · have hs : shift ≤ 32 := by
        rcases hs32 with hs | hz
        · exact hs
        · omega
      have hsplit : value = 128 * (value / 128) + value % 128 := by omega
      have hbyte : (value % 128) * 2 ^ shift < 2 ^ 32 :=
        lt_of_le_of_lt (Nat.mul_le_mul_right _ (Nat.mod_le _ _)) hv
      have hmod : ((value % 128) <<< shift) % 2 ^ 32 = (value % 128) * 2 ^ shift := by
        rw [Nat.shiftLeft_eq]; exact Nat.mod_eq_of_lt hbyte
      have hpow : 2 ^ (shift + 7) = 128 * 2 ^ shift := by rw [pow_add]; ring
      have hshift : shift + 7 < 2 ^ 32 := by omega
      simp only [write_leb128_loop, hand, hshr, h0, if_false, List.cons_append, read_leb128_loop,
        hb.2.2.1, hb.2.2.2.1, hmod,
        Nat.mod_eq_of_lt hshift]
      rw [lor_eq_add shift hr (Dvd.intro_left _ rfl)]
      rw [ih (value / 128) _ (shift + 7) rest (by omega) ?_ ?_]
      · congr 2
        rw [hpow]
        nth_rewrite 3 [hsplit]
        ring
      · rw [hpow]
        have : value % 128 * 2 ^ shift ≤ 127 * 2 ^ shift := Nat.mul_le_mul_right _ (by omega)
        omega
      · rw [hpow]
        calc value / 128 * (128 * 2 ^ shift) = (128 * (value / 128)) * 2 ^ shift := by ring
          _ ≤ value * 2 ^ shift := Nat.mul_le_mul_right _ (by omega)
          _ < 2 ^ 32 := hv

theorem read_leb128_write_leb128 (x : Nat) (rest : List Nat) (hx : x < 2 ^ 32) :
    read_leb128 (write_leb128 x ++ rest) = some (x, rest) := by
  have h := read_leb128_loop_write (x + 1) x 0 0 rest (by omega) (by decide) (by simpa using hx)
  simpa [read_leb128, write_leb128] using h

theorem read_sleb128_loop_write (fuel : Nat) :
    ∀ (value : Int) (result k : Nat) (rest : List Nat), value.natAbs < fuel → k ≤ 4 →
      result < 2 ^ (7 * k) → -(2 ^ (31 - 7 * k) : Int) ≤ value → value < 2 ^ (31 - 7 * k) →
      read_sleb128_loop result (7 * k) (write_sleb128_loop fuel value ++ rest)
        = some ((((result : Int) + value * 2 ^ (7 * k)) % 2 ^ 32).toNat, rest) := by
  induction fuel with
  | zero => intro value result k rest h; omega
  | succ fuel ih =>
    intro value result k rest hfuel hk hr hlo hhi
    obtain ⟨b, hbdef⟩ : ∃ b : Nat, (value % 128).toNat = b := ⟨_, rfl⟩
    have hb128 : b < 128 := by omega
    have hbI : (b : Int) = value % 128 := by omega
    have hb := byte_facts b hb128
    have hdvd : 2 ^ (7 * k) ∣ (b <<< (7 * k)) % 2 ^ 32 := shiftLeft_mod_dvd b (7 * k) (by omega)
    have hshift : (7 * k + 7) % 2 ^ 32 = 7 * (k + 1) := by omega
    by_cases hstop : (value / 128 = 0 ∧ b &&& 0x40 = 0) ∨ (value / 128 = -1 ∧ b &&& 0x40 ≠ 0)
    · simp only [write_sleb128_loop, hbdef, hstop, if_true, List.singleton_append,
        read_sleb128_loop, hb.1, hb.2.1, ne_eq, not_true_eq_false, if_false, hshift]
      rw [lor_eq_add (7 * k) hr hdvd]
      by_cases hext : 7 * (k + 1) < 32 ∧ ¬ b &&& 0x40 = 0
      · have h64 : 64 ≤ b := by
          by_contra hc
          exact hext.2 (hb.2.2.2.2.2 (by omega))
        have hv1 : value / 128 = -1 := by
          rcases hstop with h | h
          · exact absurd h.2 hext.2
          · exact h.1
        have hlt : result + (b <<< (7 * k)) % 2 ^ 32 < 2 ^ (7 * (k + 1)) := by
          rw [Nat.shiftLeft_eq]
          interval_cases k <;> simp at hr hext ⊢ <;> omega
        have hd2 : 2 ^ (7 * (k + 1)) ∣ 2 ^ 32 - 2 ^ (7 * (k + 1)) :=
          Nat.dvd_sub' (pow_dvd_pow 2 (by omega)) (dvd_refl _)
        rw [if_pos hext, lor_eq_add (7 * (k + 1)) hlt hd2, Nat.shiftLeft_eq]
        congr 2
        interval_cases k <;> simp at hr hext hlo hhi ⊢ <;> omega
      · rw [if_neg hext, Nat.shiftLeft_eq]
        congr 2
        have hcase : (value / 128 = 0 ∧ b < 64) ∨ (value / 128 = -1 ∧ 64 ≤ b ∧ k = 4) := by
          rcases hstop with h | h
          · exact Or.inl ⟨h.1, hb.2.2.2.2.1 h.2⟩
          · right
            refine ⟨h.1, ?_, ?_⟩
            · by_contra hc
              exact h.2 (hb.2.2.2.2.2 (by omega))
            · by_contra hc
              exact hext ⟨by omega, h.2⟩
        interval_cases k <;> simp at hr hlo hhi hcase ⊢ <;> omega
    · have hk3 : k ≤ 3 := by
        by_contra hc
        have hk4 : k = 4 := by omega
        subst hk4
        simp at hlo hhi
        apply hstop
        rcases Nat.lt_or_ge b 64 with h | h
        · exact Or.inl ⟨by omega, hb.2.2.2.2.2 h⟩
        · right
          refine ⟨by omega, fun hc => ?_⟩
          have := hb.2.2.2.2.1 hc
          omega
      have hnat : (value / 128).natAbs < fuel := by
        have hne : ¬ (value = 0 ∨ value = -1) := by
          rintro (h | h)
          · subst h
            apply hstop
            left
            have hb0 : b = 0 := by omega
            subst hb0
            exact ⟨by decide, by decide⟩
          · subst h
            apply hstop
            right
            have hb0 : b = 127 := by omega
            subst hb0
            exact ⟨by decide, by decide⟩
        omega
      have hbmod : (b <<< (7 * k)) % 2 ^ 32 = b * 2 ^ (7 * k) := by
        rw [Nat.shiftLeft_eq]
        apply Nat.mod_eq_of_lt
        interval_cases k <;> simp <;> omega
      simp only [write_sleb128_loop, hbdef, hstop, if_false, List.cons_append,
        read_sleb128_loop, hb.2.2.1, hb.2.2.2.1, ne_eq, not_false_eq_true, if_true, hshift]
      rw [lor_eq_add (7 * k) hr hdvd, hbmod]
      rw [ih (value / 128) _ (k + 1) rest hnat (by omega) ?_ ?_ ?_]
      · congr 2
        interval_cases k <;> simp at hr hlo hhi ⊢ <;> omega
      · interval_cases k <;> simp at hr ⊢ <;> omega
      · interval_cases k <;> simp at hlo hhi ⊢ <;> omega
      · interval_cases k <;> simp at hlo hhi ⊢ <;> omega

theorem toInt32_ofInt32 (x : Int) (hlo : -(2 ^ 31 : Int) ≤ x) (hhi : x < 2 ^ 31) :
    toInt32 (ofInt32 x) = x := by
  unfold toInt32 ofInt32
  split <;> omega

theorem ofInt32_toInt32 (x : Nat) (hx : x < 2 ^ 32) : ofInt32 (toInt32 x) = x := by
  unfold toInt32 ofInt32
  split <;> omega

theorem read_sleb128_write_sleb128 (x : Int) (rest : List Nat) (hlo : -(2 ^ 31 : Int) ≤ x)
    (hhi : x < 2 ^ 31) : read_sleb128 (write_sleb128 x ++ rest) = some (x, rest) := by
  have h := read_sleb128_loop_write (x.natAbs + 1) x 0 0 rest (by omega) (by omega) (by decide)
    (by simpa using hlo) (by simpa using hhi)
  simp only [Nat.mul_zero, pow_zero, mul_one, Nat.cast_zero, zero_add] at h
  have h2 := toInt32_ofInt32 x hlo hhi
  unfold ofInt32 at h2
  simp only [read_sleb128, write_sleb128, h, Option.map_some', h2]

/-- The bound on the rounds of `write_leb128_loop` does not matter once it exceeds `value`:
the loop ends before the bound is used up. -/
theorem write_leb128_loop_fuel (fuel1 : Nat) :
    ∀ (fuel2 value : Nat), value < fuel1 → value < fuel2 →
      write_leb128_loop fuel1 value = write_leb128_loop fuel2 value := by
  induction fuel1 with
  | zero => intro fuel2 value h; omega
  | succ fuel1 ih =>
    intro fuel2 value h1 h2
    cases fuel2 with
    | zero => omega
    | succ fuel2 =>
      have hshr : value >>> 7 = value / 128 := Nat.shiftRight_eq_div_pow value 7
      simp only [write_leb128_loop, hshr]
      by_cases h0 : value / 128 = 0
      · simp only [h0, if_true]
      · simp only [h0, if_false]
        rw [ih fuel2 (value / 128) (by omega) (by omega)]

/-- The bound on the rounds of `write_sleb128_loop` does not matter once it exceeds `|value|`:
the loop ends before the bound is used up. -/
theorem write_sleb128_loop_fuel (fuel1 : Nat) :
    ∀ (fuel2 : Nat) (value : Int), value.natAbs < fuel1 → value.natAbs < fuel2 →
      write_sleb128_loop fuel1 value = write_sleb128_loop fuel2 value := by
  induction fuel1 with
  | zero => intro fuel2 value h; omega
  | succ fuel1 ih =>
    intro fuel2 value h1 h2
    cases fuel2 with
    | zero => omega
    | succ fuel2 =>
      obtain ⟨b, hbdef⟩ : ∃ b : Nat, (value % 128).toNat = b := ⟨_, rfl⟩
      have hb := byte_facts b (by omega)
      simp only [write_sleb128_loop, hbdef]
      by_cases hstop : (value / 128 = 0 ∧ b &&& 0x40 = 0) ∨ (value / 128 = -1 ∧ b &&& 0x40 ≠ 0)
      · simp only [hstop, if_true]
      · simp only [hstop, if_false]
        have hne : ¬ (value = 0 ∨ value = -1) := by
          rintro (h | h)
          · subst h
            apply hstop
            left
            have hb0 : b = 0 := by omega
            subst hb0
            exact ⟨by decide, by decide⟩
          · subst h
            apply hstop
            right
            have hb0 : b = 127 := by omega
            subst hb0
            exact ⟨by decide, by decide⟩
        rw [ih fuel2 (value / 128) (by omega) (by omega)]

/-! ## The record codec: lemmas -/

theorem READ_UNALIGNED_WRITE_UNALIGNED (size : Nat) :
    ∀ (val : Nat) (rest : List Nat),
      READ_UNALIGNED size (WRITE_UNALIGNED size val ++ rest) = some (val % 256 ^ size, rest) := by
  induction size with
  | zero => intro val rest; simp [READ_UNALIGNED, WRITE_UNALIGNED, Nat.mod_one]
  | succ size ih =>
    intro val rest
    rw [WRITE_UNALIGNED, List.cons_append, READ_UNALIGNED, ih, Option.map_some']
    congr 2
    rw [pow_succ, Nat.mul_comm (256 ^ size) 256, Nat.mod_mul]

theorem read_variable_write_variable (sizeof_gpointer : Nat) (var : MonoDebugVarInfo)
    (rest : List Nat) (hvar : var.WellFormed sizeof_gpointer) :
    read_variable sizeof_gpointer (write_variable sizeof_gpointer var ++ rest) = some (var, rest) := by
  obtain ⟨h1, h2, h3, h4, h5, h6⟩ := hvar
  have hlo : -(2 ^ 31 : Int) ≤ toInt32 var.offset := by unfold toInt32; split <;> omega
  have hhi : toInt32 var.offset < 2 ^ 31 := by unfold toInt32; split <;> omega
  simp only [read_variable, write_variable, List.append_assoc, read_leb128_write_leb128 _ _ h1,
    read_sleb128_write_sleb128 _ _ hlo hhi, read_leb128_write_leb128 _ _ h3,
    read_leb128_write_leb128 _ _ h4, read_leb128_write_leb128 _ _ h5,
    READ_UNALIGNED_WRITE_UNALIGNED, ofInt32_toInt32 _ h2, Nat.mod_eq_of_lt h6]

theorem read_line_numbers_write_line_numbers (line_numbers : List MonoDebugLineNumberEntry) :
    ∀ (rest : List Nat), (∀ lne ∈ line_numbers, lne.WellFormed) →
      ∃ out, write_line_numbers line_numbers.length line_numbers = some out ∧
        read_line_numbers line_numbers.length (out ++ rest) = some (line_numbers, rest) := by
  induction line_numbers with
  | nil => intro rest _; exact ⟨[], rfl, rfl⟩
  | cons lne tl ih =>
    intro rest hwf
    obtain ⟨out, hw, hr⟩ := ih rest fun e he => hwf e (List.mem_cons_of_mem _ he)
    obtain ⟨hil, hnat⟩ := hwf lne (List.mem_cons_self _ _)
    have b1 : ∀ x : Nat, -(2 ^ 31 : Int) ≤ toInt32 x ∧ toInt32 x < 2 ^ 31 := by
      intro x; unfold toInt32; split <;> omega
    refine ⟨write_sleb128 (toInt32 lne.il_offset) ++
      (write_sleb128 (toInt32 lne.native_offset) ++ out),
      by simp only [List.length_cons, write_line_numbers, hw, Option.map_some'], ?_⟩
    simp only [List.length_cons, read_line_numbers, List.append_assoc,
      read_sleb128_write_sleb128 _ _ (b1 _).1 (b1 _).2, hr, ofInt32_toInt32 _ hil,
      ofInt32_toInt32 _ hnat]

theorem read_variables_write_variables (sizeof_gpointer : Nat) (vars : List MonoDebugVarInfo) :
    ∀ (rest : List Nat), (∀ var ∈ vars, var.WellFormed sizeof_gpointer) →
      ∃ out, write_variables sizeof_gpointer vars.length vars = some out ∧
        read_variables sizeof_gpointer vars.length (out ++ rest) = some (vars, rest) := by
  induction vars with
  | nil => intro rest _; exact ⟨[], rfl, rfl⟩
  | cons var tl ih =>
    intro rest hwf
    obtain ⟨out, hw, hr⟩ := ih rest fun e he => hwf e (List.mem_cons_of_mem _ he)
    have hvar := hwf var (List.mem_cons_self _ _)
    refine ⟨write_variable sizeof_gpointer var ++ out,
      by simp only [List.length_cons, write_variables, hw, Option.map_some'], ?_⟩
    simp only [List.length_cons, read_variables, List.append_assoc,
      read_variable_write_variable _ _ _ hvar, hr]

/-- Every well-formed JIT debug info is serialised, and the serialised bytes decode to it. -/
theorem mono_debug_read_method_write (sizeof_gpointer : Nat) (jit : MonoDebugMethodJitInfo)
    (hjit : jit.WellFormed sizeof_gpointer) :
    ∃ buffer, mono_debug_add_method_write sizeof_gpointer jit = some buffer ∧
      mono_debug_read_method sizeof_gpointer
        { code_start := jit.code_start, code_size := jit.code_size, data := buffer } = some jit := by
  obtain ⟨_, hpro, hepi, hnl, hnl', hlines, hthis, hnp, hnp', hparams, hnloc, hnloc', hlocals,
    hpair, hinfo, hloc⟩ := hjit
  obtain ⟨code_start, code_size, prologue_end, epilogue_begin, num_line_numbers, line_numbers,
    this_var, num_params, params, num_locals, locals, info_var, locals_var⟩ := jit
  simp only at hpro hepi hnl hnl' hlines hthis hnp hnp' hparams hnloc hnloc' hlocals hpair hinfo hloc
  subst hnl' hnp' hnloc'
  have hgs : ∃ gs, write_gsharedvt sizeof_gpointer info_var locals_var = some gs ∧
      read_gsharedvt sizeof_gpointer gs = some (info_var, locals_var) := by
    cases info_var with
    | none =>
      cases locals_var with
      | none => exact ⟨[0], rfl, rfl⟩
      | some _ => simp at hpair
    | some info =>
      cases locals_var with
      | none => simp at hpair
      | some loc =>
        refine ⟨_, rfl, ?_⟩
        have h2 := read_variable_write_variable sizeof_gpointer loc [] (hloc loc rfl)
        rw [List.append_nil] at h2
        simp only [read_gsharedvt, ne_eq, one_ne_zero, not_false_eq_true, if_true,
          read_variable_write_variable _ _ _ (hinfo info rfl), h2]
  obtain ⟨gs, hgs1, hgs2⟩ := hgs
  obtain ⟨lo, hlo1, hlo2⟩ := read_variables_write_variables sizeof_gpointer locals gs hlocals
  have hthis2 : ∀ rest, read_this_var sizeof_gpointer
      (write_this_var sizeof_gpointer this_var ++ rest) = some (this_var, rest) := by
    intro rest
    cases this_var with
    | none => rfl
    | some var =>
      simp only [read_this_var, write_this_var, List.cons_append, ne_eq, one_ne_zero,
        not_false_eq_true, if_true, read_variable_write_variable _ _ _ (hthis var rfl),
        Option.map_some']
  obtain ⟨pa, hpa1, hpa2⟩ := read_variables_write_variables sizeof_gpointer params
    (write_leb128 locals.length ++ (lo ++ gs)) hparams
  obtain ⟨li, hli1, hli2⟩ := read_line_numbers_write_line_numbers line_numbers
    (write_this_var sizeof_gpointer this_var ++ (write_leb128 params.length ++ (pa ++
        (write_leb128 locals.length ++ (lo ++ gs))))) hlines
  refine ⟨write_leb128 prologue_end ++ (write_leb128 epilogue_begin ++
      (write_leb128 line_numbers.length ++ (li ++
        (write_this_var sizeof_gpointer this_var ++
          (write_leb128 params.length ++ (pa ++
            (write_leb128 locals.length ++ (lo ++ gs)))))))),
    by simp only [mono_debug_add_method_write, hli1, hpa1, hlo1, hgs1], ?_⟩
  simp only [mono_debug_read_method, read_leb128_write_leb128 _ _ hpro,
    read_leb128_write_leb128 _ _ hepi, read_leb128_write_leb128 _ _ hnl, hli2, hthis2,
    read_leb128_write_leb128 _ _ hnp, hpa2, read_leb128_write_leb128 _ _ hnloc, hlo2, hgs2]

/-! ## Tables: lemmas -/

theorem g_hash_table_lookup_insert_self {α : Type} (hash : GHashTable α) (key : Nat) (value : α) :
    g_hash_table_lookup (g_hash_table_insert hash key value) key = some value := by
  induction hash with
  | nil => simp [g_hash_table_insert, g_hash_table_lookup]
  | cons e rest ih =>
    obtain ⟨k, v⟩ := e
    by_cases h : k = key
    · simp [g_hash_table_insert, g_hash_table_lookup, h]
    · simp [g_hash_table_insert, g_hash_table_lookup, h, ih]

theorem g_hash_table_lookup_insert_ne {α : Type} (hash : GHashTable α) (key other : Nat)
    (value : α) (hne : other ≠ key) :
    g_hash_table_lookup (g_hash_table_insert hash key value) other
      = g_hash_table_lookup hash other := by
  induction hash with
  | nil => simp [g_hash_table_insert, g_hash_table_lookup, Ne.symm hne]
  | cons e rest ih =>
    obtain ⟨k, v⟩ := e
    by_cases h : k = key
    · subst h
      simp [g_hash_table_insert, g_hash_table_lookup, Ne.symm hne]
    · simp only [g_hash_table_insert, h, if_false, g_hash_table_lookup, ih]

theorem g_hash_table_insert_same {α : Type} (hash : GHashTable α) (key : Nat) (value : α)
    (hfound : g_hash_table_lookup hash key = some value) :
    g_hash_table_insert hash key value = hash := by
  induction hash with
  | nil => simp [g_hash_table_lookup] at hfound
  | cons e rest ih =>
    obtain ⟨k, v⟩ := e
    by_cases h : k = key
    · simp [g_hash_table_lookup, h] at hfound
      simp [g_hash_table_insert, h, hfound]
    · simp [g_hash_table_lookup, h] at hfound
      simp [g_hash_table_insert, h, ih hfound]

theorem g_hash_table_lookup_remove_self {α : Type} (hash : GHashTable α) (key : Nat) :
    g_hash_table_lookup (g_hash_table_remove hash key) key = none := by
  induction hash with
  | nil => rfl
  | cons e rest ih =>
    obtain ⟨k, v⟩ := e
    by_cases h : k = key
    · simp only [g_hash_table_remove, h, if_true, ih]
    · simp only [g_hash_table_remove, h, if_false, g_hash_table_lookup, ih]

theorem g_hash_table_lookup_remove_ne {α : Type} (hash : GHashTable α) (key other : Nat)
    (hne : other ≠ key) :
    g_hash_table_lookup (g_hash_table_remove hash key) other = g_hash_table_lookup hash other := by
  induction hash with
  | nil => rfl
  | cons e rest ih =>
    obtain ⟨k, v⟩ := e
    by_cases h : k = key
    · subst h
      simp only [g_hash_table_remove, if_true, ih, g_hash_table_lookup, Ne.symm hne, if_false]
    · simp only [g_hash_table_remove, h, if_false, g_hash_table_lookup, ih]

theorem g_hash_table_remove_absent {α : Type} (hash : GHashTable α) (key : Nat)
    (habsent : g_hash_table_lookup hash key = none) : g_hash_table_remove hash key = hash := by
  induction hash with
  | nil => rfl
  | cons e rest ih =>
    obtain ⟨k, v⟩ := e
    by_cases h : k = key
    · simp [g_hash_table_lookup, h] at habsent
    · simp only [g_hash_table_lookup, h, if_false] at habsent
      simp only [g_hash_table_remove, h, if_false, ih habsent]

/-! ## Insert, remove and find: lemmas -/

theorem write_sleb128_length_pos (value : Int) : 1 ≤ (write_sleb128 value).length := by
  unfold write_sleb128
  simp only [write_sleb128_loop]
  split <;> simp

theorem write_line_numbers_length :
    ∀ (n : Nat) (line_numbers : List MonoDebugLineNumberEntry) (out : List Nat),
      write_line_numbers n line_numbers = some out → 2 * n ≤ out.length := by
  intro n
  induction n with
  | zero => intro _ _ _; omega
  | succ n ih =>
    intro line_numbers out h
    cases line_numbers with
    | nil => simp [write_line_numbers] at h
    | cons lne rest =>
      simp only [write_line_numbers, Option.map_eq_some'] at h
      obtain ⟨tl, htl, rfl⟩ := h
      have h1 := ih rest tl htl
      have h2 := write_sleb128_length_pos (toInt32 lne.il_offset)
      have h3 := write_sleb128_length_pos (toInt32 lne.native_offset)
      simp only [List.length_append]
      omega

theorem mono_debug_add_method_write_length (sizeof_gpointer : Nat) (jit : MonoDebugMethodJitInfo)
    (buffer : List Nat) (h : mono_debug_add_method_write sizeof_gpointer jit = some buffer) :
    2 * jit.num_line_numbers ≤ buffer.length := by
  unfold mono_debug_add_method_write at h
  split at h
  · simp at h
  · rename_i li hli
    split at h
    · simp at h
    · split at h
      · simp at h
      · split at h
        · simp at h
        · simp only [Option.some.injEq] at h
          subst h
          have := write_line_numbers_length _ _ _ hli
          simp only [List.length_append]
          omega

/-- What a returning `mono_debug_add_method` has done to the state. -/
theorem mono_debug_add_method_state (sizeof_gpointer BUFSIZ : Nat) (s s1 : DebugState)
    (method domain : Nat) (jit : MonoDebugMethodJitInfo) (address : MonoDebugMethodAddress)
    (hadd : mono_debug_add_method sizeof_gpointer BUFSIZ s method jit domain = .ok (s1, address)) :
    s.initialized = true ∧
    ∃ table, g_hash_table_lookup s.data_table_hash domain = some table ∧
      s1 = { s with
              data_table_hash :=
                g_hash_table_insert s.data_table_hash domain
                  (MonoDebugDataTable.mk
                    (g_hash_table_insert table.method_address_hash method address)) } := by
  unfold mono_debug_add_method mono_debugger_lock lookup_data_table at hadd
  by_cases hinit : s.initialized = true
  · simp only [hinit, if_true] at hadd
    cases htab : g_hash_table_lookup s.data_table_hash domain with
    | none => simp [htab] at hadd
    | some table =>
      cases hbuf : mono_debug_add_method_write sizeof_gpointer jit with
      | none => simp [htab, hbuf] at hadd
      | some buffer =>
        simp only [htab, hbuf] at hadd
        by_cases hcap : buffer.length >
            (if max_size sizeof_gpointer jit > BUFSIZ then max_size sizeof_gpointer jit
              else BUFSIZ)
        · rw [if_pos hcap] at hadd
          cases hadd
        · rw [if_neg hcap] at hadd
          by_cases hsize : ¬ buffer.length % 2 ^ 32 < max_size sizeof_gpointer jit
          · rw [if_pos hsize] at hadd
            cases hadd
          · rw [if_neg hsize] at hadd
            simp only [Except.ok.injEq, Prod.mk.injEq] at hadd
            refine ⟨hinit, table, rfl, ?_⟩
            rw [← hadd.1, ← hadd.2, hinit]
  · simp [hinit] at hadd

/-- The record a returning `mono_debug_add_method` has stored: all the bytes it wrote, fewer
than `max_size`. -/
theorem mono_debug_add_method_record (sizeof_gpointer BUFSIZ : Nat) (s s1 : DebugState)
    (method domain : Nat) (jit : MonoDebugMethodJitInfo) (address : MonoDebugMethodAddress)
    (hB : BUFSIZ < 2 ^ 32)
    (hadd : mono_debug_add_method sizeof_gpointer BUFSIZ s method jit domain = .ok (s1, address)) :
    ∃ buffer, mono_debug_add_method_write sizeof_gpointer jit = some buffer ∧
      buffer.length < max_size sizeof_gpointer jit ∧
      address = { code_start := jit.code_start, code_size := jit.code_size, data := buffer } := by
  unfold mono_debug_add_method mono_debugger_lock lookup_data_table at hadd
  by_cases hinit : s.initialized = true
  · simp only [hinit, if_true] at hadd
    cases htab : g_hash_table_lookup s.data_table_hash domain with
    | none => simp [htab] at hadd
    | some table =>
      cases hbuf : mono_debug_add_method_write sizeof_gpointer jit with
      | none => simp [htab, hbuf] at hadd
      | some buffer =>
        simp only [htab, hbuf] at hadd
        have hmax : max_size sizeof_gpointer jit < 2 ^ 32 := Nat.mod_lt _ (by decide)
        by_cases hcap : buffer.length >
            (if max_size sizeof_gpointer jit > BUFSIZ then max_size sizeof_gpointer jit
              else BUFSIZ)
        · rw [if_pos hcap] at hadd
          cases hadd
        · rw [if_neg hcap] at hadd
          have hlen : buffer.length < 2 ^ 32 := by
            split at hcap <;> omega
          have hmod : buffer.length % 2 ^ 32 = buffer.length := Nat.mod_eq_of_lt hlen
          rw [hmod, List.take_length] at hadd
          by_cases hsize : ¬ buffer.length < max_size sizeof_gpointer jit
          · rw [if_pos hsize] at hadd
            cases hadd
          · rw [if_neg hsize] at hadd
            simp only [Except.ok.injEq, Prod.mk.injEq] at hadd
            exact ⟨buffer, rfl, by omega, hadd.2.symm⟩
  · simp [hinit] at hadd

theorem find_method_add_method (sizeof_gpointer BUFSIZ : Nat) (s s1 : DebugState)
    (method domain : Nat) (jit : MonoDebugMethodJitInfo) (address : MonoDebugMethodAddress)
    (hB : BUFSIZ < 2 ^ 32) (hjit : jit.WellFormed sizeof_gpointer)
    (hadd : mono_debug_add_method sizeof_gpointer BUFSIZ s method jit domain = .ok (s1, address)) :
    mono_debug_read_method sizeof_gpointer address = some jit ∧
    find_method sizeof_gpointer s1 method domain = .ok (some jit) := by
  obtain ⟨_, table, _, hs1⟩ :=
    mono_debug_add_method_state sizeof_gpointer BUFSIZ s s1 method domain jit address hadd
  obtain ⟨buffer, hbuf, _, haddr⟩ :=
    mono_debug_add_method_record sizeof_gpointer BUFSIZ s s1 method domain jit address hB hadd
  obtain ⟨buffer1, hbuf1, hread⟩ := mono_debug_read_method_write sizeof_gpointer jit hjit
  have hb : buffer1 = buffer := by
    rw [hbuf] at hbuf1
    exact (Option.some.inj hbuf1).symm
  subst hb
  have hread1 : mono_debug_read_method sizeof_gpointer address = some jit := by
    rw [haddr]; exact hread
  refine ⟨hread1, ?_⟩
  subst hs1
  simp only [find_method, lookup_data_table, g_hash_table_lookup_insert_self, hread1]

theorem find_method_add_method_other (sizeof_gpointer BUFSIZ : Nat) (s s1 : DebugState)
    (method domain other : Nat) (jit : MonoDebugMethodJitInfo) (address : MonoDebugMethodAddress)
    (hne : other ≠ method)
    (hadd : mono_debug_add_method sizeof_gpointer BUFSIZ s method jit domain = .ok (s1, address)) :
    find_method sizeof_gpointer s1 other domain = find_method sizeof_gpointer s other domain := by
  obtain ⟨_, table, htab, hs1⟩ :=
    mono_debug_add_method_state sizeof_gpointer BUFSIZ s s1 method domain jit address hadd
  subst hs1
  simp only [find_method, lookup_data_table, g_hash_table_lookup_insert_self, htab,
    g_hash_table_lookup_insert_ne _ _ _ _ hne]

theorem lookup_data_table_add_method_other (sizeof_gpointer BUFSIZ : Nat) (s s1 : DebugState)
    (method domain other : Nat) (jit : MonoDebugMethodJitInfo) (address : MonoDebugMethodAddress)
    (hne : other ≠ domain)
    (hadd : mono_debug_add_method sizeof_gpointer BUFSIZ s method jit domain = .ok (s1, address)) :
    lookup_data_table s1 other = lookup_data_table s other := by
  obtain ⟨_, table, htab, hs1⟩ :=
    mono_debug_add_method_state sizeof_gpointer BUFSIZ s s1 method domain jit address hadd
  subst hs1
  simp only [lookup_data_table, g_hash_table_lookup_insert_ne _ _ _ _ hne]

/-! ## Native offset to IL offset: lemmas -/

/-- The reverse scan from index `n - 1` down to 0 returns the entry of greatest index below
`n` whose native offset does not exceed the query, or -1 when there is none. -/
theorem il_offset_from_address_loop_spec (line_numbers : List MonoDebugLineNumberEntry)
    (q : Nat) :
    ∀ n, n ≤ line_numbers.length →
      (∃ i lne, i < n ∧ line_numbers[i]? = some lne ∧ lne.native_offset ≤ q ∧
          (∀ j lne1, i < j → j < n → line_numbers[j]? = some lne1 → q < lne1.native_offset) ∧
          il_offset_from_address_loop line_numbers q n = .ok (toInt32 lne.il_offset)) ∨
      ((∀ j lne1, j < n → line_numbers[j]? = some lne1 → q < lne1.native_offset) ∧
          il_offset_from_address_loop line_numbers q n = .ok (-1)) := by
  intro n
  induction n with
  | zero =>
    intro _
    right
    exact ⟨fun j _ hj => absurd hj (Nat.not_lt_zero j), rfl⟩
  | succ n ih =>
    intro hn
    have hget : line_numbers[n]? = some line_numbers[n] := List.getElem?_eq_getElem (by omega)
    by_cases hle : line_numbers[n].native_offset ≤ q
    · left
      refine ⟨n, line_numbers[n], by omega, hget, hle, fun j _ h1 h2 => by omega, ?_⟩
      simp only [il_offset_from_address_loop, hget, hle, if_true]
    · have hloop : il_offset_from_address_loop line_numbers q (n + 1)
          = il_offset_from_address_loop line_numbers q n := by
        simp only [il_offset_from_address_loop, hget, hle, if_false]
      have hlast : ∀ j lne1, j < n + 1 → n ≤ j → line_numbers[j]? = some lne1 →
          q < lne1.native_offset := by
        intro j lne1 h1 h2 hj
        have hjn : j = n := by omega
        subst hjn
        rw [hget] at hj
        cases hj
        omega
      rcases ih (by omega) with ⟨i, lne, hi, hgi, hqi, hafter, hres⟩ | ⟨hnone, hres⟩
      · left
        refine ⟨i, lne, by omega, hgi, hqi, ?_, by rw [hloop, hres]⟩
        intro j lne1 hij hj hgj
        by_cases hjn : j < n
        · exact hafter j lne1 hij hjn hgj
        · exact hlast j lne1 hj (by omega) hgj
      · right
        refine ⟨?_, by rw [hloop, hres]⟩
        intro j lne1 hj hgj
        by_cases hjn : j < n
        · exact hnone j lne1 hjn hgj
        · exact hlast j lne1 hj (by omega) hgj

/-- On a decoded record whose count is the length of its line table, at most `2 ^ 31`,
`il_offset_from_address` is the scan of the whole table from its last entry. -/
theorem il_offset_from_address_of_find (sizeof_gpointer : Nat) (s : DebugState)
    (method domain q : Nat) (jit : MonoDebugMethodJitInfo)
    (hfind : find_method sizeof_gpointer s method domain = .ok (some jit))
    (hnum : jit.num_line_numbers = jit.line_numbers.length)
    (hlen : jit.line_numbers.length ≤ 2 ^ 31) :
    il_offset_from_address sizeof_gpointer s method domain q
      = il_offset_from_address_loop jit.line_numbers q jit.line_numbers.length := by
  simp only [il_offset_from_address, hfind]
  by_cases hnil : jit.line_numbers = []
  · simp [hnil, il_offset_from_address_loop]
  · have hpos : 0 < jit.line_numbers.length := List.length_pos.2 hnil
    rw [if_neg hnil, hnum]
    have hi : toInt32 ((jit.line_numbers.length + 2 ^ 32 - 1) % 2 ^ 32)
        = ((jit.line_numbers.length - 1 : Nat) : Int) := by
      unfold toInt32
      split <;> omega
    simp only [hi]
    have hn : ((jit.line_numbers.length - 1 : Nat) : Int).toNat + 1
        = jit.line_numbers.length := by omega
    rw [if_neg (by omega), hn]

theorem find_method_of_lookup (sizeof_gpointer : Nat) (s : DebugState) (method domain : Nat)
    (table : MonoDebugDataTable) (address : MonoDebugMethodAddress) (jit : MonoDebugMethodJitInfo)
    (htable : lookup_data_table s domain = .ok table)
    (hrec : g_hash_table_lookup table.method_address_hash method = some address)
    (hread : mono_debug_read_method sizeof_gpointer address = some jit) :
    find_method sizeof_gpointer s method domain = .ok (some jit) := by
  simp only [find_method, htable, hrec, hread]

theorem find_method_of_absent (sizeof_gpointer : Nat) (s : DebugState) (method domain : Nat)
    (table : MonoDebugDataTable) (htable : lookup_data_table s domain = .ok table)
    (hrec : g_hash_table_lookup table.method_address_hash method = none) :
    find_method sizeof_gpointer s method domain = .ok none := by
  simp only [find_method, htable, hrec]

theorem lookup_data_table_eq_ok (s : DebugState) (domain : Nat) (table : MonoDebugDataTable) :
    lookup_data_table s domain = .ok table ↔
      g_hash_table_lookup s.data_table_hash domain = some table := by
  unfold lookup_data_table
  cases g_hash_table_lookup s.data_table_hash domain <;> simp

/-- A stored record has fewer than `2 ^ 31` line entries. -/
theorem mono_debug_add_method_lines (sizeof_gpointer BUFSIZ : Nat) (s s1 : DebugState)
    (method domain : Nat) (jit : MonoDebugMethodJitInfo) (address : MonoDebugMethodAddress)
    (hB : BUFSIZ < 2 ^ 32)
    (hadd : mono_debug_add_method sizeof_gpointer BUFSIZ s method jit domain = .ok (s1, address)) :
    jit.num_line_numbers < 2 ^ 31 := by
  obtain ⟨buffer, hbuf, hlt, _⟩ :=
    mono_debug_add_method_record sizeof_gpointer BUFSIZ s s1 method domain jit address hB hadd
  have h1 := mono_debug_add_method_write_length sizeof_gpointer jit buffer hbuf
  have hmax : max_size sizeof_gpointer jit < 2 ^ 32 := Nat.mod_lt _ (by decide)
  omega

/-! ## Remove and unload: lemmas -/

/-- What `mono_debug_remove_method` does for a dynamic method once debug support is
initialised and the domain has a table. -/
theorem mono_debug_remove_method_ok (method_is_dynamic : Nat → Bool) (s : DebugState)
    (method domain : Nat) (table : MonoDebugDataTable)
    (hdyn : method_is_dynamic method = true) (hinit : s.mono_debug_initialized = true)
    (hlock : s.initialized = true) (htable : lookup_data_table s domain = .ok table) :
    mono_debug_remove_method method_is_dynamic s method domain
      = .ok { s with
                data_table_hash :=
                  g_hash_table_insert s.data_table_hash domain
                    (MonoDebugDataTable.mk
                      (g_hash_table_remove table.method_address_hash method)) } := by
  simp only [mono_debug_remove_method, hinit, hdyn, mono_debugger_lock, hlock, htable,
    Bool.not_true, Bool.false_eq_true, if_false, if_true]

theorem mono_debug_domain_unload_other (s s2 : DebugState) (domain other : Nat)
    (hne : other ≠ domain) (hunload : mono_debug_domain_unload s domain = .ok s2) :
    lookup_data_table s2 other = lookup_data_table s other := by
  unfold mono_debug_domain_unload mono_debugger_lock at hunload
  by_cases hinit : s.mono_debug_initialized = true
  · by_cases hlock : s.initialized = true
    · simp only [hinit, hlock, Bool.not_true, Bool.false_eq_true, if_false, if_true] at hunload
      cases htab : g_hash_table_lookup s.data_table_hash domain with
      | none =>
        simp only [htab, Except.ok.injEq] at hunload
        rw [← hunload]
      | some table =>
        simp only [htab, Except.ok.injEq] at hunload
        rw [← hunload]
        simp only [lookup_data_table, g_hash_table_lookup_remove_ne _ _ _ hne]
    · simp [hinit, hlock] at hunload
  · simp only [Bool.not_eq_true] at hinit
    simp only [hinit, Bool.not_false, if_true, Except.ok.injEq] at hunload
    rw [← hunload]

theorem mono_debug_domain_unload_self (s s2 : DebugState) (domain : Nat)
    (hinit : s.mono_debug_initialized = true)
    (hunload : mono_debug_domain_unload s domain = .ok s2) :
    lookup_data_table s2 domain = .error .g_error := by
  unfold mono_debug_domain_unload mono_debugger_lock at hunload
  by_cases hlock : s.initialized = true
  · simp only [hinit, hlock, Bool.not_true, Bool.false_eq_true, if_false, if_true] at hunload
    cases htab : g_hash_table_lookup s.data_table_hash domain with
    | none =>
      simp only [htab, Except.ok.injEq] at hunload
      rw [← hunload]
      simp only [lookup_data_table, htab]
    | some table =>
      simp only [htab, Except.ok.injEq] at hunload
      rw [← hunload]
      simp only [lookup_data_table, g_hash_table_lookup_remove_self]
  · simp [hinit, hlock] at hunload

theorem find_method_congr (sizeof_gpointer : Nat) (s s1 : DebugState) (method domain : Nat)
    (h : lookup_data_table s1 domain = lookup_data_table s domain) :
    find_method sizeof_gpointer s1 method domain = find_method sizeof_gpointer s method domain := by
  simp only [find_method, h]

/-! ## The claims -/

/-- Claim C1: every well-formed JIT debug info is serialised by `mono_debug_add_method`, the
bytes it writes decode with `mono_debug_read_method` to a value equal to the original in
every field, and so does every record `mono_debug_add_method` returns for it. -/
theorem mono_debug_read_method_add_method_roundtrip (sizeof_gpointer BUFSIZ : Nat)
    (jit : MonoDebugMethodJitInfo) (hB : BUFSIZ < 2 ^ 32)
    (hjit : jit.WellFormed sizeof_gpointer) :
    (∃ buffer, mono_debug_add_method_write sizeof_gpointer jit = some buffer ∧
      mono_debug_read_method sizeof_gpointer
        { code_start := jit.code_start, code_size := jit.code_size, data := buffer }
          = some jit) ∧
    (∀ (s s1 : DebugState) (method domain : Nat) (address : MonoDebugMethodAddress),
      mono_debug_add_method sizeof_gpointer BUFSIZ s method jit domain = .ok (s1, address) →
        mono_debug_read_method sizeof_gpointer address = some jit) :=
  ⟨mono_debug_read_method_write sizeof_gpointer jit hjit,
   fun s s1 method domain address hadd =>
    (find_method_add_method sizeof_gpointer BUFSIZ s s1 method domain jit address hB hjit hadd).1⟩

/-- Claim C1 at `sample_jit_vars`, with 8-byte pointers and a buffer of 8192 bytes; the insert
into `sample_state` returns a record. -/
theorem mono_debug_read_method_add_method_roundtrip_witness :
    (8192 < 2 ^ 32 ∧ sample_jit_vars.WellFormed 8) ∧
    (mono_debug_add_method 8 8192 sample_state 7 sample_jit_vars 1).toBool = true ∧
    ((∃ buffer, mono_debug_add_method_write 8 sample_jit_vars = some buffer ∧
      mono_debug_read_method 8
        { code_start := sample_jit_vars.code_start, code_size := sample_jit_vars.code_size,
          data := buffer } = some sample_jit_vars) ∧
    (∀ (s s1 : DebugState) (method domain : Nat) (address : MonoDebugMethodAddress),
      mono_debug_add_method 8 8192 s method sample_jit_vars domain = .ok (s1, address) →
        mono_debug_read_method 8 address = some sample_jit_vars)) :=
  ⟨⟨by decide, by decide⟩, by decide,
   mono_debug_read_method_add_method_roundtrip 8 8192 sample_jit_vars (by decide) (by decide)⟩

/-- Claim C2: for every 32-bit unsigned `x` and every bytes `rest` that follow, `read_leb128`
on the bytes of `write_leb128 x` returns `x` and leaves the cursor at `rest`, where the
writer left its own. -/
theorem read_leb128_write_leb128_roundtrip (x : Nat) (rest : List Nat) (hx : x < 2 ^ 32) :
    read_leb128 (write_leb128 x ++ rest) = some (x, rest) :=
  read_leb128_write_leb128 x rest hx

/-- Claim C2 at the greatest 32-bit value, a five-byte encoding. -/
theorem read_leb128_write_leb128_roundtrip_witness :
    4294967295 < 2 ^ 32 ∧
    read_leb128 (write_leb128 4294967295 ++ [7, 9]) = some (4294967295, [7, 9]) :=
  ⟨by decide, read_leb128_write_leb128_roundtrip 4294967295 [7, 9] (by decide)⟩

/-- Claim C3: for every 32-bit signed `x` and every bytes `rest` that follow, `read_sleb128`
on the bytes of `write_sleb128 x` returns `x` and leaves the cursor at `rest`; on a last
byte the decoder sign-extends exactly when bit 6 is set and the shift after it is below
32. -/
theorem read_sleb128_write_sleb128_roundtrip (x : Int) (rest : List Nat)
    (hlo : -(2 ^ 31 : Int) ≤ x) (hhi : x < 2 ^ 31) :
    read_sleb128 (write_sleb128 x ++ rest) = some (x, rest) ∧
    (∀ (result shift byte : Nat) (ptr : List Nat), byte &&& 0x80 = 0 →
      read_sleb128_loop result shift (byte :: ptr)
        = some (if (shift + 7) % 2 ^ 32 < 32 ∧ byte &&& 0x40 ≠ 0 then
              (result ||| (((byte &&& 0x7f) <<< shift) % 2 ^ 32))
                ||| (2 ^ 32 - 2 ^ ((shift + 7) % 2 ^ 32))
            else result ||| (((byte &&& 0x7f) <<< shift) % 2 ^ 32), ptr)) := by
  refine ⟨read_sleb128_write_sleb128 x rest hlo hhi, ?_⟩
  intro result shift byte ptr hlast
  simp only [read_sleb128_loop, hlast, ne_eq, not_true_eq_false, if_false]
  split <;> rfl

/-- Claim C3 at the least 32-bit value, a five-byte encoding that needs the wrap-around. -/
theorem read_sleb128_write_sleb128_roundtrip_witness :
    (-(2 ^ 31 : Int) ≤ -2147483648 ∧ (-2147483648 : Int) < 2 ^ 31) ∧
    (read_sleb128 (write_sleb128 (-2147483648) ++ [7, 9]) = some (-2147483648, [7, 9]) ∧
    (∀ (result shift byte : Nat) (ptr : List Nat), byte &&& 0x80 = 0 →
      read_sleb128_loop result shift (byte :: ptr)
        = some (if (shift + 7) % 2 ^ 32 < 32 ∧ byte &&& 0x40 ≠ 0 then
              (result ||| (((byte &&& 0x7f) <<< shift) % 2 ^ 32))
                ||| (2 ^ 32 - 2 ^ ((shift + 7) % 2 ^ 32))
            else result ||| (((byte &&& 0x7f) <<< shift) % 2 ^ 32), ptr))) :=
  ⟨⟨by decide, by decide⟩,
   read_sleb128_write_sleb128_roundtrip (-2147483648) [7, 9] (by decide) (by decide)⟩

/-- Claim C4: `write_leb128 (0)` and `write_sleb128 (0)` each write the single byte 0x00, and
`write_sleb128 (-1)` writes the single byte 0x7f. -/
theorem write_leb128_zero_minus_one :
    write_leb128 0 = [0x00] ∧ write_sleb128 0 = [0x00] ∧ write_sleb128 (-1) = [0x7f] := by
  decide

/-- Claim C5: in a state whose table for `domain` holds, for `method`, a record stored by
`mono_debug_add_method` from the well-formed `jit`, `il_offset_from_address` with the 32-bit
query `q` returns the IL offset (as the `gint32` of the same 32 bits) of the entry of
greatest index among those whose native offset is at most `q`; it returns -1 when the table
holds no record for `method`, when the record has no line entry, and when no entry has a
native offset at most `q`. -/
theorem il_offset_from_address_reverse_scan (sizeof_gpointer BUFSIZ : Nat) (hB : BUFSIZ < 2 ^ 32)
    (s0 s1 : DebugState) (method0 domain0 : Nat) (jit : MonoDebugMethodJitInfo)
    (address : MonoDebugMethodAddress) (hjit : jit.WellFormed sizeof_gpointer)
    (hadd : mono_debug_add_method sizeof_gpointer BUFSIZ s0 method0 jit domain0
      = .ok (s1, address))
    (s : DebugState) (method domain : Nat) (table : MonoDebugDataTable)
    (htable : lookup_data_table s domain = .ok table) (q : Nat) (_hq : q < 2 ^ 32) :
    (g_hash_table_lookup table.method_address_hash method = none →
      il_offset_from_address sizeof_gpointer s method domain q = .ok (-1)) ∧
    (g_hash_table_lookup table.method_address_hash method = some address →
      (jit.line_numbers = [] →
        il_offset_from_address sizeof_gpointer s method domain q = .ok (-1)) ∧
      ((∃ (i : Nat) (lne : MonoDebugLineNumberEntry),
          jit.line_numbers[i]? = some lne ∧ lne.native_offset ≤ q ∧
          (∀ (j : Nat) (lne1 : MonoDebugLineNumberEntry), i < j → jit.line_numbers[j]? = some lne1 →
            q < lne1.native_offset) ∧
          il_offset_from_address sizeof_gpointer s method domain q
            = .ok (toInt32 lne.il_offset)) ∨
       ((∀ lne ∈ jit.line_numbers, q < lne.native_offset) ∧
          il_offset_from_address sizeof_gpointer s method domain q = .ok (-1)))) := by
  constructor
  · intro habsent
    simp only [il_offset_from_address,
      find_method_of_absent sizeof_gpointer s method domain table htable habsent]
  · intro hrec
    have hread := (find_method_add_method sizeof_gpointer BUFSIZ s0 s1 method0 domain0 jit
      address hB hjit hadd).1
    have hfind := find_method_of_lookup sizeof_gpointer s method domain table address jit
      htable hrec hread
    have hlines := mono_debug_add_method_lines sizeof_gpointer BUFSIZ s0 s1 method0 domain0 jit
      address hB hadd
    have hnum : jit.num_line_numbers = jit.line_numbers.length := hjit.2.2.2.2.1
    have hil := il_offset_from_address_of_find sizeof_gpointer s method domain q jit hfind hnum
      (by omega)
    rw [hil]
    constructor
    · intro hnil
      rw [hnil]
      rfl
    · rcases il_offset_from_address_loop_spec jit.line_numbers q jit.line_numbers.length
          (Nat.le_refl _) with ⟨i, lne, _, hgi, hqi, hafter, hres⟩ | ⟨hnone, hres⟩
      · left
        refine ⟨i, lne, hgi, hqi, ?_, hres⟩
        intro j lne1 hij hgj
        have hj : j < jit.line_numbers.length := by
          by_contra hc
          rw [List.getElem?_eq_none (by omega)] at hgj
          cases hgj
        exact hafter j lne1 hij hj hgj
      · right
        refine ⟨?_, hres⟩
        intro lne hmem
        obtain ⟨j, hj, hgj⟩ := List.getElem_of_mem hmem
        exact hnone j lne hj (by rw [List.getElem?_eq_getElem hj, hgj])

/-- Claim C5 at the record of `sample_jit` stored for method 7 in domain 1, with the query
25. -/
theorem il_offset_from_address_reverse_scan_witness :
    (8192 < 2 ^ 32 ∧ sample_jit.WellFormed 8 ∧
      mono_debug_add_method 8 8192 sample_state 7 sample_jit 1
        = .ok (sample_state_added, sample_address) ∧
      lookup_data_table sample_state_added 1
        = .ok { method_address_hash := [(7, sample_address)] } ∧ 25 < 2 ^ 32) ∧
    ((g_hash_table_lookup [(7, sample_address)] 7 = none →
      il_offset_from_address 8 sample_state_added 7 1 25 = .ok (-1)) ∧
    (g_hash_table_lookup [(7, sample_address)] 7 = some sample_address →
      (sample_jit.line_numbers = [] →
        il_offset_from_address 8 sample_state_added 7 1 25 = .ok (-1)) ∧
      ((∃ (i : Nat) (lne : MonoDebugLineNumberEntry),
          sample_jit.line_numbers[i]? = some lne ∧ lne.native_offset ≤ 25 ∧
          (∀ (j : Nat) (lne1 : MonoDebugLineNumberEntry), i < j →
            sample_jit.line_numbers[j]? = some lne1 → 25 < lne1.native_offset) ∧
          il_offset_from_address 8 sample_state_added 7 1 25 = .ok (toInt32 lne.il_offset)) ∨
       ((∀ lne ∈ sample_jit.line_numbers, 25 < lne.native_offset) ∧
          il_offset_from_address 8 sample_state_added 7 1 25 = .ok (-1))))) :=
  ⟨⟨by decide, by decide, by decide, by decide, by decide⟩,
   il_offset_from_address_reverse_scan 8 8192 (by decide) sample_state sample_state_added 7 1
     sample_jit sample_address (by decide) (by decide) sample_state_added 7 1
     { method_address_hash := [(7, sample_address)] } (by decide) 25 (by decide)⟩

/-- Claim C6 fails as stated: for the record with native offsets 0, 10, 20, 30 and IL offsets
0, 5, 12, 18, stored by `mono_debug_add_method`, the native offset -1 taken as the 32-bit
unsigned argument is 4294967295 and `il_offset_from_address`, like
`mono_debug_il_offset_from_address`, returns the IL offset 18 of the last entry, not -1. -/
theorem il_offset_from_address_minus_one_found :
    mono_debug_add_method 8 8192 sample_state 7 sample_jit 1
      = .ok (sample_state_added, sample_address) ∧
    ofInt32 (-1) = 4294967295 ∧
    il_offset_from_address 8 sample_state_added 7 1 (ofInt32 (-1)) = .ok 18 ∧
    mono_debug_il_offset_from_address 8 sample_state_added 7 1 (ofInt32 (-1)) = .ok 18 ∧
    ¬ (il_offset_from_address 8 sample_state_added 7 1 25 = .ok 12 ∧
       il_offset_from_address 8 sample_state_added 7 1 5 = .ok 0 ∧
       il_offset_from_address 8 sample_state_added 7 1 (ofInt32 (-1)) = .ok (-1)) := by
  decide

/-- Claim C6 as amended: for every record that decodes to the line entries with native offsets
0, 10, 20, 30 and IL offsets 0, 5, 12, 18, `il_offset_from_address` and
`mono_debug_il_offset_from_address` return IL offset 12 for the native offset 25, IL offset 0
for the native offset 5, and IL offset 18 (the last entry) for the native offset -1 taken
as the 32-bit unsigned argument. -/
theorem il_offset_from_address_sample_table (sizeof_gpointer : Nat) (s : DebugState)
    (method domain : Nat) (jit : MonoDebugMethodJitInfo)
    (hlock : s.initialized = true)
    (hfind : find_method sizeof_gpointer s method domain = .ok (some jit))
    (hnum : jit.num_line_numbers = 4)
    (hlines : jit.line_numbers = [⟨0, 0⟩, ⟨5, 10⟩, ⟨12, 20⟩, ⟨18, 30⟩]) :
    (il_offset_from_address sizeof_gpointer s method domain 25 = .ok 12 ∧
     il_offset_from_address sizeof_gpointer s method domain 5 = .ok 0 ∧
     il_offset_from_address sizeof_gpointer s method domain (ofInt32 (-1)) = .ok 18) ∧
    (mono_debug_il_offset_from_address sizeof_gpointer s method domain 25 = .ok 12 ∧
     mono_debug_il_offset_from_address sizeof_gpointer s method domain 5 = .ok 0 ∧
     mono_debug_il_offset_from_address sizeof_gpointer s method domain (ofInt32 (-1))
       = .ok 18) := by
  have hlen : jit.line_numbers.length = 4 := by rw [hlines]; rfl
  have hil : ∀ q, il_offset_from_address sizeof_gpointer s method domain q
      = il_offset_from_address_loop [⟨0, 0⟩, ⟨5, 10⟩, ⟨12, 20⟩, ⟨18, 30⟩] q 4 := by
    intro q
    rw [il_offset_from_address_of_find sizeof_gpointer s method domain q jit hfind
      (by rw [hnum, hlen]) (by rw [hlen]; decide), hlen, hlines]
  have h25 : il_offset_from_address_loop [⟨0, 0⟩, ⟨5, 10⟩, ⟨12, 20⟩, ⟨18, 30⟩] 25 4 = .ok 12 := by
    decide
  have h5 : il_offset_from_address_loop [⟨0, 0⟩, ⟨5, 10⟩, ⟨12, 20⟩, ⟨18, 30⟩] 5 4 = .ok 0 := by
    decide
  have hm1 : il_offset_from_address_loop [⟨0, 0⟩, ⟨5, 10⟩, ⟨12, 20⟩, ⟨18, 30⟩] (ofInt32 (-1)) 4
      = .ok 18 := by
    decide
  simp only [mono_debug_il_offset_from_address, mono_debugger_lock, hlock, if_true, hil, h25, h5,
    hm1, and_self]

/-- Claim C6 as amended, at the record of `sample_jit` stored for method 7 in domain 1. -/
theorem il_offset_from_address_sample_table_witness :
    (sample_state_added.initialized = true ∧
      find_method 8 sample_state_added 7 1 = .ok (some sample_jit) ∧
      sample_jit.num_line_numbers = 4 ∧
      sample_jit.line_numbers = [⟨0, 0⟩, ⟨5, 10⟩, ⟨12, 20⟩, ⟨18, 30⟩]) ∧
    ((il_offset_from_address 8 sample_state_added 7 1 25 = .ok 12 ∧
     il_offset_from_address 8 sample_state_added 7 1 5 = .ok 0 ∧
     il_offset_from_address 8 sample_state_added 7 1 (ofInt32 (-1)) = .ok 18) ∧
    (mono_debug_il_offset_from_address 8 sample_state_added 7 1 25 = .ok 12 ∧
     mono_debug_il_offset_from_address 8 sample_state_added 7 1 5 = .ok 0 ∧
     mono_debug_il_offset_from_address 8 sample_state_added 7 1 (ofInt32 (-1)) = .ok 18)) :=
  ⟨⟨by decide, by decide, by decide, by decide⟩,
   il_offset_from_address_sample_table 8 sample_state_added 7 1 sample_jit (by decide)
     (by decide) (by decide) (by decide)⟩

/-- Claim C7: when `mono_debug_add_method (m, j1, d)` returns, `find_method (m, d)` returns a
value equal to the well-formed `j1`; when a further `mono_debug_add_method (m, j2, d)`
returns, `find_method (m, d)` returns a value equal to the well-formed `j2`; and for every
other method the result of `find_method` in `d` is the same before and after the inserts. -/
theorem find_method_add_method_overwrite (sizeof_gpointer BUFSIZ : Nat) (hB : BUFSIZ < 2 ^ 32)
    (s s1 s2 : DebugState) (method domain : Nat) (j1 j2 : MonoDebugMethodJitInfo)
    (a1 a2 : MonoDebugMethodAddress)
    (hj1 : j1.WellFormed sizeof_gpointer) (hj2 : j2.WellFormed sizeof_gpointer)
    (hadd1 : mono_debug_add_method sizeof_gpointer BUFSIZ s method j1 domain = .ok (s1, a1))
    (hadd2 : mono_debug_add_method sizeof_gpointer BUFSIZ s1 method j2 domain = .ok (s2, a2)) :
    find_method sizeof_gpointer s1 method domain = .ok (some j1) ∧
    find_method sizeof_gpointer s2 method domain = .ok (some j2) ∧
    (∀ other, other ≠ method →
      find_method sizeof_gpointer s1 other domain = find_method sizeof_gpointer s other domain ∧
      find_method sizeof_gpointer s2 other domain
        = find_method sizeof_gpointer s other domain) := by
  refine ⟨(find_method_add_method sizeof_gpointer BUFSIZ s s1 method domain j1 a1 hB hj1
      hadd1).2,
    (find_method_add_method sizeof_gpointer BUFSIZ s1 s2 method domain j2 a2 hB hj2 hadd2).2, ?_⟩
  intro other hne
  have h1 := find_method_add_method_other sizeof_gpointer BUFSIZ s s1 method domain other j1 a1
    hne hadd1
  have h2 := find_method_add_method_other sizeof_gpointer BUFSIZ s1 s2 method domain other j2 a2
    hne hadd2
  exact ⟨h1, h2.trans h1⟩

/-- Claim C7 at `sample_state`: `sample_jit` and then `sample_jit_small` are inserted for
method 7 in domain 1. -/
theorem find_method_add_method_overwrite_witness :
    (8192 < 2 ^ 32 ∧ sample_jit.WellFormed 8 ∧ sample_jit_small.WellFormed 8 ∧
      mono_debug_add_method 8 8192 sample_state 7 sample_jit 1
        = .ok (sample_state_added, sample_address) ∧
      mono_debug_add_method 8 8192 sample_state_added 7 sample_jit_small 1
        = .ok (sample_state_replaced, sample_address_small)) ∧
    (find_method 8 sample_state_added 7 1 = .ok (some sample_jit) ∧
    find_method 8 sample_state_replaced 7 1 = .ok (some sample_jit_small) ∧
    (∀ other, other ≠ 7 →
      find_method 8 sample_state_added other 1 = find_method 8 sample_state other 1 ∧
      find_method 8 sample_state_replaced other 1 = find_method 8 sample_state other 1)) :=
  ⟨⟨by decide, by decide, by decide, by decide, by decide⟩,
   find_method_add_method_overwrite 8 8192 (by decide) sample_state sample_state_added
     sample_state_replaced 7 1 sample_jit sample_jit_small sample_address sample_address_small
     (by decide) (by decide) (by decide) (by decide)⟩

/-- Claim C8: for distinct domains A and B, where B has the table `tableB`: when
`mono_debug_add_method` inserts a record for a method in A, B still has the table `tableB`
and every `find_method` in B returns what it returned before; when
`mono_debug_domain_unload (A)` returns, B still has the table `tableB` and every
`find_method` in B returns what it returned before, while A has no table left once debug
support is initialised. -/
theorem domain_isolation (sizeof_gpointer BUFSIZ : Nat) (s : DebugState) (A B : Nat)
    (hAB : A ≠ B) (tableB : MonoDebugDataTable) (hregB : lookup_data_table s B = .ok tableB) :
    (∀ (method : Nat) (jit : MonoDebugMethodJitInfo) (s1 : DebugState)
        (address : MonoDebugMethodAddress),
      mono_debug_add_method sizeof_gpointer BUFSIZ s method jit A = .ok (s1, address) →
        lookup_data_table s1 B = .ok tableB ∧
        ∀ m, find_method sizeof_gpointer s1 m B = find_method sizeof_gpointer s m B) ∧
    (∀ s2, mono_debug_domain_unload s A = .ok s2 →
        lookup_data_table s2 B = .ok tableB ∧
        (∀ m, find_method sizeof_gpointer s2 m B = find_method sizeof_gpointer s m B) ∧
        (s.mono_debug_initialized = true → lookup_data_table s2 A = .error .g_error)) := by
  constructor
  · intro method jit s1 address hadd
    have h := lookup_data_table_add_method_other sizeof_gpointer BUFSIZ s s1 method A B jit
      address (Ne.symm hAB) hadd
    exact ⟨h.trans hregB, fun m => find_method_congr sizeof_gpointer s s1 m B h⟩
  · intro s2 hunload
    have h := mono_debug_domain_unload_other s s2 A B (Ne.symm hAB) hunload
    exact ⟨h.trans hregB, fun m => find_method_congr sizeof_gpointer s s2 m B h,
      fun hinit => mono_debug_domain_unload_self s s2 A hinit hunload⟩

/-- Claim C8 at `sample_state_added`, with the domains at addresses 1 and 2; the unload of
domain 1 returns `sample_state_unloaded`. -/
theorem domain_isolation_witness :
    ((1 : Nat) ≠ 2 ∧ lookup_data_table sample_state_added 2 = .ok { method_address_hash := [] } ∧
      mono_debug_domain_unload sample_state_added 1 = .ok sample_state_unloaded) ∧
    ((∀ (method : Nat) (jit : MonoDebugMethodJitInfo) (s1 : DebugState)
        (address : MonoDebugMethodAddress),
      mono_debug_add_method 8 8192 sample_state_added method jit 1 = .ok (s1, address) →
        lookup_data_table s1 2 = .ok { method_address_hash := [] } ∧
        ∀ m, find_method 8 s1 m 2 = find_method 8 sample_state_added m 2) ∧
    (∀ s2, mono_debug_domain_unload sample_state_added 1 = .ok s2 →
        lookup_data_table s2 2 = .ok { method_address_hash := [] } ∧
        (∀ m, find_method 8 s2 m 2 = find_method 8 sample_state_added m 2) ∧
        (sample_state_added.mono_debug_initialized = true →
          lookup_data_table s2 1 = .error .g_error))) :=
  ⟨⟨by decide, by decide, by decide⟩,
   domain_isolation 8 8192 sample_state_added 1 2 (by decide) { method_address_hash := [] }
     (by decide)⟩

/-- Claim C9: with debug support initialised and a dynamically generated method `m`: when
`mono_debug_add_method (m, jit, d)` returns, the following `mono_debug_remove_method (m, d)`
returns and `find_method (m, d)` then returns null; and `mono_debug_remove_method (m, d)` on a
table that holds no record for `m` returns the state it was given. -/
theorem mono_debug_remove_method_dynamic (sizeof_gpointer BUFSIZ : Nat)
    (method_is_dynamic : Nat → Bool) (s : DebugState) (method domain : Nat)
    (hdyn : method_is_dynamic method = true) (hinit : s.mono_debug_initialized = true)
    (hlock : s.initialized = true) :
    (∀ (jit : MonoDebugMethodJitInfo) (s1 : DebugState) (address : MonoDebugMethodAddress),
      mono_debug_add_method sizeof_gpointer BUFSIZ s method jit domain = .ok (s1, address) →
        ∃ s2, mono_debug_remove_method method_is_dynamic s1 method domain = .ok s2 ∧
          find_method sizeof_gpointer s2 method domain = .ok none) ∧
    (∀ table, lookup_data_table s domain = .ok table →
      g_hash_table_lookup table.method_address_hash method = none →
        mono_debug_remove_method method_is_dynamic s method domain = .ok s) := by
  constructor
  · intro jit s1 address hadd
    obtain ⟨_, table, _, hs1⟩ :=
      mono_debug_add_method_state sizeof_gpointer BUFSIZ s s1 method domain jit address hadd
    have htable1 : lookup_data_table s1 domain = .ok (MonoDebugDataTable.mk
        (g_hash_table_insert table.method_address_hash method address)) := by
      rw [hs1]
      simp only [lookup_data_table, g_hash_table_lookup_insert_self]
    have hinit1 : s1.mono_debug_initialized = true := by rw [hs1]; exact hinit
    have hlock1 : s1.initialized = true := by rw [hs1]; exact hlock
    refine ⟨_, mono_debug_remove_method_ok method_is_dynamic s1 method domain _ hdyn hinit1
      hlock1 htable1, ?_⟩
    simp only [find_method, lookup_data_table, g_hash_table_lookup_insert_self,
      g_hash_table_lookup_remove_self]
  · intro table htable habsent
    rw [mono_debug_remove_method_ok method_is_dynamic s method domain table hdyn hinit hlock
      htable, g_hash_table_remove_absent _ _ habsent,
      g_hash_table_insert_same _ _ _ ((lookup_data_table_eq_ok s domain table).1 htable)]

/-- Claim C9 at `sample_state`, where every method is dynamically generated: `sample_jit` is
inserted for method 7 in domain 1, and domain 2 holds no record for method 7. -/
theorem mono_debug_remove_method_dynamic_witness :
    ((fun _ : Nat => true) 7 = true ∧ sample_state.mono_debug_initialized = true ∧
      sample_state.initialized = true ∧
      mono_debug_add_method 8 8192 sample_state 7 sample_jit 1
        = .ok (sample_state_added, sample_address)) ∧
    ((∀ (jit : MonoDebugMethodJitInfo) (s1 : DebugState) (address : MonoDebugMethodAddress),
      mono_debug_add_method 8 8192 sample_state 7 jit 1 = .ok (s1, address) →
        ∃ s2, mono_debug_remove_method (fun _ => true) s1 7 1 = .ok s2 ∧
          find_method 8 s2 7 1 = .ok none) ∧
    (∀ table, lookup_data_table sample_state 1 = .ok table →
      g_hash_table_lookup table.method_address_hash 7 = none →
        mono_debug_remove_method (fun _ => true) sample_state 7 1 = .ok sample_state)) :=
  ⟨⟨rfl, by decide, by decide, by decide⟩,
   mono_debug_remove_method_dynamic 8 8192 (fun _ => true) sample_state 7 1 rfl (by decide)
     (by decide)⟩

/-- Claim C10 fails as stated: before `mono_debug_init`, `mono_debug_remove_method` of a method
that is not dynamically generated returns normally (with the state unchanged) instead of
failing its assertion. -/
theorem mono_debug_remove_method_uninitialized_returns :
    (fun _ : Nat => false) 7 = false ∧
    mono_debug_remove_method (fun _ => false) DebugState.start 7 1 = .ok DebugState.start ∧
    mono_debug_remove_method (fun _ => false) DebugState.start 7 1 ≠ .error .g_assert := by
  decide

/-- Claim C10 as amended: for every state, domain and method that is not dynamically
generated, `mono_debug_remove_method` fails its assertion, without returning, when debug
support is initialised, and returns without doing anything when it is not; in both cases it
removes no record. -/
theorem mono_debug_remove_method_not_dynamic (method_is_dynamic : Nat → Bool) (s : DebugState)
    (method domain : Nat) (hdyn : method_is_dynamic method = false) :
    (s.mono_debug_initialized = true →
      mono_debug_remove_method method_is_dynamic s method domain = .error .g_assert) ∧
    (s.mono_debug_initialized = false →
      mono_debug_remove_method method_is_dynamic s method domain = .ok s) ∧
    (∀ s1, mono_debug_remove_method method_is_dynamic s method domain = .ok s1 → s1 = s) := by
  refine ⟨?_, ?_, ?_⟩
  · intro hinit
    simp only [mono_debug_remove_method, hinit, hdyn, Bool.not_true, Bool.not_false,
      Bool.false_eq_true, if_false, if_true]
  · intro hinit
    simp only [mono_debug_remove_method, hinit, Bool.not_false, if_true]
  · intro s1 h
    cases hinit : s.mono_debug_initialized with
    | false =>
      simp only [mono_debug_remove_method, hinit, Bool.not_false, if_true, Except.ok.injEq] at h
      exact h.symm
    | true =>
      simp only [mono_debug_remove_method, hinit, hdyn, Bool.not_true, Bool.not_false,
        Bool.false_eq_true, if_false, if_true] at h
      cases h

/-- Claim C10 as amended, at `sample_state_added`, where no method is dynamically generated
and method 7 has a record in domain 1. -/
theorem mono_debug_remove_method_not_dynamic_witness :
    (fun _ : Nat => false) 7 = false ∧
    ((sample_state_added.mono_debug_initialized = true →
      mono_debug_remove_method (fun _ => false) sample_state_added 7 1 = .error .g_assert) ∧
    (sample_state_added.mono_debug_initialized = false →
      mono_debug_remove_method (fun _ => false) sample_state_added 7 1
        = .ok sample_state_added) ∧
    (∀ s1, mono_debug_remove_method (fun _ => false) sample_state_added 7 1 = .ok s1 →
      s1 = sample_state_added)) :=
  ⟨rfl, mono_debug_remove_method_not_dynamic (fun _ => false) sample_state_added 7 1 rfl⟩

/-! ## The handle registry: lemmas -/

theorem mono_debug_open_image_dynamic (rt : Runtime) (s : RegistryState)
    (image raw_contents : Nat) (size : Int) (hdyn : rt.mono_image_is_dynamic image = true) :
    mono_debug_open_image rt s image raw_contents size = .ok (s, none) := by
  simp only [mono_debug_open_image, hdyn, if_true]

theorem mono_debug_open_image_existing (rt : Runtime) (s : RegistryState)
    (image raw_contents : Nat) (size : Int) (handle : MonoDebugHandle)
    (hdyn : rt.mono_image_is_dynamic image = false) (hlock : s.debug.initialized = true)
    (hfound : mono_debug_get_image s image = some handle) :
    mono_debug_open_image rt s image raw_contents size = .ok (s, some handle) := by
  simp only [mono_debug_open_image, hdyn, mono_debugger_lock, hlock, hfound, if_true,
    Bool.false_eq_true, if_false]

theorem mono_debug_open_image_new (rt : Runtime) (s : RegistryState)
    (image raw_contents : Nat) (size : Int)
    (hdyn : rt.mono_image_is_dynamic image = false) (hlock : s.debug.initialized = true)
    (hnew : mono_debug_get_image s image = none) :
    mono_debug_open_image rt s image raw_contents size
      = .ok ({ s with
                mono_debug_handles :=
                  g_hash_table_insert s.mono_debug_handles image
                    { image := image,
                      symfile := rt.mono_debug_open_mono_symbols image raw_contents size }
                calls := s.calls ++ [.mono_image_addref image,
                  .mono_debug_open_mono_symbols image raw_contents size] },
             some { image := image,
                    symfile := rt.mono_debug_open_mono_symbols image raw_contents size }) := by
  simp only [mono_debug_open_image, hdyn, mono_debugger_lock, hlock, hnew, if_true,
    Bool.false_eq_true, if_false]

theorem g_hash_table_lookup_eq_none {α : Type} (hash : GHashTable α) (key : Nat) :
    g_hash_table_lookup hash key = none ↔ ∀ e ∈ hash, e.1 ≠ key := by
  induction hash with
  | nil => simp [g_hash_table_lookup]
  | cons e rest ih =>
    obtain ⟨k, v⟩ := e
    by_cases h : k = key
    · simp [g_hash_table_lookup, h]
    · simp [g_hash_table_lookup, h, ih]

theorem g_hash_table_insert_new {α : Type} (hash : GHashTable α) (key : Nat) (value : α)
    (hnew : g_hash_table_lookup hash key = none) :
    g_hash_table_insert hash key value = hash ++ [(key, value)] := by
  induction hash with
  | nil => rfl
  | cons e rest ih =>
    obtain ⟨k, v⟩ := e
    by_cases h : k = key
    · simp [g_hash_table_lookup, h] at hnew
    · simp only [g_hash_table_lookup, h, if_false] at hnew
      simp only [g_hash_table_insert, h, if_false, ih hnew, List.cons_append]

theorem g_hash_table_remove_eq_filter {α : Type} (hash : GHashTable α) (key : Nat) :
    g_hash_table_remove hash key = hash.filter fun e => decide (e.1 ≠ key) := by
  induction hash with
  | nil => rfl
  | cons e rest ih =>
    obtain ⟨k, v⟩ := e
    by_cases h : k = key
    · simp [g_hash_table_remove, h, ih]
    · simp [g_hash_table_remove, h, ih]

theorem countP_key_of_absent {α : Type} (hash : GHashTable α) (key : Nat)
    (hnew : g_hash_table_lookup hash key = none) :
    hash.countP (fun e => decide (e.1 = key)) = 0 := by
  rw [List.countP_eq_zero]
  intro e he
  have := (g_hash_table_lookup_eq_none hash key).1 hnew e he
  simpa using this

theorem image_ref_count_append (calls more : List RuntimeCall) (image : Nat) :
    image_ref_count (calls ++ more) image
      = image_ref_count calls image + image_ref_count more image := by
  simp only [image_ref_count, List.count_append, Nat.cast_add]
  omega

theorem image_ref_count_free_debug_handle (handle : MonoDebugHandle) :
    image_ref_count (free_debug_handle handle) handle.image = -1 := by
  unfold free_debug_handle image_ref_count
  cases handle.symfile <;> simp [List.count_cons]

theorem mono_debug_close_image_found (s : RegistryState) (image : Nat)
    (handle : MonoDebugHandle) (hinit : s.debug.mono_debug_initialized = true)
    (hlock : s.debug.initialized = true) (hfound : mono_debug_get_image s image = some handle) :
    mono_debug_close_image s image
      = .ok { s with
                mono_debug_handles := g_hash_table_remove s.mono_debug_handles image
                calls := s.calls ++ free_debug_handle handle } := by
  simp only [mono_debug_close_image, hinit, mono_debugger_lock, hlock, hfound, if_true,
    Bool.not_true, Bool.false_eq_true, if_false]

theorem mono_debug_close_image_absent (s : RegistryState) (image : Nat)
    (hlock : s.debug.initialized = true) (hnew : mono_debug_get_image s image = none) :
    mono_debug_close_image s image = .ok s := by
  unfold mono_debug_close_image
  split
  · rfl
  · simp only [mono_debugger_lock, hlock, hnew, if_true]

/-- Claim C11: with debug support initialised, for every module that is not dynamic and has
no handle yet, `mono_debug_open_image` called twice, with any bytes on either call, returns
the same handle both times; the second call leaves the state as the first left it, so one
handle is registered under the module, and the calls made are one `mono_image_addref` and one
`mono_debug_open_mono_symbols`, those of the first call; a following
`mono_debug_close_image` releases the module once, after which the registry has no handle
for it and the reference count of the module is what it was before the first open. -/
theorem mono_debug_open_image_idempotent (rt : Runtime) (s : RegistryState)
    (image raw1 raw2 : Nat) (size1 size2 : Int)
    (hdyn : rt.mono_image_is_dynamic image = false)
    (hinit : s.debug.mono_debug_initialized = true) (hlock : s.debug.initialized = true)
    (hnew : mono_debug_get_image s image = none) :
    ∃ (s1 : RegistryState) (handle : MonoDebugHandle),
      mono_debug_open_image rt s image raw1 size1 = .ok (s1, some handle) ∧
      mono_debug_open_image rt s1 image raw2 size2 = .ok (s1, some handle) ∧
      mono_debug_get_image s1 image = some handle ∧ handle.image = image ∧
      s1.mono_debug_handles.countP (fun e => decide (e.1 = image)) = 1 ∧
      s1.calls = s.calls ++ [.mono_image_addref image,
        .mono_debug_open_mono_symbols image raw1 size1] ∧
      image_ref_count s1.calls image = image_ref_count s.calls image + 1 ∧
      ∃ s2, mono_debug_close_image s1 image = .ok s2 ∧
        mono_debug_get_image s2 image = none ∧
        s2.mono_debug_handles.countP (fun e => decide (e.1 = image)) = 0 ∧
        s2.calls.count (.mono_image_close image)
          = s1.calls.count (.mono_image_close image) + 1 ∧
        image_ref_count s2.calls image = image_ref_count s.calls image := by
  have hopen := mono_debug_open_image_new rt s image raw1 size1 hdyn hlock hnew
  refine ⟨_, _, hopen, ?_⟩
  have hget : mono_debug_get_image
      { s with
          mono_debug_handles :=
            g_hash_table_insert s.mono_debug_handles image
              { image := image, symfile := rt.mono_debug_open_mono_symbols image raw1 size1 }
          calls := s.calls ++ [.mono_image_addref image,
            .mono_debug_open_mono_symbols image raw1 size1] } image
      = some { image := image,
               symfile := rt.mono_debug_open_mono_symbols image raw1 size1 } := by
    simp only [mono_debug_get_image, g_hash_table_lookup_insert_self]
  have hcount1 : image_ref_count [RuntimeCall.mono_image_addref image,
      RuntimeCall.mono_debug_open_mono_symbols image raw1 size1] image = 1 := by
    simp [image_ref_count, List.count_cons]
  refine ⟨mono_debug_open_image_existing rt _ image raw2 size2 _ hdyn hlock hget, hget, rfl,
    ?_, rfl, ?_, ?_⟩
  · unfold mono_debug_get_image at hnew
    simp only [g_hash_table_insert_new _ _ _ hnew, List.countP_append,
      countP_key_of_absent _ _ hnew]
    simp [List.countP_cons]
  · simp only [image_ref_count_append, hcount1]
  · refine ⟨_, mono_debug_close_image_found _ image _ hinit hlock hget, ?_, ?_, ?_, ?_⟩
    · simp only [mono_debug_get_image, g_hash_table_lookup_remove_self]
    · exact countP_key_of_absent _ _ (g_hash_table_lookup_remove_self _ _)
    · simp only [free_debug_handle, List.count_append]
      cases rt.mono_debug_open_mono_symbols image raw1 size1 <;> simp [List.count_cons]
    · have hfree := image_ref_count_free_debug_handle
        { image := image, symfile := rt.mono_debug_open_mono_symbols image raw1 size1 }
      simp only at hfree
      simp only [image_ref_count_append, hcount1, hfree]
      omega

/-- Claim C11 at `sample_registry`, for the module at address 5, opened first from the bytes
at address 64 and then without bytes. -/
theorem mono_debug_open_image_idempotent_witness :
    (sample_runtime.mono_image_is_dynamic 5 = false ∧
      sample_registry.debug.mono_debug_initialized = true ∧
      sample_registry.debug.initialized = true ∧
      mono_debug_get_image sample_registry 5 = none) ∧
    ∃ (s1 : RegistryState) (handle : MonoDebugHandle),
      mono_debug_open_image sample_runtime sample_registry 5 64 16 = .ok (s1, some handle) ∧
      mono_debug_open_image sample_runtime s1 5 0 0 = .ok (s1, some handle) ∧
      mono_debug_get_image s1 5 = some handle ∧ handle.image = 5 ∧
      s1.mono_debug_handles.countP (fun e => decide (e.1 = 5)) = 1 ∧
      s1.calls = sample_registry.calls ++ [.mono_image_addref 5,
        .mono_debug_open_mono_symbols 5 64 16] ∧
      image_ref_count s1.calls 5 = image_ref_count sample_registry.calls 5 + 1 ∧
      ∃ s2, mono_debug_close_image s1 5 = .ok s2 ∧
        mono_debug_get_image s2 5 = none ∧
        s2.mono_debug_handles.countP (fun e => decide (e.1 = 5)) = 0 ∧
        s2.calls.count (.mono_image_close 5) = s1.calls.count (.mono_image_close 5) + 1 ∧
        image_ref_count s2.calls 5 = image_ref_count sample_registry.calls 5 :=
  ⟨⟨by decide, by decide, by decide, by decide⟩,
   mono_debug_open_image_idempotent sample_runtime sample_registry 5 64 0 16 0 (by decide)
     (by decide) (by decide) (by decide)⟩

theorem register_all_eq (entries : List BundledSymfile) :
    ∀ s : RegistryState, register_all s entries
      = { s with bundled_symfiles := entries.reverse ++ s.bundled_symfiles } := by
  induction entries with
  | nil => intro s; rfl
  | cons entry rest ih =>
    intro s
    simp only [register_all, ih, mono_register_symfile_for_assembly, List.reverse_cons,
      List.append_assoc, List.singleton_append]

theorem open_symfile_from_bundle_loop_skip (rt : Runtime) (s : RegistryState) (image : Nat)
    (skipped rest : List BundledSymfile)
    (hskip : ∀ b ∈ skipped, b.aname ≠ rt.module_name image) :
    open_symfile_from_bundle_loop rt s image (skipped ++ rest)
      = open_symfile_from_bundle_loop rt s image rest := by
  induction skipped with
  | nil => rfl
  | cons b tl ih =>
    have hb := hskip b (List.mem_cons_self _ _)
    simp only [List.cons_append, open_symfile_from_bundle_loop, hb, ne_eq, not_false_eq_true,
      if_true]
    exact ih fun c hc => hskip c (List.mem_cons_of_mem _ hc)

/-- What `mono_debug_add_assembly` does for a module that is not dynamic and has no handle
yet, when the first matching entry of the bundle list, if any, gives the bytes
`raw_contents` and `size`. -/
theorem mono_debug_add_assembly_new (rt : Runtime) (s : RegistryState) (assembly : Nat)
    (raw_contents : Nat) (size : Int)
    (hdyn : rt.mono_image_is_dynamic (rt.mono_assembly_get_image assembly) = false)
    (hlock : s.debug.initialized = true)
    (hnew : mono_debug_get_image s (rt.mono_assembly_get_image assembly) = none)
    (hbundle : open_symfile_from_bundle rt s (rt.mono_assembly_get_image assembly)
        = mono_debug_open_image rt s (rt.mono_assembly_get_image assembly) raw_contents size ∨
      (open_symfile_from_bundle rt s (rt.mono_assembly_get_image assembly) = .ok (s, none) ∧
        raw_contents = 0 ∧ size = 0)) :
    mono_debug_add_assembly rt s assembly
      = .ok { s with
                mono_debug_handles :=
                  g_hash_table_insert s.mono_debug_handles (rt.mono_assembly_get_image assembly)
                    { image := rt.mono_assembly_get_image assembly,
                      symfile := rt.mono_debug_open_mono_symbols
                        (rt.mono_assembly_get_image assembly) raw_contents size }
                calls := s.calls ++ [.mono_image_addref (rt.mono_assembly_get_image assembly),
                  .mono_debug_open_mono_symbols (rt.mono_assembly_get_image assembly)
                    raw_contents size] } := by
  have hopen := mono_debug_open_image_new rt s (rt.mono_assembly_get_image assembly)
    raw_contents size hdyn hlock hnew
  rcases hbundle with h | ⟨h, hraw, hsize⟩
  · simp only [mono_debug_add_assembly, mono_debugger_lock, hlock, if_true, h, hopen]
  · subst hraw hsize
    simp only [mono_debug_add_assembly, mono_debugger_lock, hlock, if_true, h, hopen]

/-- Claim C12: after any calls of `mono_register_symfile_for_assembly` (the entries `entries`,
in the order of the calls, on an empty bundle list), for every module that is not dynamic
and has no handle yet, `mono_debug_add_assembly` registers a handle for the module whose
symbol source is opened, once, with the bytes and the size of the last registered entry
whose name is the name of the module; when no entry has that name, the handle is
registered all the same and the symbol source is opened with null bytes and size 0. -/
theorem mono_debug_add_assembly_bundle (rt : Runtime) (s0 : RegistryState)
    (entries : List BundledSymfile) (assembly : Nat)
    (hempty : s0.bundled_symfiles = [])
    (hdyn : rt.mono_image_is_dynamic (rt.mono_assembly_get_image assembly) = false)
    (hlock : s0.debug.initialized = true)
    (hnew : mono_debug_get_image s0 (rt.mono_assembly_get_image assembly) = none) :
    (∀ (earlier later : List BundledSymfile) (entry : BundledSymfile),
      entries = earlier ++ entry :: later →
      entry.aname = rt.module_name (rt.mono_assembly_get_image assembly) →
      (∀ b ∈ later, b.aname ≠ rt.module_name (rt.mono_assembly_get_image assembly)) →
      ∃ s1, mono_debug_add_assembly rt (register_all s0 entries) assembly = .ok s1 ∧
        mono_debug_get_image s1 (rt.mono_assembly_get_image assembly)
          = some { image := rt.mono_assembly_get_image assembly,
                   symfile := rt.mono_debug_open_mono_symbols
                     (rt.mono_assembly_get_image assembly) entry.raw_contents entry.size } ∧
        s1.calls = s0.calls ++ [.mono_image_addref (rt.mono_assembly_get_image assembly),
          .mono_debug_open_mono_symbols (rt.mono_assembly_get_image assembly)
            entry.raw_contents entry.size]) ∧
    ((∀ b ∈ entries, b.aname ≠ rt.module_name (rt.mono_assembly_get_image assembly)) →
      ∃ s1, mono_debug_add_assembly rt (register_all s0 entries) assembly = .ok s1 ∧
        mono_debug_get_image s1 (rt.mono_assembly_get_image assembly)
          = some { image := rt.mono_assembly_get_image assembly,
                   symfile := rt.mono_debug_open_mono_symbols
                     (rt.mono_assembly_get_image assembly) 0 0 } ∧
        s1.calls = s0.calls ++ [.mono_image_addref (rt.mono_assembly_get_image assembly),
          .mono_debug_open_mono_symbols (rt.mono_assembly_get_image assembly) 0 0]) := by
  have hreg := register_all_eq entries s0
  rw [hempty, List.append_nil] at hreg
  have hlock1 : (register_all s0 entries).debug.initialized = true := by rw [hreg]; exact hlock
  have hnew1 : mono_debug_get_image (register_all s0 entries)
      (rt.mono_assembly_get_image assembly) = none := by rw [hreg]; exact hnew
  have hlist : (register_all s0 entries).bundled_symfiles = entries.reverse := by rw [hreg]
  have hcalls : (register_all s0 entries).calls = s0.calls := by rw [hreg]
  constructor
  · intro earlier later entry hsplit hname hlater
    have hbundle : open_symfile_from_bundle rt (register_all s0 entries)
        (rt.mono_assembly_get_image assembly)
        = mono_debug_open_image rt (register_all s0 entries)
            (rt.mono_assembly_get_image assembly) entry.raw_contents entry.size := by
      unfold open_symfile_from_bundle
      rw [hlist, hsplit, List.reverse_append, List.reverse_cons, List.append_assoc,
        open_symfile_from_bundle_loop_skip rt _ _ later.reverse _
          (fun b hb => hlater b (List.mem_reverse.1 hb))]
      simp only [List.singleton_append, open_symfile_from_bundle_loop, hname, ne_eq,
        not_true_eq_false, if_false]
    refine ⟨_, mono_debug_add_assembly_new rt _ assembly entry.raw_contents entry.size hdyn
      hlock1 hnew1 (Or.inl hbundle), ?_, ?_⟩
    · simp only [mono_debug_get_image, g_hash_table_lookup_insert_self]
    · simp only [hcalls]
  · intro hnone
    have hbundle : open_symfile_from_bundle rt (register_all s0 entries)
        (rt.mono_assembly_get_image assembly) = .ok (register_all s0 entries, none) := by
      unfold open_symfile_from_bundle
      rw [hlist]
      have h := open_symfile_from_bundle_loop_skip rt (register_all s0 entries)
        (rt.mono_assembly_get_image assembly) entries.reverse []
        (fun b hb => hnone b (List.mem_reverse.1 hb))
      rw [List.append_nil] at h
      rw [h]
      rfl
    refine ⟨_, mono_debug_add_assembly_new rt _ assembly 0 0 hdyn hlock1 hnew1
      (Or.inr ⟨hbundle, rfl, rfl⟩), ?_, ?_⟩
    · simp only [mono_debug_get_image, g_hash_table_lookup_insert_self]
    · simp only [hcalls]

/-- Claim C12 at `sample_registry` after the registration of `sample_entries`, for the assembly
at address 5, whose image (address 105) has the name of the first and of the last entry: the
symbol source is opened with the bytes of the last entry. -/
theorem mono_debug_add_assembly_bundle_witness :
    (sample_registry.bundled_symfiles = [] ∧
      sample_runtime.mono_image_is_dynamic (sample_runtime.mono_assembly_get_image 5) = false ∧
      sample_registry.debug.initialized = true ∧
      mono_debug_get_image sample_registry (sample_runtime.mono_assembly_get_image 5) = none) ∧
    (mono_debug_add_assembly sample_runtime (register_all sample_registry sample_entries) 5).map
        (fun s1 => (s1.mono_debug_handles, s1.calls))
      = .ok ([(105, { image := 105, symfile := some 81 })],
          [.mono_image_addref 105, .mono_debug_open_mono_symbols 105 80 24]) ∧
    ((∀ (earlier later : List BundledSymfile) (entry : BundledSymfile),
      sample_entries = earlier ++ entry :: later →
      entry.aname = sample_runtime.module_name (sample_runtime.mono_assembly_get_image 5) →
      (∀ b ∈ later,
        b.aname ≠ sample_runtime.module_name (sample_runtime.mono_assembly_get_image 5)) →
      ∃ s1, mono_debug_add_assembly sample_runtime
            (register_all sample_registry sample_entries) 5 = .ok s1 ∧
        mono_debug_get_image s1 (sample_runtime.mono_assembly_get_image 5)
          = some { image := sample_runtime.mono_assembly_get_image 5,
                   symfile := sample_runtime.mono_debug_open_mono_symbols
                     (sample_runtime.mono_assembly_get_image 5) entry.raw_contents
                     entry.size } ∧
        s1.calls = sample_registry.calls ++
          [.mono_image_addref (sample_runtime.mono_assembly_get_image 5),
           .mono_debug_open_mono_symbols (sample_runtime.mono_assembly_get_image 5)
             entry.raw_contents entry.size]) ∧
    ((∀ b ∈ sample_entries,
        b.aname ≠ sample_runtime.module_name (sample_runtime.mono_assembly_get_image 5)) →
      ∃ s1, mono_debug_add_assembly sample_runtime
            (register_all sample_registry sample_entries) 5 = .ok s1 ∧
        mono_debug_get_image s1 (sample_runtime.mono_assembly_get_image 5)
          = some { image := sample_runtime.mono_assembly_get_image 5,
                   symfile := sample_runtime.mono_debug_open_mono_symbols
                     (sample_runtime.mono_assembly_get_image 5) 0 0 } ∧
        s1.calls = sample_registry.calls ++
          [.mono_image_addref (sample_runtime.mono_assembly_get_image 5),
           .mono_debug_open_mono_symbols (sample_runtime.mono_assembly_get_image 5) 0 0])) :=
  ⟨⟨by decide, by decide, by decide, by decide⟩, by decide,
   mono_debug_add_assembly_bundle sample_runtime sample_registry sample_entries 5 (by decide)
     (by decide) (by decide) (by decide)⟩

/-! ## The query entry points: lemmas -/

/-- With the debug format `none`, the entry points that test the format return null
whatever the state and the arguments. -/
theorem format_none_guarded_entry_points (rt : Runtime) (sizeof_gpointer : Nat)
    (s : RegistryState) (method address domain : Nat)
    (hnone : s.debug.mono_debug_format = .MONO_DEBUG_FORMAT_NONE) :
    mono_debug_find_method sizeof_gpointer s.debug method domain = .ok none ∧
    mono_debug_lookup_source_location rt sizeof_gpointer s method address domain = .ok none ∧
    mono_debug_lookup_locals rt s method = .ok none := by
  simp only [mono_debug_find_method, mono_debug_lookup_source_location,
    mono_debug_lookup_locals, hnone, if_true, and_self]

/-! ## The claims, continued -/

/-- Claim C13 fails on the code: with the debug format `none`,
`mono_debug_il_offset_from_address` does not test the format as `mono_debug_find_method`
does.  In the state reached by `mono_debug_init (MONO_DEBUG_FORMAT_NONE)`, two
`mono_debug_domain_create` and `mono_debug_add_method` of `sample_jit`, it reads the table
and returns the IL offset 12 for the native offset 25, where `mono_debug_find_method`
returns null; before `mono_debug_init` it fails the assertion of `mono_debugger_lock`. -/
theorem mono_debug_il_offset_from_address_format_none :
    (mono_debug_init DebugState.start .MONO_DEBUG_FORMAT_NONE >>= fun s =>
      mono_debug_domain_create s 1 >>= fun s => mono_debug_domain_create s 2 >>= fun s =>
      mono_debug_add_method 8 8192 s 7 sample_jit 1)
      = .ok (sample_state_none_added, sample_address) ∧
    sample_state_none_added.mono_debug_format = .MONO_DEBUG_FORMAT_NONE ∧
    mono_debug_find_method 8 sample_state_none_added 7 1 = .ok none ∧
    mono_debug_il_offset_from_address 8 sample_state_none_added 7 1 25 = .ok 12 ∧
    DebugState.start.mono_debug_format = .MONO_DEBUG_FORMAT_NONE ∧
    mono_debug_il_offset_from_address 8 DebugState.start 7 1 25 = .error .g_assert := by
  decide

/-- Claim C14: for every domain that has no data table, `find_method` and
`il_offset_from_address` end in the `g_error` of `lookup_data_table`, and so do
`mono_debug_add_method` and, for a dynamic method with debug support initialised,
`mono_debug_remove_method`, once they hold the lock (`mono_debugger_lock` has been
initialised); in no state do these two return a result for such a domain; and for every
domain that has a table `lookup_data_table` returns that table. -/
theorem lookup_data_table_unregistered (sizeof_gpointer BUFSIZ : Nat)
    (method_is_dynamic : Nat → Bool) (s : DebugState) (method domain native_offset : Nat)
    (jit : MonoDebugMethodJitInfo)
    (hno : g_hash_table_lookup s.data_table_hash domain = none) :
    lookup_data_table s domain = .error .g_error ∧
    find_method sizeof_gpointer s method domain = .error .g_error ∧
    il_offset_from_address sizeof_gpointer s method domain native_offset = .error .g_error ∧
    (s.initialized = true →
      mono_debug_add_method sizeof_gpointer BUFSIZ s method jit domain = .error .g_error) ∧
    (s.initialized = true → s.mono_debug_initialized = true →
      method_is_dynamic method = true →
      mono_debug_remove_method method_is_dynamic s method domain = .error .g_error) ∧
    (∃ e, mono_debug_add_method sizeof_gpointer BUFSIZ s method jit domain = .error e) ∧
    (s.mono_debug_initialized = true → method_is_dynamic method = true →
      ∃ e, mono_debug_remove_method method_is_dynamic s method domain = .error e) ∧
    (∀ (domain1 : Nat) (table : MonoDebugDataTable),
      g_hash_table_lookup s.data_table_hash domain1 = some table →
        lookup_data_table s domain1 = .ok table) := by
  have hlookup : lookup_data_table s domain = .error .g_error := by
    simp only [lookup_data_table, hno]
  refine ⟨hlookup, ?_, ?_, ?_, ?_, ?_, ?_, ?_⟩
  · simp only [find_method, hlookup]
  · simp only [il_offset_from_address, find_method, hlookup]
  · intro hlock
    simp only [mono_debug_add_method, mono_debugger_lock, hlock, if_true, hlookup]
  · intro hlock hinit hdyn
    simp only [mono_debug_remove_method, mono_debugger_lock, hlock, hinit, hdyn, if_true,
      hlookup, Bool.not_true, Bool.false_eq_true, if_false]
  · cases hlock : s.initialized with
    | true =>
      exact ⟨.g_error, by
        simp only [mono_debug_add_method, mono_debugger_lock, hlock, if_true, hlookup]⟩
    | false =>
      exact ⟨.g_assert, by
        simp only [mono_debug_add_method, mono_debugger_lock, hlock, Bool.false_eq_true,
          if_false]⟩
  · intro hinit hdyn
    cases hlock : s.initialized with
    | true =>
      exact ⟨.g_error, by
        simp only [mono_debug_remove_method, mono_debugger_lock, hlock, hinit, hdyn, if_true,
          hlookup, Bool.not_true, Bool.false_eq_true, if_false]⟩
    | false =>
      exact ⟨.g_assert, by
        simp only [mono_debug_remove_method, mono_debugger_lock, hlock, hinit, hdyn,
          Bool.not_true, Bool.false_eq_true, if_false]⟩
  · intro domain1 table h
    simp only [lookup_data_table, h]

/-- Claim C14 at `sample_state_unloaded`, in which the domain at address 1 has been unloaded
and the domain at address 2 has a table. -/
theorem lookup_data_table_unregistered_witness :
    g_hash_table_lookup sample_state_unloaded.data_table_hash 1 = none ∧
    (lookup_data_table sample_state_unloaded 1 = .error .g_error ∧
    find_method 8 sample_state_unloaded 7 1 = .error .g_error ∧
    il_offset_from_address 8 sample_state_unloaded 7 1 25 = .error .g_error ∧
    (sample_state_unloaded.initialized = true →
      mono_debug_add_method 8 8192 sample_state_unloaded 7 sample_jit 1 = .error .g_error) ∧
    (sample_state_unloaded.initialized = true →
      sample_state_unloaded.mono_debug_initialized = true →
      (fun _ : Nat => true) 7 = true →
      mono_debug_remove_method (fun _ => true) sample_state_unloaded 7 1 = .error .g_error) ∧
    (∃ e, mono_debug_add_method 8 8192 sample_state_unloaded 7 sample_jit 1 = .error e) ∧
    (sample_state_unloaded.mono_debug_initialized = true → (fun _ : Nat => true) 7 = true →
      ∃ e, mono_debug_remove_method (fun _ => true) sample_state_unloaded 7 1 = .error e) ∧
    (∀ (domain1 : Nat) (table : MonoDebugDataTable),
      g_hash_table_lookup sample_state_unloaded.data_table_hash domain1 = some table →
        lookup_data_table sample_state_unloaded domain1 = .ok table)) :=
  ⟨by decide,
   lookup_data_table_unregistered 8 8192 (fun _ => true) sample_state_unloaded 7 1 25 sample_jit
     (by decide)⟩

/-- Claim C15 fails on the code: `max_size` counts one descriptor besides the parameters and
the locals, and `mono_debug_add_method` writes up to three (`this` and the two
generic-sharing helpers).  For the well-formed `sample_jit_helpers`, with 8-byte pointers,
61 bytes are written, `max_size` is 59, and the insert fails its assertion
`size < max_size`. -/
theorem mono_debug_add_method_max_size_exceeded :
    sample_jit_helpers.WellFormed 8 ∧
    (mono_debug_add_method_write 8 sample_jit_helpers).map List.length = some 61 ∧
    max_size 8 sample_jit_helpers = 59 ∧
    mono_debug_add_method 8 8192 sample_state 7 sample_jit_helpers 1 = .error .g_assert := by
  decide

/-! ## Sequences of registry operations: lemmas -/

/-- What a returning `mono_debug_open_image` leaves: the flags, the data tables and the
bundle list as they were, the handles of the other modules as they were, and a handle for
the module exactly when it had one or is not dynamic. -/
theorem mono_debug_open_image_effect (rt : Runtime) (s s1 : RegistryState)
    (image raw_contents : Nat) (size : Int) (result : Option MonoDebugHandle)
    (hopen : mono_debug_open_image rt s image raw_contents size = .ok (s1, result)) :
    s1.debug = s.debug ∧ s1.bundled_symfiles = s.bundled_symfiles ∧
    (∀ other, other ≠ image → mono_debug_get_image s1 other = mono_debug_get_image s other) ∧
    (rt.mono_image_is_dynamic image = true → s1 = s ∧ result = none) ∧
    (rt.mono_image_is_dynamic image = false →
      result = mono_debug_get_image s1 image ∧ (mono_debug_get_image s1 image).isSome = true) ∧
    (s.Invariant rt → s1.Invariant rt) := by
  cases hdyn : rt.mono_image_is_dynamic image with
  | true =>
    rw [mono_debug_open_image_dynamic rt s image raw_contents size hdyn] at hopen
    simp only [Except.ok.injEq, Prod.mk.injEq] at hopen
    obtain ⟨h1, h2⟩ := hopen
    subst h1 h2
    simp
  | false =>
    have hlock : s.debug.initialized = true := by
      by_contra hc
      simp [mono_debug_open_image, hdyn, mono_debugger_lock, hc] at hopen
    cases hget : mono_debug_get_image s image with
    | some handle =>
      rw [mono_debug_open_image_existing rt s image raw_contents size handle hdyn hlock hget]
        at hopen
      simp only [Except.ok.injEq, Prod.mk.injEq] at hopen
      obtain ⟨h1, h2⟩ := hopen
      subst h1 h2
      simp [hget]
    | none =>
      rw [mono_debug_open_image_new rt s image raw_contents size hdyn hlock hget] at hopen
      simp only [Except.ok.injEq, Prod.mk.injEq] at hopen
      obtain ⟨h1, h2⟩ := hopen
      subst h1 h2
      refine ⟨rfl, rfl, ?_, ?_, ?_, ?_⟩
      · intro other hne
        simp only [mono_debug_get_image, g_hash_table_lookup_insert_ne _ _ _ _ hne]
      · intro h
        cases h
      · intro _
        simp only [mono_debug_get_image, g_hash_table_lookup_insert_self, Option.isSome_some,
          and_self]
      · intro hinv
        unfold mono_debug_get_image at hget
        obtain ⟨hkey, hnodup⟩ := hinv
        constructor
        · intro e he
          simp only [g_hash_table_insert_new _ _ _ hget, List.mem_append,
            List.mem_singleton] at he
          rcases he with he | he
          · exact hkey e he
          · subst he
            exact ⟨rfl, hdyn⟩
        · simp only [g_hash_table_insert_new _ _ _ hget, List.map_append, List.map_cons,
            List.map_nil]
          rw [List.nodup_append]
          refine ⟨hnodup, List.nodup_singleton _, ?_⟩
          intro k hk hk2
          simp only [List.mem_singleton] at hk2
          subst hk2
          obtain ⟨e, he, hek⟩ := List.mem_map.1 hk
          exact (g_hash_table_lookup_eq_none _ _).1 hget e he hek

theorem open_symfile_from_bundle_loop_effect (rt : Runtime) (s s1 : RegistryState)
    (image : Nat) (result : Option MonoDebugHandle) (bundle : List BundledSymfile)
    (hloop : open_symfile_from_bundle_loop rt s image bundle = .ok (s1, result)) :
    (s1 = s ∧ result = none) ∨
    ∃ raw_contents size, mono_debug_open_image rt s image raw_contents size
      = .ok (s1, result) := by
  induction bundle with
  | nil =>
    simp only [open_symfile_from_bundle_loop, Except.ok.injEq, Prod.mk.injEq] at hloop
    exact Or.inl ⟨hloop.1.symm, hloop.2.symm⟩
  | cons b next ih =>
    by_cases hname : b.aname ≠ rt.module_name image
    · rw [open_symfile_from_bundle_loop, if_pos hname] at hloop
      exact ih hloop
    · rw [open_symfile_from_bundle_loop, if_neg hname] at hloop
      exact Or.inr ⟨_, _, hloop⟩

/-- What a returning `mono_debug_add_assembly` leaves, as for `mono_debug_open_image`. -/
theorem mono_debug_add_assembly_effect (rt : Runtime) (s s1 : RegistryState) (assembly : Nat)
    (hadd : mono_debug_add_assembly rt s assembly = .ok s1) :
    s1.debug = s.debug ∧ s1.bundled_symfiles = s.bundled_symfiles ∧
    (∀ other, other ≠ rt.mono_assembly_get_image assembly →
      mono_debug_get_image s1 other = mono_debug_get_image s other) ∧
    (rt.mono_image_is_dynamic (rt.mono_assembly_get_image assembly) = true → s1 = s) ∧
    (rt.mono_image_is_dynamic (rt.mono_assembly_get_image assembly) = false →
      (mono_debug_get_image s1 (rt.mono_assembly_get_image assembly)).isSome = true) ∧
    (s.Invariant rt → s1.Invariant rt) := by
  unfold mono_debug_add_assembly at hadd
  cases hlock : mono_debugger_lock s.debug with
  | error e => simp [hlock] at hadd
  | ok u =>
    simp only [hlock] at hadd
    cases hbundle : open_symfile_from_bundle rt s (rt.mono_assembly_get_image assembly) with
    | error e => simp [hbundle] at hadd
    | ok r =>
      obtain ⟨s2, result⟩ := r
      have hfirst : s2.debug = s.debug ∧ s2.bundled_symfiles = s.bundled_symfiles ∧
          (∀ other, other ≠ rt.mono_assembly_get_image assembly →
            mono_debug_get_image s2 other = mono_debug_get_image s other) ∧
          (rt.mono_image_is_dynamic (rt.mono_assembly_get_image assembly) = true → s2 = s) ∧
          (rt.mono_image_is_dynamic (rt.mono_assembly_get_image assembly) = false →
            result.isSome = true →
            (mono_debug_get_image s2 (rt.mono_assembly_get_image assembly)).isSome = true) ∧
          (s.Invariant rt → s2.Invariant rt) := by
        rcases open_symfile_from_bundle_loop_effect rt s s2 _ result _ hbundle with
          ⟨h1, h2⟩ | ⟨raw_contents, size, hopen⟩
        · subst h1 h2
          simp
        · obtain ⟨e1, e2, e3, e4, e5, e6⟩ :=
            mono_debug_open_image_effect rt s s2 _ raw_contents size result hopen
          exact ⟨e1, e2, e3, fun h => (e4 h).1, fun h _ => (e5 h).2, e6⟩
      obtain ⟨f1, f2, f3, f4, f5, f6⟩ := hfirst
      cases result with
      | some handle =>
        simp only [hbundle, Except.ok.injEq] at hadd
        subst hadd
        exact ⟨f1, f2, f3, f4, fun h => f5 h rfl, f6⟩
      | none =>
        simp only [hbundle] at hadd
        cases hopen : mono_debug_open_image rt s2 (rt.mono_assembly_get_image assembly) 0 0 with
        | error e => simp [hopen] at hadd
        | ok r2 =>
          obtain ⟨s3, result3⟩ := r2
          simp only [hopen, Except.ok.injEq] at hadd
          subst hadd
          obtain ⟨e1, e2, e3, e4, e5, e6⟩ :=
            mono_debug_open_image_effect rt s2 s3 _ 0 0 result3 hopen
          refine ⟨e1.trans f1, e2.trans f2, fun other hne => (e3 other hne).trans (f3 other hne),
            fun h => ?_, fun h => (e5 h).2, fun h => e6 (f6 h)⟩
          rw [(e4 h).1, f4 h]

/-- What a returning `mono_debug_close_image` leaves. -/
theorem mono_debug_close_image_effect (rt : Runtime) (s s1 : RegistryState) (image : Nat)
    (hclose : mono_debug_close_image s image = .ok s1) :
    s1.debug = s.debug ∧ s1.bundled_symfiles = s.bundled_symfiles ∧
    (∀ other, other ≠ image → mono_debug_get_image s1 other = mono_debug_get_image s other) ∧
    (s.debug.mono_debug_initialized = true → mono_debug_get_image s1 image = none) ∧
    (s.Invariant rt → s1.Invariant rt) := by
  unfold mono_debug_close_image at hclose
  cases hinit : s.debug.mono_debug_initialized with
  | false =>
    simp only [hinit, Bool.not_false, if_true, Except.ok.injEq] at hclose
    subst hclose
    simp
  | true =>
    simp only [hinit, Bool.not_true, Bool.false_eq_true, if_false] at hclose
    cases hlock : mono_debugger_lock s.debug with
    | error e => simp [hlock] at hclose
    | ok u =>
      simp only [hlock] at hclose
      cases hget : mono_debug_get_image s image with
      | none =>
        simp only [hget, Except.ok.injEq] at hclose
        subst hclose
        simp [hget]
      | some handle =>
        simp only [hget, Except.ok.injEq] at hclose
        subst hclose
        refine ⟨rfl, rfl, ?_, ?_, ?_⟩
        · intro other hne
          simp only [mono_debug_get_image, g_hash_table_lookup_remove_ne _ _ _ hne]
        · intro _
          simp only [mono_debug_get_image, g_hash_table_lookup_remove_self]
        · intro hinv
          obtain ⟨hkey, hnodup⟩ := hinv
          constructor
          · intro e he
            simp only [g_hash_table_remove_eq_filter] at he
            exact hkey e (List.mem_of_mem_filter he)
          · simp only [g_hash_table_remove_eq_filter]
            exact hnodup.sublist ((List.filter_sublist _).map _)

theorem isSome_of_effect (rt : Runtime) (s s1 : RegistryState) (opened image : Nat)
    (hother : ∀ other, other ≠ opened →
      mono_debug_get_image s1 other = mono_debug_get_image s other)
    (hdyn : rt.mono_image_is_dynamic opened = true → s1 = s)
    (hnd : rt.mono_image_is_dynamic opened = false →
      (mono_debug_get_image s1 opened).isSome = true) :
    (mono_debug_get_image s1 image).isSome = true ↔
      (opened = image ∧ rt.mono_image_is_dynamic image = false) ∨
      (mono_debug_get_image s image).isSome = true := by
  by_cases h : opened = image
  · subst h
    cases hd : rt.mono_image_is_dynamic opened with
    | true =>
      rw [hdyn hd]
      simp
    | false =>
      simp [hnd hd]
  · rw [hother image (Ne.symm h)]
    simp [h]

/-- The effect of one registry operation, with debug support initialised: the flags and the
data tables stay, the invariant stays, and a module has a handle afterwards exactly when
the operation is an open or a load of it and it is not dynamic, or it had a handle and the
operation is not its close. -/
theorem RegistryOp.run_effect (rt : Runtime) (s s1 : RegistryState) (op : RegistryOp)
    (hinit : s.debug.mono_debug_initialized = true)
    (hrun : op.run rt s = .ok s1) :
    s1.debug = s.debug ∧ (s.Invariant rt → s1.Invariant rt) ∧
    ∀ image, (mono_debug_get_image s1 image).isSome = true ↔
      (op.opens rt image = true ∧ rt.mono_image_is_dynamic image = false) ∨
      ((mono_debug_get_image s image).isSome = true ∧ op ≠ .close_image image) := by
  cases op with
  | open_image opened raw_contents size =>
    simp only [RegistryOp.run] at hrun
    cases hopen : mono_debug_open_image rt s opened raw_contents size with
    | error e => simp [hopen] at hrun
    | ok r =>
      obtain ⟨s2, result⟩ := r
      simp only [hopen, Except.ok.injEq] at hrun
      subst hrun
      obtain ⟨e1, _, e3, e4, e5, e6⟩ :=
        mono_debug_open_image_effect rt s s2 opened raw_contents size result hopen
      refine ⟨e1, e6, fun image => ?_⟩
      rw [isSome_of_effect rt s s2 opened image e3 (fun h => (e4 h).1) (fun h => (e5 h).2)]
      simp [RegistryOp.opens]
  | open_image_from_memory opened raw_contents size =>
    simp only [RegistryOp.run, mono_debug_open_image_from_memory, hinit, Bool.not_true,
      Bool.false_eq_true, if_false] at hrun
    cases hopen : mono_debug_open_image rt s opened raw_contents size with
    | error e => simp [hopen] at hrun
    | ok r =>
      obtain ⟨s2, result⟩ := r
      simp only [hopen, Except.ok.injEq] at hrun
      subst hrun
      obtain ⟨e1, _, e3, e4, e5, e6⟩ :=
        mono_debug_open_image_effect rt s s2 opened raw_contents size result hopen
      refine ⟨e1, e6, fun image => ?_⟩
      rw [isSome_of_effect rt s s2 opened image e3 (fun h => (e4 h).1) (fun h => (e5 h).2)]
      simp [RegistryOp.opens]
  | add_assembly assembly =>
    simp only [RegistryOp.run] at hrun
    obtain ⟨e1, _, e3, e4, e5, e6⟩ := mono_debug_add_assembly_effect rt s s1 assembly hrun
    refine ⟨e1, e6, fun image => ?_⟩
    rw [isSome_of_effect rt s s1 (rt.mono_assembly_get_image assembly) image e3 e4 e5]
    simp [RegistryOp.opens]
  | close_image closed =>
    simp only [RegistryOp.run] at hrun
    obtain ⟨e1, _, e3, e4, e5⟩ := mono_debug_close_image_effect rt s s1 closed hrun
    refine ⟨e1, e5, fun image => ?_⟩
    by_cases h : closed = image
    · subst h
      simp [e4 hinit, RegistryOp.opens]
    · rw [e3 image (Ne.symm h)]
      simp [RegistryOp.opens, h]
  | register_symfile assembly_name raw_contents size =>
    simp only [RegistryOp.run, Except.ok.injEq] at hrun
    subst hrun
    refine ⟨rfl, fun h => h, fun image => ?_⟩
    simp [RegistryOp.opens, mono_debug_get_image, mono_register_symfile_for_assembly]

/-- The effect of a sequence of registry operations from a state with debug support
initialised: the flags and the data tables stay, the invariant stays, and a module has a
handle at the end exactly when it had one and was not closed, or some operation opened it
(while not dynamic) and none closed it afterwards. -/
theorem run_ops_effect (rt : Runtime) (ops : List RegistryOp) :
    ∀ (s s1 : RegistryState), s.debug.mono_debug_initialized = true →
      run_ops rt s ops = .ok s1 →
      s1.debug = s.debug ∧ (s.Invariant rt → s1.Invariant rt) ∧
      ∀ image, (mono_debug_get_image s1 image).isSome = true ↔
        ((mono_debug_get_image s image).isSome = true ∧
          ∀ o ∈ ops, o ≠ RegistryOp.close_image image) ∨
        (∃ (before after : List RegistryOp) (op : RegistryOp), ops = before ++ op :: after ∧
          op.opens rt image = true ∧ rt.mono_image_is_dynamic image = false ∧
          ∀ o ∈ after, o ≠ RegistryOp.close_image image) := by
  induction ops with
  | nil =>
    intro s s1 _ hrun
    simp only [run_ops, Except.ok.injEq] at hrun
    subst hrun
    refine ⟨rfl, fun h => h, fun image => ?_⟩
    simp
  | cons op ops ih =>
    intro s s1 hinit hrun
    simp only [run_ops] at hrun
    cases hop : op.run rt s with
    | error e => simp [hop] at hrun
    | ok s2 =>
      simp only [hop] at hrun
      obtain ⟨d1, i1, h1⟩ := RegistryOp.run_effect rt s s2 op hinit hop
      obtain ⟨d2, i2, h2⟩ := ih s2 s1 (by rw [d1]; exact hinit) hrun
      refine ⟨d2.trans d1, fun h => i2 (i1 h), fun image => ?_⟩
      rw [h2 image, h1 image]
      constructor
      · rintro (⟨hs2 | hs, hnc⟩ | ⟨before, after, o, hsplit, hopens, hdyn, hafter⟩)
        · exact Or.inr ⟨[], ops, op, rfl, hs2.1, hs2.2, hnc⟩
        · refine Or.inl ⟨hs.1, ?_⟩
          intro o ho
          rcases List.mem_cons.1 ho with h | h
          · rw [h]; exact hs.2
          · exact hnc o h
        · exact Or.inr ⟨op :: before, after, o, by rw [hsplit]; rfl, hopens, hdyn, hafter⟩
      · rintro (⟨hs, hnc⟩ | ⟨before, after, o, hsplit, hopens, hdyn, hafter⟩)
        · exact Or.inl ⟨Or.inr ⟨hs, hnc op (List.mem_cons_self _ _)⟩,
            fun o ho => hnc o (List.mem_cons_of_mem _ ho)⟩
        · cases before with
          | nil =>
            simp only [List.nil_append, List.cons.injEq] at hsplit
            obtain ⟨h1, h2⟩ := hsplit
            subst h1 h2
            exact Or.inl ⟨Or.inl ⟨hopens, hdyn⟩, hafter⟩
          | cons b before =>
            simp only [List.cons_append, List.cons.injEq] at hsplit
            exact Or.inr ⟨before, after, o, hsplit.2, hopens, hdyn, hafter⟩

theorem g_hash_table_foreach_lookup_image_func (hash : GHashTable MonoDebugHandle) :
    ∀ data : LookupImageData,
      (g_hash_table_foreach hash lookup_image_func data).found
        = (data.found || hash.any fun e => decide (e.2.image = data.image)) ∧
      (g_hash_table_foreach hash lookup_image_func data).image = data.image := by
  induction hash with
  | nil => intro data; simp [g_hash_table_foreach]
  | cons e rest ih =>
    intro data
    have hstep : g_hash_table_foreach (e :: rest) lookup_image_func data
        = g_hash_table_foreach rest lookup_image_func (lookup_image_func e.1 e.2 data) := rfl
    rw [hstep, (ih _).1, (ih _).2]
    unfold lookup_image_func
    cases hf : data.found with
    | true => simp [hf]
    | false =>
      by_cases himg : e.2.image = data.image
      · simp [hf, himg]
      · simp [hf, himg]

/-- Under the invariant and with the lock initialised, `mono_debug_image_has_debug_info`
returns true exactly for the modules that have a handle. -/
theorem mono_debug_image_has_debug_info_eq (rt : Runtime) (s : RegistryState) (image : Nat)
    (hlock : s.debug.initialized = true) (hinv : s.Invariant rt) :
    mono_debug_image_has_debug_info s image = .ok (mono_debug_get_image s image).isSome := by
  simp only [mono_debug_image_has_debug_info, mono_debugger_lock, hlock, if_true,
    (g_hash_table_foreach_lookup_image_func s.mono_debug_handles _).1, Bool.false_or]
  congr 1
  rw [Bool.eq_iff_iff]
  simp only [List.any_eq_true, decide_eq_true_eq, Option.isSome_iff_exists]
  constructor
  · rintro ⟨e, he, himg⟩
    cases hget : mono_debug_get_image s image with
    | some handle => exact ⟨handle, rfl⟩
    | none =>
      exfalso
      have := (g_hash_table_lookup_eq_none _ _).1 hget e he
      exact this ((hinv.1 e he).1.symm.trans himg)
  · rintro ⟨handle, hget⟩
    by_contra hc
    have hnone : mono_debug_get_image s image = none := by
      rw [mono_debug_get_image, g_hash_table_lookup_eq_none]
      intro e he hkey
      exact hc ⟨e, he, (hinv.1 e he).1.trans hkey⟩
    rw [hnone] at hget
    cases hget

theorem initial_invariant (rt : Runtime) (s : RegistryState) (h : s.Initial) :
    s.Invariant rt := by
  obtain ⟨_, _, hempty⟩ := h
  simp [RegistryState.Invariant, hempty]

theorem g_hash_table_lookup_mem {α : Type} (hash : GHashTable α) (key : Nat) (value : α)
    (hfound : g_hash_table_lookup hash key = some value) : (key, value) ∈ hash := by
  induction hash with
  | nil => simp [g_hash_table_lookup] at hfound
  | cons e rest ih =>
    obtain ⟨k, v⟩ := e
    by_cases h : k = key
    · simp only [g_hash_table_lookup, h, if_true, Option.some.injEq] at hfound
      subst h hfound
      exact List.mem_cons_self _ _
    · simp only [g_hash_table_lookup, h, if_false] at hfound
      exact List.mem_cons_of_mem _ (ih hfound)

theorem open_symfile_from_bundle_loop_dynamic (rt : Runtime) (s : RegistryState) (image : Nat)
    (bundle : List BundledSymfile) (hdyn : rt.mono_image_is_dynamic image = true) :
    open_symfile_from_bundle_loop rt s image bundle = .ok (s, none) := by
  induction bundle with
  | nil => rfl
  | cons b next ih =>
    by_cases hname : b.aname ≠ rt.module_name image
    · rw [open_symfile_from_bundle_loop, if_pos hname, ih]
    · rw [open_symfile_from_bundle_loop, if_neg hname,
        mono_debug_open_image_dynamic rt s image _ _ hdyn]

theorem reachable_invariant (rt : Runtime) (s : RegistryState) (h : Reachable rt s) :
    s.Invariant rt ∧ s.debug.mono_debug_initialized = true ∧ s.debug.initialized = true := by
  obtain ⟨s0, ops, hinitial, hrun⟩ := h
  obtain ⟨hd, hinv, _⟩ := run_ops_effect rt ops s0 s hinitial.1 hrun
  exact ⟨hinv (initial_invariant rt s0 hinitial), by rw [hd]; exact hinitial.1,
    by rw [hd]; exact hinitial.2.1⟩

/-- Claim C16: for every module that is dynamic, `mono_debug_open_image` returns null and
leaves the state (the registry and the calls made, so no retain) as it was, in every state
and with any bytes; `mono_debug_add_assembly` of an assembly with that module returns with
the state as it was once the lock is initialised, whatever the bundle list holds, and in
no state returns with another state; and in every reachable state the module has no handle
and no registered handle belongs to a dynamic module. -/
theorem dynamic_module_never_registered (rt : Runtime) (image : Nat)
    (hdyn : rt.mono_image_is_dynamic image = true) :
    (∀ (s : RegistryState) (raw_contents : Nat) (size : Int),
      mono_debug_open_image rt s image raw_contents size = .ok (s, none)) ∧
    (∀ (s : RegistryState) (assembly : Nat), rt.mono_assembly_get_image assembly = image →
      s.debug.initialized = true → mono_debug_add_assembly rt s assembly = .ok s) ∧
    (∀ (s s1 : RegistryState) (assembly : Nat), rt.mono_assembly_get_image assembly = image →
      mono_debug_add_assembly rt s assembly = .ok s1 → s1 = s) ∧
    (∀ s : RegistryState, Reachable rt s →
      mono_debug_get_image s image = none ∧
      ∀ e ∈ s.mono_debug_handles, rt.mono_image_is_dynamic e.2.image = false) := by
  refine ⟨fun s raw_contents size => mono_debug_open_image_dynamic rt s image raw_contents size
    hdyn, ?_, ?_, ?_⟩
  · intro s assembly himage hlock
    subst himage
    simp only [mono_debug_add_assembly, mono_debugger_lock, hlock, if_true,
      open_symfile_from_bundle, open_symfile_from_bundle_loop_dynamic rt s _ _ hdyn,
      mono_debug_open_image_dynamic rt s _ _ _ hdyn]
  · intro s s1 assembly himage hadd
    subst himage
    exact (mono_debug_add_assembly_effect rt s s1 assembly hadd).2.2.2.1 hdyn
  · intro s hreach
    obtain ⟨hinv, _, _⟩ := reachable_invariant rt s hreach
    constructor
    · cases hget : mono_debug_get_image s image with
      | none => rfl
      | some handle =>
        have hmem := g_hash_table_lookup_mem _ _ _ hget
        have := (hinv.1 _ hmem).2
        simp only at this
        rw [hdyn] at this
        cases this
    · intro e he
      rw [(hinv.1 e he).1]
      exact (hinv.1 e he).2

/-- Claim C16 at `sample_runtime`, for which the image at address 99 is dynamic. -/
theorem dynamic_module_never_registered_witness :
    sample_runtime.mono_image_is_dynamic 99 = true ∧
    ((∀ (s : RegistryState) (raw_contents : Nat) (size : Int),
      mono_debug_open_image sample_runtime s 99 raw_contents size = .ok (s, none)) ∧
    (∀ (s : RegistryState) (assembly : Nat),
      sample_runtime.mono_assembly_get_image assembly = 99 →
      s.debug.initialized = true → mono_debug_add_assembly sample_runtime s assembly = .ok s) ∧
    (∀ (s s1 : RegistryState) (assembly : Nat),
      sample_runtime.mono_assembly_get_image assembly = 99 →
      mono_debug_add_assembly sample_runtime s assembly = .ok s1 → s1 = s) ∧
    (∀ s : RegistryState, Reachable sample_runtime s →
      mono_debug_get_image s 99 = none ∧
      ∀ e ∈ s.mono_debug_handles, sample_runtime.mono_image_is_dynamic e.2.image = false)) :=
  ⟨by decide, dynamic_module_never_registered sample_runtime 99 (by decide)⟩

/-- Claim C20: in every state reached from initialisation by module open, module load, module
close and bundle registration calls, each handle is registered under the address of its
own module and no two handles have the same module; `mono_debug_image_has_debug_info`
returns true exactly for the modules that have a handle in the registry, and a module has
one exactly when some call opened or loaded it, while not dynamic, and no later call closed
it. -/
theorem registry_handles_keyed (rt : Runtime) (s0 s : RegistryState) (ops : List RegistryOp)
    (hinitial : s0.Initial) (hrun : run_ops rt s0 ops = .ok s) :
    (∀ e ∈ s.mono_debug_handles, e.2.image = e.1) ∧
    (s.mono_debug_handles.map fun e => e.2.image).Nodup ∧
    (∀ image, mono_debug_image_has_debug_info s image
      = .ok (mono_debug_get_image s image).isSome) ∧
    (∀ image, (mono_debug_get_image s image).isSome = true ↔
      ∃ (before after : List RegistryOp) (op : RegistryOp), ops = before ++ op :: after ∧
        op.opens rt image = true ∧ rt.mono_image_is_dynamic image = false ∧
        ∀ o ∈ after, o ≠ RegistryOp.close_image image) := by
  obtain ⟨hd, hinv, hhist⟩ := run_ops_effect rt ops s0 s hinitial.1 hrun
  have hinv1 := hinv (initial_invariant rt s0 hinitial)
  have hlock : s.debug.initialized = true := by rw [hd]; exact hinitial.2.1
  refine ⟨fun e he => (hinv1.1 e he).1, ?_,
    fun image => mono_debug_image_has_debug_info_eq rt s image hlock hinv1, fun image => ?_⟩
  · have hmap : (s.mono_debug_handles.map fun e => e.2.image)
        = s.mono_debug_handles.map Prod.fst :=
      List.map_congr_left fun e he => (hinv1.1 e he).1
    rw [hmap]
    exact hinv1.2
  · rw [hhist image]
    have hnone : mono_debug_get_image s0 image = none := by
      simp only [mono_debug_get_image, hinitial.2.2, g_hash_table_lookup]
    simp [hnone]

/-- Claim C20 at the operations `sample_ops` from `sample_registry`, which end in
`sample_registry_after`. -/
theorem registry_handles_keyed_witness :
    (sample_registry.Initial ∧
      run_ops sample_runtime sample_registry sample_ops = .ok sample_registry_after) ∧
    ((∀ e ∈ sample_registry_after.mono_debug_handles, e.2.image = e.1) ∧
    (sample_registry_after.mono_debug_handles.map fun e => e.2.image).Nodup ∧
    (∀ image, mono_debug_image_has_debug_info sample_registry_after image
      = .ok (mono_debug_get_image sample_registry_after image).isSome) ∧
    (∀ image, (mono_debug_get_image sample_registry_after image).isSome = true ↔
      ∃ (before after : List RegistryOp) (op : RegistryOp),
        sample_ops = before ++ op :: after ∧
        op.opens sample_runtime image = true ∧
        sample_runtime.mono_image_is_dynamic image = false ∧
        ∀ o ∈ after, o ≠ RegistryOp.close_image image)) :=
  ⟨⟨⟨by decide, by decide, by decide⟩, by decide⟩,
   registry_handles_keyed sample_runtime sample_registry sample_registry_after sample_ops
     ⟨by decide, by decide, by decide⟩ (by decide)⟩

/-! ## The line table and the unsigned encoding: lemmas -/

/-- For a stored record reached through the table of a domain, `il_offset_from_address` is
the reverse scan of the whole line table of the JIT info the record was made from. -/
theorem il_offset_from_address_stored (sizeof_gpointer BUFSIZ : Nat) (hB : BUFSIZ < 2 ^ 32)
    (s0 s1 : DebugState) (method0 domain0 : Nat) (jit : MonoDebugMethodJitInfo)
    (address : MonoDebugMethodAddress) (hjit : jit.WellFormed sizeof_gpointer)
    (hadd : mono_debug_add_method sizeof_gpointer BUFSIZ s0 method0 jit domain0
      = .ok (s1, address))
    (s : DebugState) (method domain : Nat) (table : MonoDebugDataTable)
    (htable : lookup_data_table s domain = .ok table)
    (hrec : g_hash_table_lookup table.method_address_hash method = some address) (q : Nat) :
    il_offset_from_address sizeof_gpointer s method domain q
      = il_offset_from_address_loop jit.line_numbers q jit.line_numbers.length := by
  have hread := (find_method_add_method sizeof_gpointer BUFSIZ s0 s1 method0 domain0 jit
    address hB hjit hadd).1
  have hfind := find_method_of_lookup sizeof_gpointer s method domain table address jit
    htable hrec hread
  have hlines := mono_debug_add_method_lines sizeof_gpointer BUFSIZ s0 s1 method0 domain0 jit
    address hB hadd
  have hnum : jit.num_line_numbers = jit.line_numbers.length := hjit.2.2.2.2.1
  exact il_offset_from_address_of_find sizeof_gpointer s method domain q jit hfind hnum
    (by omega)

/-- The bytes of `write_leb128_loop`, when the bound exceeds `value`: their number `n` is the
least positive one with `value < 128 ^ n`; byte `i` has the low seven bits
`value / 128 ^ i % 128`, is below 256 and has bit 7 set when it is not the last and clear
when it is. -/
theorem write_leb128_loop_bytes (fuel : Nat) :
    ∀ value : Nat, value < fuel →
      (1 ≤ (write_leb128_loop fuel value).length ∧
        value < 128 ^ (write_leb128_loop fuel value).length ∧
        ((write_leb128_loop fuel value).length = 1 ∨
          128 ^ ((write_leb128_loop fuel value).length - 1) ≤ value)) ∧
      ∀ (i b : Nat), (write_leb128_loop fuel value)[i]? = some b →
        b &&& 0x7f = value / 128 ^ i % 128 ∧ b < 256 ∧
        (i + 1 < (write_leb128_loop fuel value).length → b &&& 0x80 = 0x80) ∧
        (i + 1 = (write_leb128_loop fuel value).length → b &&& 0x80 = 0) := by
  induction fuel with
  | zero => intro value h; omega
  | succ fuel ih =>
    intro value hfuel
    have hand : value &&& 0x7f = value % 128 := Nat.and_pow_two_sub_one_eq_mod value 7
    have hshr : value >>> 7 = value / 128 := Nat.shiftRight_eq_div_pow value 7
    have hb := byte_facts (value % 128) (Nat.mod_lt _ (by decide))
    by_cases h0 : value / 128 = 0
    · have hloop : write_leb128_loop (fuel + 1) value = [value % 128] := by
        simp only [write_leb128_loop, hand, hshr, h0, if_true]
      rw [hloop]
      refine ⟨⟨by simp, by simp; omega, Or.inl rfl⟩, ?_⟩
      intro i b hib
      cases i with
      | zero =>
        simp only [List.getElem?_cons_zero, Option.some.injEq] at hib
        subst hib
        refine ⟨?_, by omega, ?_, fun _ => hb.2.1⟩
        · simp only [pow_zero, Nat.div_one, Nat.mod_mod, hb.1]
        · intro h
          simp at h
      | succ i => simp at hib
    · have hloop : write_leb128_loop (fuel + 1) value
          = (value % 128 ||| 0x80) :: write_leb128_loop fuel (value / 128) := by
        simp only [write_leb128_loop, hand, hshr, h0, if_false]
      obtain ⟨⟨hl1, hl2, hl3⟩, hbytes⟩ := ih (value / 128) (by omega)
      rw [hloop]
      simp only [List.length_cons, Nat.add_sub_cancel]
      refine ⟨⟨by omega, ?_, Or.inr ?_⟩, ?_⟩
      · rw [pow_succ]
        omega
      · rcases hl3 with h1 | h1
        · rw [h1]
          simp only [pow_one]
          omega
        · have hpow : 128 ^ (write_leb128_loop fuel (value / 128)).length
              = 128 ^ ((write_leb128_loop fuel (value / 128)).length - 1) * 128 := by
            rw [← pow_succ]
            congr 1
            omega
          rw [hpow]
          omega
      · intro i b hib
        cases i with
        | zero =>
          simp only [List.getElem?_cons_zero, Option.some.injEq] at hib
          subst hib
          have h128 : value % 128 < 128 := Nat.mod_lt _ (by decide)
          have hor : ∀ c < 128, c ||| 128 < 256 ∧ (c ||| 128) &&& 128 = 128 := by decide
          refine ⟨?_, (hor _ h128).1, fun _ => (hor _ h128).2, fun h => by omega⟩
          simp only [pow_zero, Nat.div_one, hb.2.2.1]
        | succ i =>
          simp only [List.getElem?_cons_succ] at hib
          obtain ⟨hlow, hlt, hcont, hlast⟩ := hbytes i b hib
          refine ⟨?_, hlt, fun h => hcont (by omega), fun h => hlast (by omega)⟩
          rw [hlow, Nat.div_div_eq_div_mul, pow_succ, Nat.mul_comm]

/-- Claim C17: for a stored record whose line entries have non-decreasing native offsets in
table order, and a query `q` that some entry does not exceed, the entry whose IL offset
`il_offset_from_address` returns is the tightest one: its native offset is at most `q` and
is the greatest of the native offsets that are at most `q`, and every entry after it in
the table has a native offset greater than `q`. -/
theorem il_offset_from_address_tightest (sizeof_gpointer BUFSIZ : Nat) (hB : BUFSIZ < 2 ^ 32)
    (s0 s1 : DebugState) (method0 domain0 : Nat) (jit : MonoDebugMethodJitInfo)
    (address : MonoDebugMethodAddress) (hjit : jit.WellFormed sizeof_gpointer)
    (hadd : mono_debug_add_method sizeof_gpointer BUFSIZ s0 method0 jit domain0
      = .ok (s1, address))
    (s : DebugState) (method domain : Nat) (table : MonoDebugDataTable)
    (htable : lookup_data_table s domain = .ok table)
    (hrec : g_hash_table_lookup table.method_address_hash method = some address) (q : Nat)
    (hsorted : jit.line_numbers.Pairwise fun a b => a.native_offset ≤ b.native_offset)
    (hsome : ∃ lne ∈ jit.line_numbers, lne.native_offset ≤ q) :
    ∃ (i : Nat) (lne : MonoDebugLineNumberEntry), jit.line_numbers[i]? = some lne ∧
      il_offset_from_address sizeof_gpointer s method domain q = .ok (toInt32 lne.il_offset) ∧
      lne.native_offset ≤ q ∧
      (∀ lne1 ∈ jit.line_numbers, lne1.native_offset ≤ q →
        lne1.native_offset ≤ lne.native_offset) ∧
      (∀ (j : Nat) (lne1 : MonoDebugLineNumberEntry), i < j →
        jit.line_numbers[j]? = some lne1 → q < lne1.native_offset) := by
  have hil := il_offset_from_address_stored sizeof_gpointer BUFSIZ hB s0 s1 method0 domain0 jit
    address hjit hadd s method domain table htable hrec q
  rcases il_offset_from_address_loop_spec jit.line_numbers q jit.line_numbers.length
      (Nat.le_refl _) with ⟨i, lne, hi, hgi, hqi, hafter, hres⟩ | ⟨hnone, _⟩
  · have hafter1 : ∀ (j : Nat) (lne1 : MonoDebugLineNumberEntry), i < j →
        jit.line_numbers[j]? = some lne1 → q < lne1.native_offset := by
      intro j lne1 hij hgj
      have hj : j < jit.line_numbers.length := by
        by_contra hc
        rw [List.getElem?_eq_none (by omega)] at hgj
        cases hgj
      exact hafter j lne1 hij hj hgj
    refine ⟨i, lne, hgi, by rw [hil, hres], hqi, ?_, hafter1⟩
    intro lne1 hmem hq1
    obtain ⟨j, hj, hgj⟩ := List.getElem_of_mem hmem
    have hgj1 : jit.line_numbers[j]? = some lne1 := by rw [List.getElem?_eq_getElem hj, hgj]
    have hgi1 : jit.line_numbers[i] = lne := by
      have := List.getElem?_eq_getElem hi
      rw [hgi] at this
      exact (Option.some.inj this).symm
    rcases Nat.lt_trichotomy j i with hlt | heq | hgt
    · have := List.pairwise_iff_getElem.1 hsorted j i hj hi hlt
      rw [hgj, hgi1] at this
      exact this
    · subst heq
      rw [hgj] at hgi1
      rw [hgi1]
    · have := hafter1 j lne1 hgt hgj1
      omega
  · exfalso
    obtain ⟨lne, hmem, hq⟩ := hsome
    obtain ⟨j, hj, hgj⟩ := List.getElem_of_mem hmem
    have := hnone j lne hj (by rw [List.getElem?_eq_getElem hj, hgj])
    omega

/-- Claim C17 at the record of `sample_jit` stored for method 7 in domain 1, with the query
25. -/
theorem il_offset_from_address_tightest_witness :
    (8192 < 2 ^ 32 ∧ sample_jit.WellFormed 8 ∧
      mono_debug_add_method 8 8192 sample_state 7 sample_jit 1
        = .ok (sample_state_added, sample_address) ∧
      lookup_data_table sample_state_added 1
        = .ok { method_address_hash := [(7, sample_address)] } ∧
      g_hash_table_lookup [(7, sample_address)] 7 = some sample_address ∧
      (sample_jit.line_numbers.Pairwise fun a b => a.native_offset ≤ b.native_offset) ∧
      ∃ lne ∈ sample_jit.line_numbers, lne.native_offset ≤ 25) ∧
    ∃ (i : Nat) (lne : MonoDebugLineNumberEntry), sample_jit.line_numbers[i]? = some lne ∧
      il_offset_from_address 8 sample_state_added 7 1 25 = .ok (toInt32 lne.il_offset) ∧
      lne.native_offset ≤ 25 ∧
      (∀ lne1 ∈ sample_jit.line_numbers, lne1.native_offset ≤ 25 →
        lne1.native_offset ≤ lne.native_offset) ∧
      (∀ (j : Nat) (lne1 : MonoDebugLineNumberEntry), i < j →
        sample_jit.line_numbers[j]? = some lne1 → 25 < lne1.native_offset) :=
  ⟨⟨by decide, by decide, by decide, by decide, by decide, by decide, by decide⟩,
   il_offset_from_address_tightest 8 8192 (by decide) sample_state sample_state_added 7 1
     sample_jit sample_address (by decide) (by decide) sample_state_added 7 1
     { method_address_hash := [(7, sample_address)] } (by decide) (by decide) 25 (by decide)
     (by decide)⟩

/-- Claim C18: the encoder and the decoder keep the line entries as they are given, in any
order (every well-formed JIT info is written and decodes to itself), and for the record of
`sample_jit_unsorted`, whose native offsets 20, 10 are not non-decreasing, and the query 25,
`il_offset_from_address` returns the IL offset 2 of the entry at native offset 10, while the
entry with the greatest native offset at most 25 is the one at native offset 20, with IL
offset 1. -/
theorem il_offset_from_address_unsorted_wrong :
    (∀ (sizeof_gpointer : Nat) (jit : MonoDebugMethodJitInfo),
      jit.WellFormed sizeof_gpointer →
      ∃ buffer, mono_debug_add_method_write sizeof_gpointer jit = some buffer ∧
        mono_debug_read_method sizeof_gpointer
          { code_start := jit.code_start, code_size := jit.code_size, data := buffer }
            = some jit) ∧
    sample_jit_unsorted.WellFormed 8 ∧
    ¬ (sample_jit_unsorted.line_numbers.Pairwise fun a b => a.native_offset ≤ b.native_offset) ∧
    (mono_debug_add_method 8 8192 sample_state 7 sample_jit_unsorted 1).map Prod.fst
      = .ok sample_state_unsorted ∧
    find_method 8 sample_state_unsorted 7 1 = .ok (some sample_jit_unsorted) ∧
    il_offset_from_address 8 sample_state_unsorted 7 1 25 = .ok 2 ∧
    sample_jit_unsorted.line_numbers[1]? = some ⟨2, 10⟩ ∧
    sample_jit_unsorted.line_numbers[0]? = some ⟨1, 20⟩ ∧ 20 ≤ 25 ∧
    (∀ lne ∈ sample_jit_unsorted.line_numbers, lne.native_offset ≤ 25 →
      lne.native_offset ≤ 20) ∧
    il_offset_from_address 8 sample_state_unsorted 7 1 25 ≠ .ok (toInt32 1) ∧
    il_offset_from_address 8 sample_state_unsorted 7 1 25 ≠ .ok (-1) :=
  ⟨fun sizeof_gpointer jit hjit => mono_debug_read_method_write sizeof_gpointer jit hjit,
   by decide, by decide, by decide, by decide, by decide, by decide, by decide, by decide,
   by decide, by decide, by decide⟩

/-- Claim C19: for every 32-bit unsigned `x`, `write_leb128 (x)` writes
`max (1, ceil (bitlength (x) / 7))` bytes, between 1 and 5; the low seven bits of byte `i`
are the bits `7 i` to `7 i + 6` of `x`; the continuation bit 0x80 is set on every byte but
the last and clear on the last. -/
theorem write_leb128_standard (x : Nat) (hx : x < 2 ^ 32) :
    (write_leb128 x).length = max 1 ((Nat.size x + 6) / 7) ∧
    1 ≤ (write_leb128 x).length ∧ (write_leb128 x).length ≤ 5 ∧
    ∀ (i b : Nat), (write_leb128 x)[i]? = some b →
      b &&& 0x7f = (x >>> (7 * i)) &&& 0x7f ∧ b < 256 ∧
      (i + 1 < (write_leb128 x).length → b &&& 0x80 = 0x80) ∧
      (i + 1 = (write_leb128 x).length → b &&& 0x80 = 0) := by
  obtain ⟨⟨hl1, hl2, hl3⟩, hbytes⟩ := write_leb128_loop_bytes (x + 1) x (Nat.lt_succ_self x)
  unfold write_leb128
  generalize (write_leb128_loop (x + 1) x).length = n at hl1 hl2 hl3 hbytes
  have hpow : ∀ k : Nat, 128 ^ k = 2 ^ (7 * k) := by
    intro k
    rw [pow_mul]
    norm_num
  have hsize1 : Nat.size x ≤ 7 * n := by
    rw [Nat.size_le, ← hpow]
    exact hl2
  have hsize2 : n = 1 ∨ 7 * (n - 1) < Nat.size x := by
    rcases hl3 with h | h
    · exact Or.inl h
    · right
      rw [Nat.lt_size, ← hpow]
      exact h
  have hsize3 : Nat.size x ≤ 32 := Nat.size_le.2 hx
  refine ⟨?_, hl1, by omega, ?_⟩
  · rcases hsize2 with h | h
    · subst h
      have : (Nat.size x + 6) / 7 ≤ 1 := by omega
      omega
    · have : (Nat.size x + 6) / 7 = n := by omega
      omega
  · intro i b hib
    obtain ⟨hlow, hlt, hcont, hlast⟩ := hbytes i b hib
    refine ⟨?_, hlt, hcont, hlast⟩
    rw [hlow, Nat.shiftRight_eq_div_pow, ← hpow]
    exact (Nat.and_pow_two_sub_one_eq_mod _ 7).symm

/-- Claim C19 at 300, which takes two bytes. -/
theorem write_leb128_standard_witness :
    300 < 2 ^ 32 ∧
    ((write_leb128 300).length = max 1 ((Nat.size 300 + 6) / 7) ∧
    1 ≤ (write_leb128 300).length ∧ (write_leb128 300).length ≤ 5 ∧
    ∀ (i b : Nat), (write_leb128 300)[i]? = some b →
      b &&& 0x7f = (300 >>> (7 * i)) &&& 0x7f ∧ b < 256 ∧
      (i + 1 < (write_leb128 300).length → b &&& 0x80 = 0x80) ∧
      (i + 1 = (write_leb128 300).length → b &&& 0x80 = 0)) :=
  ⟨by decide, write_leb128_standard 300 (by decide)⟩

/-! ## The signed result and the size bound: lemmas -/

theorem toInt32_eq_neg_one (x : Nat) (hx : x < 2 ^ 32) : toInt32 x = -1 ↔ x = 4294967295 := by
  unfold toInt32
  split <;> omega

theorem toInt32_neg (x : Nat) (hx : x < 2 ^ 32) : toInt32 x < 0 ↔ 2 ^ 31 ≤ x := by
  unfold toInt32
  split <;> omega

/-- The line table has a selected entry, or no entry whose native offset is at most the
query. -/
theorem selected_or_none (line_numbers : List MonoDebugLineNumberEntry) (q : Nat) :
    (∃ i lne, Selected line_numbers q i lne) ∨ ∀ lne ∈ line_numbers, q < lne.native_offset := by
  rcases il_offset_from_address_loop_spec line_numbers q line_numbers.length
      (Nat.le_refl _) with ⟨i, lne, _, hgi, hqi, hafter, _⟩ | ⟨hnone, _⟩
  · left
    refine ⟨i, lne, hgi, hqi, ?_⟩
    intro j lne1 hij hgj
    have hj : j < line_numbers.length := by
      by_contra hc
      rw [List.getElem?_eq_none (by omega)] at hgj
      cases hgj
    exact hafter j lne1 hij hj hgj
  · right
    intro lne hmem
    obtain ⟨j, hj, hgj⟩ := List.getElem_of_mem hmem
    exact hnone j lne hj (by rw [List.getElem?_eq_getElem hj, hgj])

/-- The selected entry is unique. -/
theorem selected_unique (line_numbers : List MonoDebugLineNumberEntry) (q i1 i2 : Nat)
    (lne1 lne2 : MonoDebugLineNumberEntry) (h1 : Selected line_numbers q i1 lne1)
    (h2 : Selected line_numbers q i2 lne2) : i1 = i2 ∧ lne1 = lne2 := by
  obtain ⟨g1, q1, a1⟩ := h1
  obtain ⟨g2, q2, a2⟩ := h2
  have hi : i1 = i2 := by
    rcases Nat.lt_trichotomy i1 i2 with h | h | h
    · have := a1 i2 lne2 h g2
      omega
    · exact h
    · have := a2 i1 lne1 h g1
      omega
  subst hi
  rw [g1] at g2
  exact ⟨rfl, Option.some.inj g2⟩

/-- The scan of the whole table returns the IL offset of the selected entry, as a
`gint32`. -/
theorem il_offset_from_address_loop_selected (line_numbers : List MonoDebugLineNumberEntry)
    (q i : Nat) (lne : MonoDebugLineNumberEntry) (hsel : Selected line_numbers q i lne) :
    il_offset_from_address_loop line_numbers q line_numbers.length
      = .ok (toInt32 lne.il_offset) := by
  rcases il_offset_from_address_loop_spec line_numbers q line_numbers.length
      (Nat.le_refl _) with ⟨i0, lne0, hi0, hgi, hqi, hafter, hres⟩ | ⟨hnone, _⟩
  · have hsel0 : Selected line_numbers q i0 lne0 := by
      refine ⟨hgi, hqi, ?_⟩
      intro j lne1 hij hgj
      have hj : j < line_numbers.length := by
        by_contra hc
        rw [List.getElem?_eq_none (by omega)] at hgj
        cases hgj
      exact hafter j lne1 hij hj hgj
    rw [hres, (selected_unique line_numbers q i0 i lne0 lne hsel0 hsel).2]
  · exfalso
    obtain ⟨g, hq, _⟩ := hsel
    have hi : i < line_numbers.length := by
      by_contra hc
      rw [List.getElem?_eq_none (by omega)] at g
      cases g
    have := hnone i lne hi g
    omega

/-- The scan of a table without entry of native offset at most the query returns -1. -/
theorem il_offset_from_address_loop_none (line_numbers : List MonoDebugLineNumberEntry)
    (q : Nat) (hnone : ∀ lne ∈ line_numbers, q < lne.native_offset) :
    il_offset_from_address_loop line_numbers q line_numbers.length = .ok (-1) := by
  rcases il_offset_from_address_loop_spec line_numbers q line_numbers.length
      (Nat.le_refl _) with ⟨i0, lne0, hi0, hgi, hqi, _, _⟩ | ⟨_, hres⟩
  · exfalso
    have hmem : lne0 ∈ line_numbers := List.getElem?_mem hgi
    have := hnone lne0 hmem
    omega
  · exact hres

/-- With the lock initialised, `mono_debug_lookup_source_location` returns null when
`il_offset_from_address` returns a negative offset. -/
theorem mono_debug_lookup_source_location_negative (rt : Runtime) (sizeof_gpointer : Nat)
    (s : RegistryState) (method address domain : Nat) (offset : Int)
    (hlock : s.debug.initialized = true)
    (hil : il_offset_from_address sizeof_gpointer s.debug method domain address = .ok offset)
    (hneg : offset < 0) :
    mono_debug_lookup_source_location rt sizeof_gpointer s method address domain = .ok none := by
  unfold mono_debug_lookup_source_location
  split
  · rfl
  · simp only [mono_debugger_lock, hlock, if_true]
    split
    · rfl
    · simp only [hil, hneg, if_true]

/-- Claim C21: for a stored record, `il_offset_from_address` returns the 32-bit IL offset of
the selected line entry (the one of greatest index whose native offset is at most the query)
read as a signed 32-bit integer, and -1 when no entry qualifies; so the result is -1 exactly
when no entry qualifies or the selected entry has IL offset 0xFFFFFFFF; when all IL offsets
are below 2^31 the result is negative exactly when no entry has a native offset at most the
query; and when the selected entry has an IL offset of 2^31 or more,
`mono_debug_lookup_source_location` never returns a location, and returns null once the
lock is initialised. -/
theorem il_offset_from_address_signed (sizeof_gpointer BUFSIZ : Nat) (hB : BUFSIZ < 2 ^ 32)
    (s0 s1 : DebugState) (method0 domain0 : Nat) (jit : MonoDebugMethodJitInfo)
    (address : MonoDebugMethodAddress) (hjit : jit.WellFormed sizeof_gpointer)
    (hadd : mono_debug_add_method sizeof_gpointer BUFSIZ s0 method0 jit domain0
      = .ok (s1, address))
    (rt : Runtime) (rs : RegistryState) (method domain : Nat) (table : MonoDebugDataTable)
    (htable : lookup_data_table rs.debug domain = .ok table)
    (hrec : g_hash_table_lookup table.method_address_hash method = some address) (q : Nat) :
    (∀ (i : Nat) (lne : MonoDebugLineNumberEntry), Selected jit.line_numbers q i lne →
      il_offset_from_address sizeof_gpointer rs.debug method domain q
        = .ok (toInt32 lne.il_offset)) ∧
    ((∀ lne ∈ jit.line_numbers, q < lne.native_offset) →
      il_offset_from_address sizeof_gpointer rs.debug method domain q = .ok (-1)) ∧
    (il_offset_from_address sizeof_gpointer rs.debug method domain q = .ok (-1) ↔
      ((∀ lne ∈ jit.line_numbers, q < lne.native_offset) ∨
        ∃ (i : Nat) (lne : MonoDebugLineNumberEntry), Selected jit.line_numbers q i lne ∧
          lne.il_offset = 0xFFFFFFFF)) ∧
    ((∀ lne ∈ jit.line_numbers, lne.il_offset < 2 ^ 31) →
      ((∃ r, il_offset_from_address sizeof_gpointer rs.debug method domain q = .ok r ∧ r < 0) ↔
        ∀ lne ∈ jit.line_numbers, q < lne.native_offset)) ∧
    (∀ (i : Nat) (lne : MonoDebugLineNumberEntry), Selected jit.line_numbers q i lne →
      2 ^ 31 ≤ lne.il_offset →
      (rs.debug.initialized = true →
        mono_debug_lookup_source_location rt sizeof_gpointer rs method q domain = .ok none) ∧
      ∀ loc, mono_debug_lookup_source_location rt sizeof_gpointer rs method q domain
        ≠ .ok (some loc)) := by
  have hil := il_offset_from_address_stored sizeof_gpointer BUFSIZ hB s0 s1 method0 domain0 jit
    address hjit hadd rs.debug method domain table htable hrec q
  have hwf : ∀ lne ∈ jit.line_numbers, lne.il_offset < 2 ^ 32 := fun lne hmem =>
    (hjit.2.2.2.2.2.1 lne hmem).1
  have hsel : ∀ (i : Nat) (lne : MonoDebugLineNumberEntry), Selected jit.line_numbers q i lne →
      il_offset_from_address sizeof_gpointer rs.debug method domain q
        = .ok (toInt32 lne.il_offset) := by
    intro i lne h
    rw [hil, il_offset_from_address_loop_selected jit.line_numbers q i lne h]
  have hnone : (∀ lne ∈ jit.line_numbers, q < lne.native_offset) →
      il_offset_from_address sizeof_gpointer rs.debug method domain q = .ok (-1) := by
    intro h
    rw [hil, il_offset_from_address_loop_none jit.line_numbers q h]
  refine ⟨hsel, hnone, ?_, ?_, ?_⟩
  · constructor
    · intro hres
      rcases selected_or_none jit.line_numbers q with ⟨i, lne, h⟩ | h
      · right
        refine ⟨i, lne, h, ?_⟩
        rw [hsel i lne h] at hres
        have hv : toInt32 lne.il_offset = -1 := by
          injection hres
        exact (toInt32_eq_neg_one lne.il_offset (hwf lne (List.getElem?_mem h.1))).1 hv
      · exact Or.inl h
    · rintro (h | ⟨i, lne, h, hv⟩)
      · exact hnone h
      · rw [hsel i lne h, hv]
        rfl
  · intro hsmall
    constructor
    · rintro ⟨r, hres, hneg⟩
      rcases selected_or_none jit.line_numbers q with ⟨i, lne, h⟩ | h
      · exfalso
        rw [hsel i lne h] at hres
        have hv : toInt32 lne.il_offset = r := by
          injection hres
        have hmem : lne ∈ jit.line_numbers := List.getElem?_mem h.1
        have h1 := (toInt32_neg lne.il_offset (hwf lne hmem)).1 (by rw [hv]; exact hneg)
        have h2 := hsmall lne hmem
        omega
      · exact h
    · intro h
      exact ⟨-1, hnone h, by decide⟩
  · intro i lne h hbig
    have hneg : toInt32 lne.il_offset < 0 :=
      (toInt32_neg lne.il_offset (hwf lne (List.getElem?_mem h.1))).2 hbig
    constructor
    · intro hlock
      exact mono_debug_lookup_source_location_negative rt sizeof_gpointer rs method q domain
        (toInt32 lne.il_offset) hlock (hsel i lne h) hneg
    · intro loc
      unfold mono_debug_lookup_source_location
      split
      · intro hc
        cases hc
      · split
        · intro hc
          cases hc
        · split
          · intro hc
            cases hc
          · simp only [hsel i lne h, hneg, if_true]
            intro hc
            cases hc

/-- Claim C21 at the record of `sample_jit_vars` stored for method 7 in domain 1, whose
second line entry has native offset 2^31 and IL offset 0xFFFFFFFF, with the query
2^31 + 5: the entry is selected, the result is -1 and the source location is null. -/
theorem il_offset_from_address_signed_witness :
    (8192 < 2 ^ 32 ∧ sample_jit_vars.WellFormed 8 ∧
      mono_debug_add_method 8 8192 sample_state 7 sample_jit_vars 1
        = .ok (sample_state_vars, sample_address_vars) ∧
      lookup_data_table sample_registry_vars.debug 1
        = .ok { method_address_hash := [(7, sample_address_vars)] } ∧
      g_hash_table_lookup [(7, sample_address_vars)] 7 = some sample_address_vars) ∧
    ((∀ (i : Nat) (lne : MonoDebugLineNumberEntry),
      Selected sample_jit_vars.line_numbers 2147483653 i lne →
      il_offset_from_address 8 sample_registry_vars.debug 7 1 2147483653
        = .ok (toInt32 lne.il_offset)) ∧
    ((∀ lne ∈ sample_jit_vars.line_numbers, 2147483653 < lne.native_offset) →
      il_offset_from_address 8 sample_registry_vars.debug 7 1 2147483653 = .ok (-1)) ∧
    (il_offset_from_address 8 sample_registry_vars.debug 7 1 2147483653 = .ok (-1) ↔
      ((∀ lne ∈ sample_jit_vars.line_numbers, 2147483653 < lne.native_offset) ∨
        ∃ (i : Nat) (lne : MonoDebugLineNumberEntry),
          Selected sample_jit_vars.line_numbers 2147483653 i lne ∧
          lne.il_offset = 0xFFFFFFFF)) ∧
    ((∀ lne ∈ sample_jit_vars.line_numbers, lne.il_offset < 2 ^ 31) →
      ((∃ r, il_offset_from_address 8 sample_registry_vars.debug 7 1 2147483653 = .ok r ∧
          r < 0) ↔
        ∀ lne ∈ sample_jit_vars.line_numbers, 2147483653 < lne.native_offset)) ∧
    (∀ (i : Nat) (lne : MonoDebugLineNumberEntry),
      Selected sample_jit_vars.line_numbers 2147483653 i lne →
      2 ^ 31 ≤ lne.il_offset →
      (sample_registry_vars.debug.initialized = true →
        mono_debug_lookup_source_location sample_runtime 8 sample_registry_vars 7 2147483653 1
          = .ok none) ∧
      ∀ loc, mono_debug_lookup_source_location sample_runtime 8 sample_registry_vars 7
        2147483653 1 ≠ .ok (some loc))) ∧
    Selected sample_jit_vars.line_numbers 2147483653 1 ⟨4294967295, 2147483648⟩ ∧
    il_offset_from_address 8 sample_registry_vars.debug 7 1 2147483653 = .ok (-1) ∧
    loaded_minfo sample_runtime (mono_debug_lookup_method_internal sample_runtime
      sample_registry_vars 7) ≠ none ∧
    mono_debug_lookup_source_location sample_runtime 8 sample_registry_vars 7 2147483653 1
      = .ok none ∧
    mono_debug_lookup_source_location sample_runtime 8 sample_registry_vars 7 5 1
      = .ok (some { source_file := [], row := 1, il_offset := 0 }) :=
  ⟨⟨by decide, by decide, by decide, by decide, by decide⟩,
   il_offset_from_address_signed 8 8192 (by decide) sample_state sample_state_vars 7 1
     sample_jit_vars sample_address_vars (by decide) (by decide) sample_runtime
     sample_registry_vars 7 1 { method_address_hash := [(7, sample_address_vars)] }
     (by decide) (by decide) 2147483653,
   ⟨by decide, by decide, by
      intro j lne1 hij hgj
      match j, hij, hgj with
      | j + 2, _, hgj => simp [sample_jit_vars] at hgj⟩,
   by decide, by decide, by decide, by decide⟩

/-- A value below `128 ^ k` takes at most `k` bytes in `write_leb128`. -/
theorem write_leb128_length_le (x k : Nat) (hk : 1 ≤ k) (hx : x < 128 ^ k) :
    (write_leb128 x).length ≤ k := by
  obtain ⟨⟨_, _, hl3⟩, _⟩ := write_leb128_loop_bytes (x + 1) x (Nat.lt_succ_self x)
  unfold write_leb128
  generalize (write_leb128_loop (x + 1) x).length = n at hl3
  by_contra hc
  rcases hl3 with h | h
  · omega
  · have hle : 128 ^ k ≤ 128 ^ (n - 1) := Nat.pow_le_pow_right (by decide) (by omega)
    omega

/-- A value of at most `7 * (k + 1)` bits in two's complement takes at most `k + 1` bytes
in `write_sleb128`. -/
theorem write_sleb128_loop_length (k : Nat) :
    ∀ (fuel : Nat) (value : Int), value.natAbs < fuel → -(64 * 128 ^ k) ≤ value →
      value < 64 * 128 ^ k → (write_sleb128_loop fuel value).length ≤ k + 1 := by
  induction k with
  | zero =>
    intro fuel value hf hlo hhi
    cases fuel with
    | zero => omega
    | succ fuel =>
      obtain ⟨b, hbdef⟩ : ∃ b : Nat, (value % 128).toNat = b := ⟨_, rfl⟩
      have hb := byte_facts b (by omega)
      simp only [write_sleb128_loop, hbdef]
      have hstop : (value / 128 = 0 ∧ b &&& 0x40 = 0) ∨ (value / 128 = -1 ∧ b &&& 0x40 ≠ 0) := by
        by_cases h0 : 0 ≤ value
        · left
          exact ⟨by omega, hb.2.2.2.2.2 (by omega)⟩
        · right
          refine ⟨by omega, ?_⟩
          intro hc
          have := hb.2.2.2.2.1 hc
          omega
      simp only [hstop, if_true, List.length_singleton]
      omega
  | succ k ih =>
    intro fuel value hf hlo hhi
    cases fuel with
    | zero => omega
    | succ fuel =>
      obtain ⟨b, hbdef⟩ : ∃ b : Nat, (value % 128).toNat = b := ⟨_, rfl⟩
      have hb := byte_facts b (by omega)
      simp only [write_sleb128_loop, hbdef]
      by_cases hstop : (value / 128 = 0 ∧ b &&& 0x40 = 0) ∨ (value / 128 = -1 ∧ b &&& 0x40 ≠ 0)
      · simp only [hstop, if_true, List.length_singleton]
        omega
      · simp only [hstop, if_false, List.length_cons]
        have hne : ¬ (value = 0 ∨ value = -1) := by
          rintro (h | h)
          · subst h
            apply hstop
            left
            have hb0 : b = 0 := by omega
            subst hb0
            exact ⟨by decide, by decide⟩
          · subst h
            apply hstop
            right
            have hb0 : b = 127 := by omega
            subst hb0
            exact ⟨by decide, by decide⟩
        have hpow : (128 : Int) ^ (k + 1) = 128 * 128 ^ k := by
          rw [pow_succ, mul_comm]
        rw [hpow] at hlo hhi
        have := ih fuel (value / 128) (by omega) (by omega) (by omega)
        omega

/-- A signed 32-bit value takes at most 5 bytes in `write_sleb128`. -/
theorem write_sleb128_length_le (value : Int) (hlo : -(2 ^ 31) ≤ value) (hhi : value < 2 ^ 31) :
    (write_sleb128 value).length ≤ 5 := by
  unfold write_sleb128
  exact write_sleb128_loop_length 4 (value.natAbs + 1) value (by omega)
    (by norm_num; omega) (by norm_num; omega)

theorem toInt32_range (x : Nat) : -(2 ^ 31) ≤ toInt32 x ∧ toInt32 x < 2 ^ 31 := by
  unfold toInt32
  split <;> omega

theorem WRITE_UNALIGNED_length (size : Nat) :
    ∀ val : Nat, (WRITE_UNALIGNED size val).length = size := by
  induction size with
  | zero => intro val; rfl
  | succ size ih => intro val; simp [WRITE_UNALIGNED, ih]

/-- A descriptor with 32-bit fields takes at most `25 + sizeof (gpointer)` bytes in
`write_variable`. -/
theorem write_variable_length_le (sizeof_gpointer : Nat) (var : MonoDebugVarInfo)
    (hvar : var.WellFormed sizeof_gpointer) :
    (write_variable sizeof_gpointer var).length ≤ 25 + sizeof_gpointer := by
  obtain ⟨h1, _, h3, h4, h5, _⟩ := hvar
  have l1 := write_leb128_length_le var.index 5 (by decide) (by omega)
  have l2 := write_sleb128_length_le (toInt32 var.offset) (toInt32_range _).1 (toInt32_range _).2
  have l3 := write_leb128_length_le var.size 5 (by decide) (by omega)
  have l4 := write_leb128_length_le var.begin_scope 5 (by decide) (by omega)
  have l5 := write_leb128_length_le var.end_scope 5 (by decide) (by omega)
  have l6 := WRITE_UNALIGNED_length sizeof_gpointer var.type
  simp only [write_variable, List.length_append, l6]
  omega

/-- The line-number loop writes its entries when the array holds them, at most 10 bytes
each. -/
theorem write_line_numbers_length_le :
    ∀ (n : Nat) (line_numbers : List MonoDebugLineNumberEntry), n ≤ line_numbers.length →
      ∃ out, write_line_numbers n line_numbers = some out ∧ out.length ≤ 10 * n := by
  intro n
  induction n with
  | zero => intro _ _; exact ⟨[], rfl, by simp⟩
  | succ n ih =>
    intro line_numbers h
    cases line_numbers with
    | nil => simp at h
    | cons lne rest =>
      obtain ⟨tl, htl, hlen⟩ := ih rest (by simpa using h)
      have l1 := write_sleb128_length_le (toInt32 lne.il_offset) (toInt32_range _).1
        (toInt32_range _).2
      have l2 := write_sleb128_length_le (toInt32 lne.native_offset) (toInt32_range _).1
        (toInt32_range _).2
      refine ⟨write_sleb128 (toInt32 lne.il_offset) ++
        (write_sleb128 (toInt32 lne.native_offset) ++ tl),
        by simp only [write_line_numbers, htl, Option.map_some'], ?_⟩
      simp only [List.length_append]
      omega

/-- The parameter and local loops write their descriptors when the array holds them, at
most `25 + sizeof (gpointer)` bytes each. -/
theorem write_variables_length_le (sizeof_gpointer : Nat) :
    ∀ (n : Nat) (vars : List MonoDebugVarInfo), n ≤ vars.length →
      (∀ var ∈ vars, var.WellFormed sizeof_gpointer) →
      ∃ out, write_variables sizeof_gpointer n vars = some out ∧
        out.length ≤ (25 + sizeof_gpointer) * n := by
  intro n
  induction n with
  | zero => intro _ _ _; exact ⟨[], rfl, by simp⟩
  | succ n ih =>
    intro vars h hwf
    cases vars with
    | nil => simp at h
    | cons var rest =>
      obtain ⟨tl, htl, hlen⟩ := ih rest (by simpa using h)
        (fun v hv => hwf v (List.mem_cons_of_mem _ hv))
      have l1 := write_variable_length_le sizeof_gpointer var (hwf var (List.mem_cons_self _ _))
      refine ⟨write_variable sizeof_gpointer var ++ tl,
        by simp only [write_variables, htl, Option.map_some'], ?_⟩
      simp only [List.length_append, Nat.mul_succ]
      omega

theorem write_this_var_length_le (sizeof_gpointer : Nat) (this_var : Option MonoDebugVarInfo)
    (hwf : ∀ var ∈ this_var, var.WellFormed sizeof_gpointer) :
    (write_this_var sizeof_gpointer this_var).length ≤ 1 + (25 + sizeof_gpointer) := by
  cases this_var with
  | none => simp [write_this_var]
  | some var =>
    have l1 := write_variable_length_le sizeof_gpointer var (hwf var rfl)
    simp only [write_this_var, List.length_cons]
    omega

/-- Claim C22: for a JIT debug info without generic-sharing helper descriptors whose
numbers of line entries, parameters and locals are below 2^21 (pointers of at most 8
bytes), the encoder of `mono_debug_add_method` writes fewer bytes than `max_size`, which
does not wrap around: a 32-bit value takes at most 5 bytes in `write_leb128` and in
`write_sleb128`, a descriptor at most `25 + sizeof (gpointer)` bytes; so the written bytes
stay inside the stack or heap buffer, the assertion `size < max_size` holds, and
`mono_debug_add_method` stores the written record in every state with the lock initialised
and the domain registered. -/
theorem mono_debug_add_method_within_max_size (sizeof_gpointer BUFSIZ : Nat)
    (hP : sizeof_gpointer ≤ 8) (jit : MonoDebugMethodJitInfo)
    (hjit : jit.WellFormed sizeof_gpointer) (hgs : jit.gsharedvt_info_var = none)
    (hnl : jit.num_line_numbers < 2 ^ 21) (hnp : jit.num_params < 2 ^ 21)
    (hnv : jit.num_locals < 2 ^ 21) :
    (∀ x : Nat, x < 2 ^ 32 → (write_leb128 x).length ≤ 5) ∧
    (∀ v : Int, -(2 ^ 31) ≤ v → v < 2 ^ 31 → (write_sleb128 v).length ≤ 5) ∧
    (∀ var : MonoDebugVarInfo, var.WellFormed sizeof_gpointer →
      (write_variable sizeof_gpointer var).length ≤ 25 + sizeof_gpointer) ∧
    max_size sizeof_gpointer jit = (5 * 5) + 1 + (10 * jit.num_line_numbers) +
      (25 + sizeof_gpointer) * (1 + jit.num_params + jit.num_locals) ∧
    ∃ buffer, mono_debug_add_method_write sizeof_gpointer jit = some buffer ∧
      buffer.length < max_size sizeof_gpointer jit ∧
      buffer.length < (if max_size sizeof_gpointer jit > BUFSIZ
        then max_size sizeof_gpointer jit else BUFSIZ) ∧
      ∀ (s : DebugState) (method domain : Nat) (table : MonoDebugDataTable),
        s.initialized = true → lookup_data_table s domain = .ok table →
        mono_debug_add_method sizeof_gpointer BUFSIZ s method jit domain
          = .ok ({ s with
                    data_table_hash := g_hash_table_insert s.data_table_hash domain
                      { method_address_hash := g_hash_table_insert table.method_address_hash
                          method
                          { code_start := jit.code_start, code_size := jit.code_size,
                            data := buffer } } },
                 { code_start := jit.code_start, code_size := jit.code_size,
                   data := buffer }) := by
  obtain ⟨_, hpe, hee, _, hll, _, hthis, _, hpl, hpwf, _, hvl, hvwf, _, _, _⟩ := hjit
  have hmul : (25 + sizeof_gpointer) * (1 + jit.num_params + jit.num_locals)
      = (25 + sizeof_gpointer) + (25 + sizeof_gpointer) * jit.num_params
        + (25 + sizeof_gpointer) * jit.num_locals := by
    rw [Nat.mul_add, Nat.mul_add, Nat.mul_one]
  have hle : (25 + sizeof_gpointer) * (1 + jit.num_params + jit.num_locals)
      ≤ 33 * (1 + jit.num_params + jit.num_locals) :=
    Nat.mul_le_mul_right _ (by omega)
  have hmax : max_size sizeof_gpointer jit = (5 * 5) + 1 + (10 * jit.num_line_numbers) +
      (25 + sizeof_gpointer) * (1 + jit.num_params + jit.num_locals) := by
    unfold max_size
    exact Nat.mod_eq_of_lt (by omega)
  obtain ⟨li, hli, lli⟩ := write_line_numbers_length_le jit.num_line_numbers jit.line_numbers
    (by omega)
  obtain ⟨pa, hpa, lpa⟩ := write_variables_length_le sizeof_gpointer jit.num_params jit.params
    (by omega) hpwf
  obtain ⟨lo, hlo, llo⟩ := write_variables_length_le sizeof_gpointer jit.num_locals jit.locals
    (by omega) hvwf
  have l1 := write_leb128_length_le jit.prologue_end 5 (by decide) (by omega)
  have l2 := write_leb128_length_le jit.epilogue_begin 5 (by decide) (by omega)
  have l3 := write_leb128_length_le jit.num_line_numbers 3 (by decide) (by omega)
  have l4 := write_leb128_length_le jit.num_params 3 (by decide) (by omega)
  have l5 := write_leb128_length_le jit.num_locals 3 (by decide) (by omega)
  have l6 := write_this_var_length_le sizeof_gpointer jit.this_var hthis
  have hbuf : mono_debug_add_method_write sizeof_gpointer jit
      = some (write_leb128 jit.prologue_end ++ (write_leb128 jit.epilogue_begin ++
          (write_leb128 jit.num_line_numbers ++ (li ++
            (write_this_var sizeof_gpointer jit.this_var ++
              (write_leb128 jit.num_params ++ (pa ++
                (write_leb128 jit.num_locals ++ (lo ++ [0]))))))))) := by
    simp only [mono_debug_add_method_write, hli, hpa, hlo, hgs, write_gsharedvt]
  have hlen : (write_leb128 jit.prologue_end ++ (write_leb128 jit.epilogue_begin ++
          (write_leb128 jit.num_line_numbers ++ (li ++
            (write_this_var sizeof_gpointer jit.this_var ++
              (write_leb128 jit.num_params ++ (pa ++
                (write_leb128 jit.num_locals ++ (lo ++ [0]))))))))).length
      < max_size sizeof_gpointer jit := by
    rw [hmax, hmul]
    simp only [List.length_append, List.length_singleton]
    omega
  refine ⟨fun x hx => write_leb128_length_le x 5 (by decide) (by omega),
    write_sleb128_length_le, write_variable_length_le sizeof_gpointer, hmax, _, hbuf, hlen,
    ?_, ?_⟩
  · split <;> omega
  · intro s method domain table hlock htable
    have hcap : ¬ (write_leb128 jit.prologue_end ++ (write_leb128 jit.epilogue_begin ++
          (write_leb128 jit.num_line_numbers ++ (li ++
            (write_this_var sizeof_gpointer jit.this_var ++
              (write_leb128 jit.num_params ++ (pa ++
                (write_leb128 jit.num_locals ++ (lo ++ [0]))))))))).length
        > (if max_size sizeof_gpointer jit > BUFSIZ then max_size sizeof_gpointer jit
            else BUFSIZ) := by
      split <;> omega
    have hlt32 : max_size sizeof_gpointer jit < 2 ^ 32 := Nat.mod_lt _ (by decide)
    unfold mono_debug_add_method mono_debugger_lock
    simp only [hlock, if_true, htable, hbuf]
    rw [if_neg hcap, Nat.mod_eq_of_lt (by omega), List.take_length, if_neg (by omega)]

/-- Claim C22 at `sample_jit_params` (a `this` descriptor, two parameters, one local, two
line entries) with 8-byte pointers and a buffer of 8192 bytes: 77 bytes are written, below
the `max_size` of 178. -/
theorem mono_debug_add_method_within_max_size_witness :
    (8 ≤ 8 ∧ sample_jit_params.WellFormed 8 ∧ sample_jit_params.gsharedvt_info_var = none ∧
      sample_jit_params.num_line_numbers < 2 ^ 21 ∧ sample_jit_params.num_params < 2 ^ 21 ∧
      sample_jit_params.num_locals < 2 ^ 21) ∧
    ((∀ x : Nat, x < 2 ^ 32 → (write_leb128 x).length ≤ 5) ∧
    (∀ v : Int, -(2 ^ 31) ≤ v → v < 2 ^ 31 → (write_sleb128 v).length ≤ 5) ∧
    (∀ var : MonoDebugVarInfo, var.WellFormed 8 → (write_variable 8 var).length ≤ 25 + 8) ∧
    max_size 8 sample_jit_params = (5 * 5) + 1 + (10 * sample_jit_params.num_line_numbers) +
      (25 + 8) * (1 + sample_jit_params.num_params + sample_jit_params.num_locals) ∧
    ∃ buffer, mono_debug_add_method_write 8 sample_jit_params = some buffer ∧
      buffer.length < max_size 8 sample_jit_params ∧
      buffer.length < (if max_size 8 sample_jit_params > 8192
        then max_size 8 sample_jit_params else 8192) ∧
      ∀ (s : DebugState) (method domain : Nat) (table : MonoDebugDataTable),
        s.initialized = true → lookup_data_table s domain = .ok table →
        mono_debug_add_method 8 8192 s method sample_jit_params domain
          = .ok ({ s with
                    data_table_hash := g_hash_table_insert s.data_table_hash domain
                      { method_address_hash := g_hash_table_insert table.method_address_hash
                          method
                          { code_start := sample_jit_params.code_start,
                            code_size := sample_jit_params.code_size,
                            data := buffer } } },
                 { code_start := sample_jit_params.code_start,
                   code_size := sample_jit_params.code_size,
                   data := buffer })) ∧
    (mono_debug_add_method_write 8 sample_jit_params).map List.length = some 77 ∧
    max_size 8 sample_jit_params = 178 ∧
    (mono_debug_add_method 8 8192 sample_state 7 sample_jit_params 1).map
      (fun r => r.2.data.length) = .ok 77 :=
  ⟨⟨by decide, by decide, by decide, by decide, by decide, by decide⟩,
   mono_debug_add_method_within_max_size 8 8192 (by decide) sample_jit_params (by decide)
     (by decide) (by decide) (by decide) (by decide),
   by decide, by decide, by decide⟩

end MonoDebug
